import Mathlib

/-!
# The `vast` stack language: scanner, compiler, bytecode VM and object model

A shallow embedding of `src/scanner.c`, `src/compiler.c`, `src/vm.c` and `src/object.c`, and
properties of it.

* The operand stack `vm.stack .. vm.stack_top` is a list whose head is the slot just below
  `stack_top`; `VM.slots` is the same stack bottom first. An access outside the array
  `vm.stack` is a `Fault`, as is every other step the C program leaves undefined.
* Heap objects are immutable once published, so a `Value` carries the address (`ref`) of its
  object together with the fields of the object. Addresses are handed out by a counter.
* `double` is IEEE-754 binary64 with round-to-nearest-even (`Double`).
* Loops and recursion that need not terminate take a budget `fuel`; running out of it is the
  fault `timeout`.
* `table.c`, `value.c`, `memory.c`, `chunk.c` and `vm.h` are not among the sources. Tables,
  `values_equal`, `write_chunk` and `add_constant` follow the specification; `STACK_MAX`
  and `FRAMES_MAX` are fields of the machine; the collector is left out: no object is ever
  freed.
* A pointer into a C string is the list of the bytes from it up to the terminating NUL.
* The text `runtime_error` writes to `stderr` is not kept, so the `ip` a frame stores is
  never read and `run` keeps the instruction pointer in a local.
-/

set_option autoImplicit false

/-! ## `double` -/

/-- IEEE-754 binary64 values: `fin q` is the finite value `q` (`fin 0` is `+0.0`), `nzero` is
`-0.0`. -/
inductive Double where
  | nan
  | inf (neg : Bool)
  | nzero
  | fin (q : ℚ)
deriving DecidableEq

namespace Double

/-- Number of binary digits of `n`, by halving (`fuel` bounds the number of halvings). -/
def bitsAux : Nat → Nat → Nat
  | 0, _ => 0
  | fuel + 1, n => if n = 0 then 0 else bitsAux fuel (n / 2) + 1

/-- Number of binary digits of `n` (`0` for `0`). -/
def bits (n : Nat) : Nat := bitsAux n n

/-- The exponent `e` with `2 ^ e ≤ a < 2 ^ (e + 1)`, for `a > 0`. -/
def floorLog2 (a : ℚ) : Int :=
  let e0 : Int := (bits a.num.natAbs : Int) - (bits a.den : Int)
  if (2 : ℚ) ^ e0 ≤ a then e0 else e0 - 1

/-- Nearest integer, ties to even. -/
def roundEven (t : ℚ) : Int :=
  let f := Rat.floor t
  let r := t - f
  if r < 1 / 2 then f
  else if 1 / 2 < r then f + 1
  else if f % 2 = 0 then f else f + 1

/-- Rounding of an exact result to binary64: 53 significant bits, minimal exponent `-1022`
(gradual underflow), overflow to infinity. -/
def round (x : ℚ) : Double :=
  if x = 0 then fin 0
  else
    let a := |x|
    let e := max (floorLog2 a) (-1022)
    let ulp : ℚ := (2 : ℚ) ^ (e - 52)
    let y : ℚ := (roundEven (a / ulp) : ℚ) * ulp
    if (2 : ℚ) ^ (1024 : Int) ≤ y then inf (decide (x < 0))
    else if y = 0 then (if x < 0 then nzero else fin 0)
    else if x < 0 then fin (-y) else fin y

/-- Sign bit. -/
def signbit : Double → Bool
  | nan => false
  | inf b => b
  | nzero => true
  | fin q => decide (q < 0)

/-- Zero of either sign. -/
def isZero : Double → Bool
  | nzero => true
  | fin q => decide (q = 0)
  | _ => false

/-- Zero with the given sign bit. -/
def zero (neg : Bool) : Double := if neg then nzero else fin 0

/-- Unary minus. -/
def neg : Double → Double
  | nan => nan
  | inf b => inf (!b)
  | nzero => fin 0
  | fin q => if q = 0 then nzero else fin (-q)

/-- The operator `+` of C on `double`. -/
def add : Double → Double → Double
  | nan, _ => nan
  | _, nan => nan
  | inf a, inf b => if a = b then inf a else nan
  | inf a, _ => inf a
  | _, inf b => inf b
  | nzero, nzero => nzero
  | nzero, fin q => fin q
  | fin p, nzero => fin p
  | fin p, fin q => round (p + q)

/-- The operator `-` of C on `double`. -/
def sub (a b : Double) : Double := add a (neg b)

/-- The operator `*` of C on `double`. -/
def mul : Double → Double → Double
  | nan, _ => nan
  | _, nan => nan
  | inf a, y => if isZero y then nan else inf (xor a (signbit y))
  | x, inf b => if isZero x then nan else inf (xor (signbit x) b)
  | nzero, y => zero (xor true (signbit y))
  | x, nzero => zero (xor (signbit x) true)
  | fin p, fin q => if p * q = 0 then zero (xor (decide (p < 0)) (decide (q < 0))) else round (p * q)

/-- The operator `/` of C on `double`. -/
def div : Double → Double → Double
  | nan, _ => nan
  | _, nan => nan
  | inf _, inf _ => nan
  | inf a, y => inf (xor a (signbit y))
  | x, inf b => zero (xor (signbit x) b)
  | nzero, y => if isZero y then nan else zero (xor true (signbit y))
  | fin p, nzero => if p = 0 then nan else inf (xor (decide (p < 0)) true)
  | fin p, fin q =>
    if q = 0 then (if p = 0 then nan else inf (decide (p < 0)))
    else if p = 0 then zero (decide (q < 0))
    else round (p / q)

/-- The operator `<=` of C on `double`. -/
def le : Double → Double → Bool
  | nan, _ => false
  | _, nan => false
  | inf true, _ => true
  | _, inf false => true
  | inf false, _ => false
  | _, inf true => false
  | nzero, nzero => true
  | nzero, fin q => decide (0 ≤ q)
  | fin p, nzero => decide (p ≤ 0)
  | fin p, fin q => decide (p ≤ q)

/-- The operator `>=` of C on `double`. -/
def ge (a b : Double) : Bool := le b a

/-- The operator `<` of C on `double`. -/
def lt : Double → Double → Bool
  | nan, _ => false
  | _, nan => false
  | a, b => !(le b a)

/-- The operator `>` of C on `double`. -/
def gt (a b : Double) : Bool := lt b a

/-- The operator `==` of C on `double`. -/
def eq (a b : Double) : Bool := le a b && le b a

/-- Conversion of an `int` of small magnitude (exact). -/
def ofInt (i : Int) : Double := fin i

/-- Conversion of the `int` result of a comparison. -/
def ofBool (b : Bool) : Double := if b then fin 1 else fin 0

end Double

/-! ## Heap objects and values (`object.h`) -/

/-- An `ObjString`: `ref` is the address of the object, `chars` the whole character buffer the
object owns (terminating NUL and any bytes after it included). -/
structure ObjString where
  ref : Nat
  length : Nat
  chars : List Nat
  hash : Nat
deriving DecidableEq

/-- A `Value`. Objects carry their address `ref` and their fields: `OBJ_VARIABLE` is an
`ObjVariable`, `OBJ_PROCEDURE` an `ObjProcedure` (`stack` is its value array, index 0 first),
`OBJ_OPERATION` an `ObjOperation`; of closures and functions only the address is kept. -/
inductive Value where
  | NIL
  | BOOL (b : Bool)
  | NUMBER (x : Double)
  | OBJ_STRING (s : ObjString)
  | OBJ_VARIABLE (ref : Nat) (name : ObjString) (value : Value)
  | OBJ_PROCEDURE (ref : Nat) (name : ObjString) (stack : List Value)
  | OBJ_OPERATION (ref : Nat) (type : ObjString)
  | OBJ_CLOSURE (ref : Nat)
  | OBJ_FUNCTION (ref : Nat)

namespace Value

def IS_NIL : Value → Bool
  | NIL => true
  | _ => false

def IS_BOOL : Value → Bool
  | BOOL _ => true
  | _ => false

def IS_NUMBER : Value → Bool
  | NUMBER _ => true
  | _ => false

def IS_STRING : Value → Bool
  | OBJ_STRING _ => true
  | _ => false

def IS_VARIABLE : Value → Bool
  | OBJ_VARIABLE _ _ _ => true
  | _ => false

def IS_PROCEDURE : Value → Bool
  | OBJ_PROCEDURE _ _ _ => true
  | _ => false

def IS_OPERATION : Value → Bool
  | OBJ_OPERATION _ _ => true
  | _ => false

end Value

open Value

/-- `is_falsey` (vm.c 189-192). -/
def is_falsey : Value → Bool
  | NIL => true
  | NUMBER x => Double.eq x (Double.fin 0)
  | BOOL b => !b
  | _ => false

/-- Modelled from the spec: `values_equal` of `value.c` (not in the sources). "Equality is
structural for Nil/Bool/Number; for Object it is defined per object kind (strings compare by
interned identity)": objects of one kind are compared by address. -/
def values_equal : Value → Value → Bool
  | NIL, NIL => true
  | BOOL a, BOOL b => a == b
  | NUMBER a, NUMBER b => Double.eq a b
  | OBJ_STRING a, OBJ_STRING b => a.ref == b.ref
  | OBJ_VARIABLE a _ _, OBJ_VARIABLE b _ _ => a == b
  | OBJ_PROCEDURE a _ _, OBJ_PROCEDURE b _ _ => a == b
  | OBJ_OPERATION a _, OBJ_OPERATION b _ => a == b
  | OBJ_CLOSURE a, OBJ_CLOSURE b => a == b
  | OBJ_FUNCTION a, OBJ_FUNCTION b => a == b
  | _, _ => false

/-! ## Hash table (`table.c`) -/

/-- Modelled from the spec: the table of `table.c` (not in the sources), "keyed by interned
string reference": the entries, each key at most once. -/
abbrev Table := List (ObjString × Value)

/-- Modelled from the spec: `table_get`, the value stored under the key of this address. -/
def table_get : Table → ObjString → Option Value
  | [], _ => none
  | (k, v) :: rest, key => if k.ref = key.ref then some v else table_get rest key

/-- Modelled from the spec: `table_set`, "last-write-wins". -/
def table_set : Table → ObjString → Value → Table
  | [], key, value => [(key, value)]
  | (k, v) :: rest, key, value =>
    if k.ref = key.ref then (k, value) :: rest else (k, v) :: table_set rest key value

/-- Modelled from the spec: `table_delete`, removal of the entry of a key. -/
def table_delete : Table → ObjString → Table
  | [], _ => []
  | (k, v) :: rest, key => if k.ref = key.ref then rest else (k, v) :: table_delete rest key

/-- Modelled from the spec: `table_find_string`, which "probes by hash+length+byte-equality
rather than reference equality"; the bytes compared are the first `length` ones. -/
def table_find_string : Table → List Nat → Nat → Nat → Option ObjString
  | [], _, _, _ => none
  | (k, _) :: rest, chars, length, hash =>
    if k.length = length ∧ k.hash = hash ∧ k.chars.take length = chars.take length then some k
    else table_find_string rest chars length hash

/-! ## The virtual machine state (`vm.h`) -/

inductive InterpretResult where
  | INTERPRET_OK
  | INTERPRET_COMPILE_ERROR
  | INTERPRET_RUNTIME_ERROR
deriving DecidableEq

open InterpretResult

/-- What the C program leaves undefined, and exhaustion of the step budget of the embedding. -/
inductive Fault where
  /-- A `peek` or `pop` below `vm.stack`. -/
  | stack_underflow
  /-- A `push` at `vm.stack + STACK_MAX`. -/
  | stack_overflow
  /-- An `AS_...` cast of a value of another kind. -/
  | bad_cast
  /-- A read outside the chunk or the frame array. -/
  | bad_read
  /-- `length - 1` below zero in the scan fallback. -/
  | bad_size
  /-- The step budget of the embedding ran out (the C program is still running). -/
  | timeout
deriving DecidableEq

/-- A compiled chunk (`chunk.h`). -/
structure Chunk where
  code : List Nat
  lines : List Nat
  constants : List Value

/-- An `ObjFunction`. -/
structure ObjFunction where
  ref : Nat
  arity : Nat
  upvalue_count : Nat
  chunk : Chunk
  name : Option ObjString

/-- An `ObjClosure`. -/
structure ObjClosure where
  ref : Nat
  function : ObjFunction

/-- A `CallFrame`; `slots` is the index of its first stack slot. -/
structure CallFrame where
  closure : ObjClosure
  ip : Nat
  slots : Nat

/-- What `print_value` and `printf` wrote to standard output. -/
inductive Output where
  | value (v : Value)
  | text (s : String)

/-- The operator names interned by `operators` (vm.c 21-23). -/
structure Operators where
  plus : ObjString
  minus : ObjString
  star : ObjString
  divide : ObjString
  dot : ObjString
  scan : ObjString
  equal : ObjString
  less : ObjString
  greater : ObjString
  less_equal : ObjString
  greater_equal : ObjString
  not : ObjString
  not_equal : ObjString
  question : ObjString
  _if : ObjString
  set : ObjString
  comma : ObjString
  mod : ObjString

/-- The global `vm` together with the file-scope variables of vm.c and the process
environment.

* `stack` is `vm.stack .. vm.stack_top`, top first; `STACK_MAX` and `FRAMES_MAX` are the
  sizes of the arrays `vm.stack` and `vm.frames` (constants of `vm.h`, not in the sources).
* `objects` counts the objects allocated so far: the next object gets this address.
* `stale_value` and `stale_char` are the indeterminate contents of an uninitialised `Value`
  local and of a byte of fresh `malloc` memory. -/
structure VM where
  STACK_MAX : Nat
  FRAMES_MAX : Nat
  frames : List CallFrame
  frame_count : Nat
  stack : List Value
  globals : Table
  strings : Table
  open_upvalues : List Nat
  objects : Nat
  ops : Operators
  stdin : List Nat
  stdout : List Output
  stale_value : Value
  stale_char : Nat

/-- Result of a VM routine returning `InterpretResult`. -/
abbrev Res := Except Fault (InterpretResult × VM)

/-- `reset_stack` (vm.c 80-84). -/
def reset_stack (vm : VM) : VM :=
  { vm with stack := [], frame_count := 0, open_upvalues := [] }

/-- `runtime_error` (vm.c 86-106); the text written to `stderr` is not kept. -/
def runtime_error (vm : VM) : VM := reset_stack vm

/-- `push` (vm.c 131-134). -/
def push (value : Value) (vm : VM) : Except Fault VM :=
  if vm.stack.length < vm.STACK_MAX then .ok { vm with stack := value :: vm.stack }
  else .error .stack_overflow

/-- `pop` (vm.c 136-139). -/
def pop (vm : VM) : Except Fault (Value × VM) :=
  match vm.stack with
  | [] => .error .stack_underflow
  | v :: rest => .ok (v, { vm with stack := rest })

/-- `peek` (vm.c 141). -/
def peek (distance : Nat) (vm : VM) : Except Fault Value :=
  match vm.stack[distance]? with
  | none => .error .stack_underflow
  | some v => .ok v

/-! ## Strings (`object.c`) -/

/-- The bytes of a C string literal, with its terminating NUL. -/
def cstring (s : String) : List Nat := s.toList.map Char.toNat ++ [0]

/-- `strlen`: the number of bytes before the first NUL. -/
def strlen (chars : List Nat) : Nat := (chars.takeWhile (fun c => c != 0)).length

/-- The loop of `format` (object.c 56-85) over the bytes `chars[i ..]`, giving the bytes
`formated[j ..]` it leaves: a recognised escape takes two bytes and writes one; a backslash
before any other byte writes nothing at `j` (the byte stays as `malloc` left it) and goes on
with that other byte; the last byte and every other byte are copied. -/
def format_loop (stale : Nat) : List Nat → List Nat
  | [] => []
  | [c] => [c]
  | c :: d :: rest =>
    if c = 92 then
      if d = 110 then 10 :: format_loop stale rest
      else if d = 116 then 9 :: format_loop stale rest
      else if d = 114 then 13 :: format_loop stale rest
      else if d = 92 then 92 :: format_loop stale rest
      else if d = 34 then 34 :: format_loop stale rest
      else stale :: format_loop stale (d :: rest)
    else c :: format_loop stale (d :: rest)

/-- `format` (object.c 52-88): the buffer of `strlen(chars) + 1` bytes it returns. -/
def format (stale : Nat) (chars : List Nat) : List Nat :=
  let source := chars.takeWhile (fun c => c != 0)
  let formated := format_loop stale source
  formated ++ [0] ++ List.replicate (source.length - formated.length) stale

/-- `hash_string` (object.c 102-109), FNV-1a on `uint32_t`; bytes are 7-bit. -/
def hash_string (key : List Nat) (length : Nat) : Nat :=
  (key.take length).foldl (fun hash c => ((hash ^^^ c) * 16777619) % 2 ^ 32) 2166136261

/-- `allocate_string` (object.c 90-100). -/
def allocate_string (chars : List Nat) (length hash : Nat) (string_literal : Bool) (vm : VM) :
    Except Fault (ObjString × VM) := do
  let string : ObjString :=
    { ref := vm.objects, length := length,
      chars := if string_literal then format vm.stale_char chars else chars, hash := hash }
  let vm ← push (OBJ_STRING string) { vm with objects := vm.objects + 1 }
  let vm := { vm with strings := table_set vm.strings string NIL }
  let (_, vm) ← pop vm
  pure (string, vm)

/-- `take_string` (object.c 111-119); `chars` is the buffer handed over. -/
def take_string (chars : List Nat) (length : Nat) (vm : VM) : Except Fault (ObjString × VM) :=
  let hash := hash_string chars length
  match table_find_string vm.strings chars length hash with
  | some interned => pure (interned, vm)
  | none => allocate_string chars length hash true vm

/-- `copy_string` (object.c 121-131); `chars` is the memory from the given pointer on. -/
def copy_string (chars : List Nat) (length : Nat) (strlit : Bool) (vm : VM) :
    Except Fault (ObjString × VM) :=
  let hash := hash_string chars length
  match table_find_string vm.strings chars length hash with
  | some interned => pure (interned, vm)
  | none => allocate_string (chars.take length ++ [0]) length hash strlit vm

/-- `operators` (vm.c 25-44). -/
def operators (vm : VM) : Except Fault VM := do
  let (plus, vm) ← copy_string (cstring "+") 1 false vm
  let (minus, vm) ← copy_string (cstring "-") 1 false vm
  let (star, vm) ← copy_string (cstring "*") 1 false vm
  let (divide, vm) ← copy_string (cstring "/") 1 false vm
  let (dot, vm) ← copy_string (cstring ".") 1 false vm
  let (scan, vm) ← copy_string (cstring "^") 1 false vm
  let (equal, vm) ← copy_string (cstring "?=") 2 false vm
  let (less, vm) ← copy_string (cstring "<") 1 false vm
  let (greater, vm) ← copy_string (cstring ">") 1 false vm
  let (less_equal, vm) ← copy_string (cstring "<=") 2 false vm
  let (greater_equal, vm) ← copy_string (cstring ">=") 2 false vm
  let (not, vm) ← copy_string (cstring "!") 1 false vm
  let (not_equal, vm) ← copy_string (cstring "!=") 2 false vm
  let (question, vm) ← copy_string (cstring "?") 1 false vm
  let (_if, vm) ← copy_string (cstring "if") 2 false vm
  let (set, vm) ← copy_string (cstring "=") 1 false vm
  let (comma, vm) ← copy_string (cstring ",") 1 false vm
  let (mod, vm) ← copy_string (cstring "%%") 1 false vm
  pure { vm with ops :=
    { plus := plus, minus := minus, star := star, divide := divide, dot := dot, scan := scan,
      equal := equal, less := less, greater := greater, less_equal := less_equal,
      greater_equal := greater_equal, not := not, not_equal := not_equal,
      question := question, _if := _if, set := set, comma := comma, mod := mod } }

/-! ## Helpers of the dispatch loop (`vm.c`) -/

/-- Return after `runtime_error`. -/
def fail (vm : VM) : Res := pure (INTERPRET_RUNTIME_ERROR, runtime_error vm)

/-- `concatonate` (vm.c 194-206): `memcpy` of `a->length` and `b->length` bytes. -/
def concatonate (vm : VM) : Except Fault VM := do
  let p0 ← peek 0 vm
  let p1 ← peek 1 vm
  match p0, p1 with
  | OBJ_STRING b, OBJ_STRING a =>
    let length := a.length + b.length
    let chars := a.chars.take a.length ++ b.chars.take b.length ++ [0]
    let (result, vm) ← take_string chars length vm
    let (_, vm) ← pop vm
    let (_, vm) ← pop vm
    push (OBJ_STRING result) vm
  | _, _ => throw .bad_cast

/-- `vars_to_vals` (vm.c 207-230). -/
def vars_to_vals (vm : VM) : Except Fault VM := do
  let v2 ← peek 0 vm
  let v1 ← peek 1 vm
  match v1, v2 with
  | OBJ_VARIABLE _ _ v3, OBJ_VARIABLE _ _ v4 =>
    let (_, vm) ← pop vm
    let (_, vm) ← pop vm
    let vm ← push v3 vm
    push v4 vm
  | OBJ_VARIABLE _ _ v3, _ =>
    let (_, vm) ← pop vm
    let (_, vm) ← pop vm
    let vm ← push v3 vm
    push v2 vm
  | _, OBJ_VARIABLE _ _ v4 =>
    let (_, vm) ← pop vm
    let (_, vm) ← pop vm
    let vm ← push v1 vm
    push v4 vm
  | _, _ => pure vm

/-- The first loop of `define_function` (vm.c 253-256): `remaining` is `STACK_MAX - i`,
`array` the value array written so far; gives the final array and `i`. -/
def define_function_loop (vm : VM) : Nat → Nat → List Value → Except Fault (List Value × Nat)
  | 0, i, array => pure (array, i)
  | remaining + 1, i, array => do
    let v ← peek i vm
    match v with
    | NIL => pure (array, i)
    | _ => define_function_loop vm remaining (i + 1) (array ++ [v])

/-- The second loop of `define_function` (vm.c 257-259): `count` calls of `pop`. -/
def pop_times : Nat → VM → Except Fault VM
  | 0, vm => pure vm
  | count + 1, vm => do
    let (_, vm) ← pop vm
    pop_times count vm

/-- `define_function` (vm.c 249-261). -/
def define_function (name : ObjString) (vm : VM) : Except Fault VM := do
  let ref := vm.objects
  let vm := { vm with objects := vm.objects + 1 }
  let (array, i) ← define_function_loop vm vm.STACK_MAX 0 []
  let vm ← pop_times (i + 1) vm
  pure { vm with globals := table_set vm.globals name (OBJ_PROCEDURE ref name array) }

/-- The loop of `modulo` (vm.c 268-270); `none` when it is still running after `fuel`
tests of its condition. -/
def modulo_loop : Nat → Double → Double → Option Double
  | 0, _, _ => none
  | fuel + 1, a, b => if Double.ge a b then modulo_loop fuel (Double.sub a b) b else some a

/-- `modulo` (vm.c 263-274). -/
def modulo (fuel : Nat) (vm : VM) : Except Fault VM := do
  let a ← peek 1 vm
  let b ← peek 0 vm
  match a, b with
  | NUMBER a_, NUMBER b_ =>
    match modulo_loop fuel a_ b_ with
    | none => throw .timeout
    | some r =>
      let (_, vm) ← pop vm
      let (_, vm) ← pop vm
      push (NUMBER r) vm
  | _, _ => throw .bad_cast

/-- The macro `BINARY_OP(NUMBER_VAL, op)` (vm.c 276-285). -/
def BINARY_OP (op : Double → Double → Double) (vm : VM) : Res := do
  let p0 ← peek 0 vm
  if !IS_NUMBER p0 then fail vm
  else
    let p1 ← peek 1 vm
    if !IS_NUMBER p1 then fail vm
    else
      let (b, vm) ← pop vm
      let (a, vm) ← pop vm
      match a, b with
      | NUMBER a, NUMBER b =>
        let vm ← push (NUMBER (op a b)) vm
        pure (INTERPRET_OK, vm)
      | _, _ => throw .bad_cast

/-- `isdigit` of `ctype.h`. -/
def isdigit (c : Nat) : Bool := decide (48 ≤ c) && decide (c ≤ 57)

/-- The loop of `str_to_double` (vm.c 54-68) from the bytes `input` points at (the end of the
list is the terminating NUL); gives where `input` stops and `val`. -/
def str_to_double_loop : List Nat → Bool → Double → Double → List Nat × Double
  | [], _, val, _ => ([], val)
  | c :: rest, decimals, val, place =>
    if isdigit c || (!decimals && c == 46) then
      if c == 46 then str_to_double_loop rest true val place
      else
        let place := if decimals then Double.div place (Double.fin 10) else place
        let val := if Double.eq place (Double.fin 1) then Double.mul val (Double.fin 10) else val
        let val := Double.add val (Double.mul (Double.ofInt ((c : Int) - 48)) place)
        str_to_double_loop rest decimals val place
    else (c :: rest, val)

/-- `str_to_double` (vm.c 46-78): the value returned and `*status_code`. -/
def str_to_double (input : List Nat) : Double × Int :=
  match input with
  | 10 :: _ => (Double.fin 0, -1)
  | _ =>
    let (input, val) := str_to_double_loop input false (Double.fin 0) (Double.fin 1)
    let input := match input with
      | 10 :: rest => rest
      | _ => input
    match input with
    | [] => (val, 0)
    | _ :: _ => (Double.fin 0, -1)

/-- What `fgets` stores for a buffer that leaves room for `room` characters: it stops after a
newline; gives the characters read and the rest of the stream. -/
def read_line : Nat → List Nat → List Nat × List Nat
  | 0, stream => ([], stream)
  | _ + 1, [] => ([], [])
  | room + 1, c :: stream =>
    if c = 10 then ([c], stream)
    else
      let (line, rest) := read_line room stream
      (c :: line, rest)

/-- `fgets(buffer, size, stdin)`: `none` is the `NULL` of end of input. The stream holds no
NUL byte. -/
def fgets (size : Nat) (stream : List Nat) : Option (List Nat × List Nat) :=
  match stream with
  | [] => none
  | _ => some (read_line (size - 1) stream)

/-- The text of `OP_SCAN` and of the `^` operation (vm.c 646-664 and 389-407). -/
def scan_line (vm : VM) : Res :=
  match fgets 1024 vm.stdin with
  | some (buffer, rest) => do
    let vm := { vm with stdin := rest }
    let (result, status_code) := str_to_double buffer
    if status_code = -1 then
      let length := strlen buffer
      if length = 0 then throw .bad_size
      else
        let str := buffer.take (length - 1) ++ [0]
        let (s, vm) ← take_string str length vm
        let vm ← push (OBJ_STRING s) vm
        pure (INTERPRET_OK, vm)
    else
      let vm ← push (NUMBER result) vm
      pure (INTERPRET_OK, vm)
  | none => fail vm

/-- `print_value`: the value is appended to standard output. -/
def print_value (v : Value) (vm : VM) : VM := { vm with stdout := vm.stdout ++ [Output.value v] }

/-- `printf` of a fixed text. -/
def printf (s : String) (vm : VM) : VM := { vm with stdout := vm.stdout ++ [Output.text s] }

/-- The text of `OP_ADD` and of the `+` operation (vm.c 487-497 and 289-299). After
`vars_to_vals` both `peek(0)` and `peek(1)` are inside the stack. -/
def add_operands (vm : VM) : Res := do
  let vm ← vars_to_vals vm
  let p0 ← peek 0 vm
  let p1 ← peek 1 vm
  if IS_STRING p0 && IS_STRING p1 then
    let vm ← concatonate vm
    pure (INTERPRET_OK, vm)
  else if IS_NUMBER p0 && IS_NUMBER p1 then
    let (b, vm) ← pop vm
    let (a, vm) ← pop vm
    match a, b with
    | NUMBER a, NUMBER b =>
      let vm ← push (NUMBER (Double.add a b)) vm
      pure (INTERPRET_OK, vm)
    | _, _ => throw .bad_cast
  else fail vm

/-- `vars_to_vals(); BINARY_OP(NUMBER_VAL, op);` (vm.c 301-308, 327-337, 501-510, 532-545). -/
def binary_operands (op : Double → Double → Double) (vm : VM) : Res := do
  let vm ← vars_to_vals vm
  BINARY_OP op vm

/-- The text of `OP_MOD` and of the `%` operation (vm.c 513-518 and 310-315). -/
def mod_operands (fuel : Nat) (vm : VM) : Res := do
  let vm ← vars_to_vals vm
  let p0 ← peek 0 vm
  if !IS_NUMBER p0 then fail vm
  else
    let p1 ← peek 1 vm
    if !IS_NUMBER p1 then fail vm
    else
      let vm ← modulo fuel vm
      pure (INTERPRET_OK, vm)

/-- The text of `OP_SET_VARIABLE` and of the `=` operation (vm.c 685-691 and 409-415). -/
def set_variable (vm : VM) : Res := do
  let p0 ← peek 0 vm
  match p0 with
  | OBJ_VARIABLE _ name _ =>
    let p1 ← peek 1 vm
    let vm := { vm with globals := table_set vm.globals name p1 }
    let (_, vm) ← pop vm
    let (_, vm) ← pop vm
    pure (INTERPRET_OK, vm)
  | _ => fail vm

/-- The text of `OP_PRINT` and of the `.` operation (vm.c 637-642 and 382-387). -/
def print_top (vm : VM) : Res := do
  let p0 ← peek 0 vm
  match p0 with
  | OBJ_VARIABLE _ _ value =>
    let vm := print_value value vm
    let (_, vm) ← pop vm
    pure (INTERPRET_OK, vm)
  | _ =>
    let (v, vm) ← pop vm
    pure (INTERPRET_OK, print_value v vm)

/-- `Value value; table_get(&vm.globals, name, &value);`: the local keeps its indeterminate
content when the name is not bound. -/
def lookup_global (name : ObjString) (vm : VM) : Value :=
  match table_get vm.globals name with
  | some value => value
  | none => vm.stale_value

/-- The text of `OP_VARIABLE` and of the variable branch of `run_function` (vm.c 676-681 and
456-462): a new `ObjVariable` holding what `name` is bound to now. -/
def push_variable (name : ObjString) (vm : VM) : Except Fault VM :=
  let value := lookup_global name vm
  push (OBJ_VARIABLE vm.objects name value) { vm with objects := vm.objects + 1 }

/-- The loop of `run_function` (vm.c 448-466) over the stored values in the order of the
loop, `run_operation` being given. -/
def run_function_loop (run_operation : ObjString → VM → Res) : List Value → VM → Res
  | [], vm => pure (INTERPRET_OK, vm)
  | OBJ_OPERATION _ type :: rest, vm => do
    let (result, vm) ← run_operation type vm
    if result = INTERPRET_RUNTIME_ERROR then pure (INTERPRET_RUNTIME_ERROR, vm)
    else run_function_loop run_operation rest vm
  | OBJ_VARIABLE _ name _ :: rest, vm => do
    let vm ← push_variable name vm
    run_function_loop run_operation rest vm
  | v :: rest, vm => do
    let vm ← push v vm
    run_function_loop run_operation rest vm

/-- The text of `OP_IF` and of the `if` operation up to the value of `result` (vm.c 610-630
and 357-377), the two routines it calls being given. -/
def if_operands (run_function : List Value → VM → Res) (run_operation : ObjString → VM → Res)
    (vm : VM) : Res := do
  let (val, vm) ← pop vm
  let vm ← vars_to_vals vm
  let vm ← push val vm
  let p0 ← peek 0 vm
  let boolean := !is_falsey p0
  let path ← if boolean then peek 2 vm else peek 1 vm
  let (_, vm) ← pop vm
  let (_, vm) ← pop vm
  let (_, vm) ← pop vm
  match path with
  | OBJ_PROCEDURE _ _ stack => run_function stack vm
  | OBJ_OPERATION _ type => run_operation type vm
  | _ =>
    let vm ← push path vm
    pure (INTERPRET_OK, vm)

/-- The text of `OP_APPLY` and of the `,` operation up to the value of `result` (vm.c 698-710
and 417-429). -/
def apply_top (run_function : List Value → VM → Res) (vm : VM) : Res := do
  let p0 ← peek 0 vm
  match p0 with
  | OBJ_VARIABLE _ name _ =>
    match lookup_global name vm with
    | OBJ_PROCEDURE _ _ stack =>
      let (_, vm) ← pop vm
      run_function stack vm
    | _ => fail { vm with globals := table_delete vm.globals name }
  | _ => fail vm

/-- The `?=` operation (vm.c 317-325). -/
def equal_operation (vm : VM) : Res := do
  let vm ← vars_to_vals vm
  let (b, vm) ← pop vm
  let (a, vm) ← pop vm
  let vm := printf "a: " vm
  let vm := print_value a vm
  let vm := printf "\nb: " vm
  let vm := print_value b vm
  let vm := printf "\n" vm
  let vm ← push (BOOL (values_equal a b)) vm
  pure (INTERPRET_OK, vm)

/-- `if (IS_VARIABLE(peek(0))) { ...; pop(); push(value); }` (vm.c 339-343 and 348-352). -/
def unwrap_top (vm : VM) : Except Fault VM := do
  let p0 ← peek 0 vm
  match p0 with
  | OBJ_VARIABLE _ _ value =>
    let (_, vm) ← pop vm
    push value vm
  | _ => pure vm

/-- The `!` operation (vm.c 339-346). -/
def not_operation (vm : VM) : Res := do
  let vm ← unwrap_top vm
  let p0 ← peek 0 vm
  let (_, vm) ← pop vm
  let vm ← push (BOOL (is_falsey p0)) vm
  pure (INTERPRET_OK, vm)

/-- The `?` operation (vm.c 348-355). -/
def question_operation (vm : VM) : Res := do
  let vm ← unwrap_top vm
  let p0 ← peek 0 vm
  let (_, vm) ← pop vm
  let vm ← push (BOOL (!is_falsey p0)) vm
  pure (INTERPRET_OK, vm)

/-- `if (result == INTERPRET_RUNTIME_ERROR) return INTERPRET_RUNTIME_ERROR;` and then the
`return INTERPRET_OK` at the end of `run_operation`. -/
def propagate (r : Res) : Res := do
  let (result, vm) ← r
  if result = INTERPRET_RUNTIME_ERROR then pure (INTERPRET_RUNTIME_ERROR, vm)
  else pure (INTERPRET_OK, vm)

/-- `run_operation` (vm.c 287-436). `fuel` bounds the depth of the calls of `run_function`
and `run_operation` below this one, and the iterations of the loop of `modulo`. -/
def run_operation : Nat → ObjString → VM → Res
  | 0, _, _ => throw .timeout
  | fuel + 1, type, vm =>
    if values_equal (OBJ_STRING type) (OBJ_STRING vm.ops.plus) then add_operands vm
    else if values_equal (OBJ_STRING type) (OBJ_STRING vm.ops.minus) then
      binary_operands Double.sub vm
    else if values_equal (OBJ_STRING type) (OBJ_STRING vm.ops.star) then
      binary_operands Double.mul vm
    else if values_equal (OBJ_STRING type) (OBJ_STRING vm.ops.divide) then
      binary_operands Double.div vm
    else if values_equal (OBJ_STRING type) (OBJ_STRING vm.ops.mod) then mod_operands fuel vm
    else if values_equal (OBJ_STRING type) (OBJ_STRING vm.ops.equal) then equal_operation vm
    else if values_equal (OBJ_STRING type) (OBJ_STRING vm.ops.greater) then
      binary_operands (fun a b => Double.ofBool (Double.gt a b)) vm
    else if values_equal (OBJ_STRING type) (OBJ_STRING vm.ops.less) then
      binary_operands (fun a b => Double.ofBool (Double.lt a b)) vm
    else if values_equal (OBJ_STRING type) (OBJ_STRING vm.ops.greater_equal) then
      binary_operands (fun a b => Double.ofBool (Double.ge a b)) vm
    else if values_equal (OBJ_STRING type) (OBJ_STRING vm.ops.less_equal) then
      binary_operands (fun a b => Double.ofBool (Double.le a b)) vm
    else if values_equal (OBJ_STRING type) (OBJ_STRING vm.ops.not) then not_operation vm
    else if values_equal (OBJ_STRING type) (OBJ_STRING vm.ops.question) then
      question_operation vm
    else if values_equal (OBJ_STRING type) (OBJ_STRING vm.ops._if) then
      propagate (if_operands (fun stack => run_function_loop (run_operation fuel) stack.reverse)
        (run_operation fuel) vm)
    else if values_equal (OBJ_STRING type) (OBJ_STRING vm.ops.dot) then print_top vm
    else if values_equal (OBJ_STRING type) (OBJ_STRING vm.ops.scan) then scan_line vm
    else if values_equal (OBJ_STRING type) (OBJ_STRING vm.ops.set) then set_variable vm
    else if values_equal (OBJ_STRING type) (OBJ_STRING vm.ops.comma) then
      propagate (apply_top (fun stack => run_function_loop (run_operation fuel) stack.reverse)
        vm)
    else pure (INTERPRET_OK, vm)

/-- `run_function` (vm.c 447-468) on the value array of the procedure: the loop goes from
the last index down to 0. -/
def run_function (fuel : Nat) (stack : List Value) (vm : VM) : Res :=
  run_function_loop (run_operation fuel) stack.reverse vm

/-! ## The dispatch loop -/

/-- `Op_Code` (chunk.h 5-34). -/
inductive Op_Code where
  | OP_PRINT | OP_SCAN | OP_ADD | OP_SUBTRACT | OP_MULTIPLY | OP_DIVIDE | OP_MOD
  | OP_EQUAL | OP_GREATER | OP_LESS | OP_GREATER_EQUAL | OP_LESS_EQUAL | OP_NOT
  | OP_WHILE | OP_IF
  | OP_PUSH_OPERATION
  | OP_VARIABLE | OP_SET_VARIABLE
  | OP_DEFINE_FUNCTION | OP_APPLY
  | OP_CONSTANT | OP_RETURN
deriving DecidableEq

open Op_Code

/-- The byte of an opcode: its position in the `enum`. -/
def Op_Code.toByte : Op_Code → Nat
  | OP_PRINT => 0 | OP_SCAN => 1 | OP_ADD => 2 | OP_SUBTRACT => 3 | OP_MULTIPLY => 4
  | OP_DIVIDE => 5 | OP_MOD => 6 | OP_EQUAL => 7 | OP_GREATER => 8 | OP_LESS => 9
  | OP_GREATER_EQUAL => 10 | OP_LESS_EQUAL => 11 | OP_NOT => 12 | OP_WHILE => 13 | OP_IF => 14
  | OP_PUSH_OPERATION => 15 | OP_VARIABLE => 16 | OP_SET_VARIABLE => 17
  | OP_DEFINE_FUNCTION => 18 | OP_APPLY => 19 | OP_CONSTANT => 20 | OP_RETURN => 21

/-- The `case` a byte selects in the `switch` of `run`, if any. -/
def Op_Code.ofByte : Nat → Option Op_Code
  | 0 => some OP_PRINT | 1 => some OP_SCAN | 2 => some OP_ADD | 3 => some OP_SUBTRACT
  | 4 => some OP_MULTIPLY | 5 => some OP_DIVIDE | 6 => some OP_MOD | 7 => some OP_EQUAL
  | 8 => some OP_GREATER | 9 => some OP_LESS | 10 => some OP_GREATER_EQUAL
  | 11 => some OP_LESS_EQUAL | 12 => some OP_NOT | 13 => some OP_WHILE | 14 => some OP_IF
  | 15 => some OP_PUSH_OPERATION | 16 => some OP_VARIABLE | 17 => some OP_SET_VARIABLE
  | 18 => some OP_DEFINE_FUNCTION | 19 => some OP_APPLY | 20 => some OP_CONSTANT
  | 21 => some OP_RETURN
  | _ => none

/-- `READ_BYTE()`: the byte at `ip` and the advanced `ip`. -/
def READ_BYTE (chunk : Chunk) (ip : Nat) : Except Fault (Nat × Nat) :=
  match chunk.code[ip]? with
  | none => throw .bad_read
  | some byte => pure (byte, ip + 1)

/-- `READ_CONSTANT()`. -/
def READ_CONSTANT (chunk : Chunk) (ip : Nat) : Except Fault (Value × Nat) := do
  let (index, ip) ← READ_BYTE chunk ip
  match chunk.constants[index]? with
  | none => throw .bad_read
  | some constant => pure (constant, ip)

/-- `READ_STRING()`. -/
def READ_STRING (chunk : Chunk) (ip : Nat) : Except Fault (ObjString × Nat) := do
  let (constant, ip) ← READ_CONSTANT chunk ip
  match constant with
  | OBJ_STRING s => pure (s, ip)
  | _ => throw .bad_cast

/-- The `do ... while (true)` of `OP_WHILE` (vm.c 579-605); `fuel` bounds its iterations. -/
def while_loop (run_function : List Value → VM → Res) (while_condition_proc while_body_proc :
    List Value) : Nat → VM → Res
  | 0, _ => throw .timeout
  | fuel + 1, vm => do
    let (condition_result, vm) ← run_function while_condition_proc vm
    if condition_result = INTERPRET_RUNTIME_ERROR then pure (INTERPRET_RUNTIME_ERROR, vm)
    else
      let condition_value ← peek 0 vm
      if is_falsey condition_value then
        if vm.stack.length > 1 then
          let (_, vm) ← pop vm
          pure (INTERPRET_OK, vm)
        else pure (INTERPRET_OK, vm)
      else
        let vm ← if vm.stack.length > 1 then (do let (_, vm) ← pop vm; pure vm) else pure vm
        let (body_result, vm) ← run_function while_body_proc vm
        if body_result = INTERPRET_RUNTIME_ERROR then pure (INTERPRET_RUNTIME_ERROR, vm)
        else while_loop run_function while_condition_proc while_body_proc fuel vm

/-- The text of `OP_WHILE` (vm.c 560-608). When the top is not a variable the code calls
`runtime_error` and goes on to `AS_VARIABLE(while_body_var)->name`. The two uninitialised
locals hold the same stale value. -/
def while_operands (fuel : Nat) (vm : VM) : Res := do
  let while_body_var ← peek 0 vm
  match while_body_var with
  | OBJ_VARIABLE _ name _ =>
    let while_body := lookup_global name vm
    let (key, vm) ← copy_string (cstring "while_condition") 15 false vm
    let while_condition := lookup_global key vm
    match while_condition, while_body with
    | OBJ_PROCEDURE _ _ while_condition_proc, OBJ_PROCEDURE _ _ while_body_proc =>
      let (_, vm) ← pop vm
      while_loop (run_function fuel) while_condition_proc while_body_proc fuel vm
    | _, _ => fail vm
  | _ => throw .bad_cast

/-- The text of `OP_EQUAL` (vm.c 522-528). -/
def equal_operands (vm : VM) : Except Fault VM := do
  let vm ← vars_to_vals vm
  let b ← peek 0 vm
  let a ← peek 1 vm
  let result := BOOL (values_equal a b)
  let (_, vm) ← pop vm
  let (_, vm) ← pop vm
  push result vm

/-- The text of `OP_NOT` (vm.c 548-558): a variable on top is replaced by its value and the
`break` leaves the case; any other value is replaced by `is_falsey` of it. -/
def not_operand (vm : VM) : Except Fault VM := do
  let p0 ← peek 0 vm
  match p0 with
  | OBJ_VARIABLE _ _ value =>
    let (_, vm) ← pop vm
    push value vm
  | _ =>
    let (_, vm) ← pop vm
    push (BOOL (is_falsey p0)) vm

/-- The text of `OP_PUSH_OPERATION` (vm.c 668-671) once the name is read. -/
def push_operation (op : ObjString) (vm : VM) : Except Fault VM :=
  push (OBJ_OPERATION vm.objects op) { vm with objects := vm.objects + 1 }

/-- What one turn of the `for (;;)` of `run` does after a `case` that can `return
INTERPRET_RUNTIME_ERROR`: return, or go on at `ip`. -/
def finish (ip : Nat) (r : Res) : Except Fault (Option InterpretResult × Nat × VM) := do
  let (result, vm) ← r
  if result = INTERPRET_RUNTIME_ERROR then pure (some INTERPRET_RUNTIME_ERROR, ip, vm)
  else pure (none, ip, vm)

/-- What one turn does after a `case` that ends in `break`. -/
def proceed (ip : Nat) (r : Except Fault VM) : Except Fault (Option InterpretResult × Nat × VM) := do
  let vm ← r
  pure (none, ip, vm)

/-- The `switch` of `run` (vm.c 485-723) on a decoded instruction, `ip` being past its
opcode byte. -/
def dispatch (fuel : Nat) (chunk : Chunk) (ip : Nat) (vm : VM) :
    Option Op_Code → Except Fault (Option InterpretResult × Nat × VM)
  | some OP_ADD => finish ip (add_operands vm)
  | some OP_SUBTRACT => finish ip (binary_operands Double.sub vm)
  | some OP_MULTIPLY => finish ip (binary_operands Double.mul vm)
  | some OP_DIVIDE => finish ip (binary_operands Double.div vm)
  | some OP_MOD => finish ip (mod_operands fuel vm)
  | some OP_EQUAL => proceed ip (equal_operands vm)
  | some OP_GREATER =>
    finish ip (binary_operands (fun a b => Double.ofBool (Double.gt a b)) vm)
  | some OP_LESS => finish ip (binary_operands Double.mul vm)
  | some OP_GREATER_EQUAL => finish ip (binary_operands Double.mul vm)
  | some OP_LESS_EQUAL => finish ip (binary_operands Double.mul vm)
  | some OP_NOT => proceed ip (not_operand vm)
  | some OP_WHILE => finish ip (while_operands fuel vm)
  | some OP_IF => finish ip (if_operands (run_function fuel) (run_operation fuel) vm)
  | some OP_PRINT => finish ip (print_top vm)
  | some OP_SCAN => finish ip (scan_line vm)
  | some OP_PUSH_OPERATION => do
    let (op, ip) ← READ_STRING chunk ip
    proceed ip (push_operation op vm)
  | some OP_VARIABLE => do
    let (name, ip) ← READ_STRING chunk ip
    proceed ip (push_variable name vm)
  | some OP_SET_VARIABLE => finish ip (set_variable vm)
  | some OP_DEFINE_FUNCTION => do
    let (name, ip) ← READ_STRING chunk ip
    proceed ip (define_function name vm)
  | some OP_APPLY => finish ip (apply_top (run_function fuel) vm)
  | some OP_RETURN => pure (some INTERPRET_OK, ip, vm)
  | some OP_CONSTANT => do
    let (constant, ip) ← READ_CONSTANT chunk ip
    proceed ip (push constant vm)
  | none => pure (none, ip, vm)

/-- One turn of the `for (;;)` of `run` (vm.c 480-724) with the instruction pointer at `ip`:
`some result` when `run` returns, else `none` with the new instruction pointer. -/
def step (fuel : Nat) (chunk : Chunk) (ip : Nat) (vm : VM) :
    Except Fault (Option InterpretResult × Nat × VM) := do
  let (instruction, ip) ← READ_BYTE chunk ip
  dispatch fuel chunk ip vm (Op_Code.ofByte instruction)

/-- The `for (;;)` of `run`; `fuel` bounds the number of instructions and is the budget of
each of them. -/
def run_loop : Nat → Chunk → Nat → VM → Res
  | 0, _, _, _ => throw .timeout
  | fuel + 1, chunk, ip, vm => do
    let (result, ip, vm) ← step fuel chunk ip vm
    match result with
    | some result => pure (result, vm)
    | none => run_loop fuel chunk ip vm

/-- `run` (vm.c 470-731) on the frame `vm.frames[vm.frame_count - 1]`; the `ip` stored in
the frame is not written back (only the backtrace of `runtime_error` reads it). -/
def run (fuel : Nat) (vm : VM) : Res :=
  match vm.frame_count with
  | 0 => throw .bad_read
  | n + 1 =>
    match vm.frames[n]? with
    | none => throw .bad_read
    | some frame => do
      let vm ← operators vm
      run_loop fuel frame.closure.function.chunk frame.ip vm

/-! ## Start-up -/

/-- The `NULL` string pointer. -/
def null_string : ObjString := { ref := 0, length := 0, chars := [], hash := 0 }

/-- The file-scope operator pointers before `operators` has run. -/
def null_operators : Operators :=
  { plus := null_string, minus := null_string, star := null_string, divide := null_string,
    dot := null_string, scan := null_string, equal := null_string, less := null_string,
    greater := null_string, less_equal := null_string, greater_equal := null_string,
    not := null_string, not_equal := null_string, question := null_string,
    _if := null_string, set := null_string, comma := null_string, mod := null_string }

/-- `init_VM` (vm.c 108-122) in a process with the given array sizes, standard input and
stale memory; addresses start at 1. -/
def init_VM (STACK_MAX FRAMES_MAX : Nat) (stdin : List Nat) (stale_value : Value)
    (stale_char : Nat) : Except Fault VM := do
  let vm : VM :=
    { STACK_MAX := STACK_MAX, FRAMES_MAX := FRAMES_MAX, frames := [], frame_count := 0,
      stack := [], globals := [], strings := [], open_upvalues := [], objects := 1,
      ops := null_operators, stdin := stdin, stdout := [], stale_value := stale_value,
      stale_char := stale_char }
  let (_, vm) ← copy_string (cstring "init") 4 false vm
  operators vm

/-! ## Notions used to state the properties -/

/-- The stack bottom first, as the array `vm.stack[0 ..]` holds it. -/
def VM.slots (vm : VM) : List Value := vm.stack.reverse

/-- `AS_VARIABLE(v)->value` for a variable, `v` itself otherwise. -/
def held : Value → Value
  | OBJ_VARIABLE _ _ value => value
  | v => v

/-- The addresses of the operator names in the order `run_operation` tests them, then
`not_equal`. -/
def Operators.refs (ops : Operators) : List Nat :=
  [ops.plus.ref, ops.minus.ref, ops.star.ref, ops.divide.ref, ops.mod.ref, ops.equal.ref,
    ops.greater.ref, ops.less.ref, ops.greater_equal.ref, ops.less_equal.ref, ops.not.ref,
    ops.question.ref, ops._if.ref, ops.dot.ref, ops.scan.ref, ops.set.ref, ops.comma.ref,
    ops.not_equal.ref]

/-- The operation of name `type` is the operator `name`: the operator names are distinct
objects and `type` is the one of `name`. -/
def VM.is_operation (vm : VM) (type : ObjString) (name : Operators → ObjString) : Prop :=
  vm.ops.refs.Nodup ∧ type.ref = (name vm.ops).ref

/-- All execution state of the VM has been discarded: no operand, no frame, no open
upvalue. -/
def VM.discarded (vm : VM) : Prop :=
  vm.stack = [] ∧ vm.frame_count = 0 ∧ vm.open_upvalues = []

/-! ## A concrete machine -/

/-- A machine before `init_VM`: 256 stack slots, 64 frames, empty input. -/
def blank_VM : VM :=
  { STACK_MAX := 256, FRAMES_MAX := 64, frames := [], frame_count := 0, stack := [],
    globals := [], strings := [], open_upvalues := [], objects := 1, ops := null_operators,
    stdin := [], stdout := [], stale_value := NIL, stale_char := 0 }

/-- The machine `init_VM` builds from `blank_VM`. -/
def booted_VM : VM :=
  match init_VM 256 64 [] NIL 0 with
  | .ok vm => vm
  | .error _ => blank_VM

/-! ## Start of a script -/

/-- `new_closure` (object.c 30-40); a script has no upvalue. -/
def new_closure (function : ObjFunction) (vm : VM) : ObjClosure × VM :=
  ({ ref := vm.objects, function := function }, { vm with objects := vm.objects + 1 })

/-- `call` (vm.c 143-158): the new frame is written at `vm.frames[vm.frame_count]`. -/
def call (closure : ObjClosure) (arg_count : Nat) (vm : VM) : Bool × VM :=
  if arg_count ≠ closure.function.arity then (false, runtime_error vm)
  else if vm.frame_count = vm.FRAMES_MAX then (false, runtime_error vm)
  else
    let frame : CallFrame :=
      { closure := closure, ip := 0, slots := vm.stack.length - arg_count - 1 }
    (true, { vm with frames := vm.frames.take vm.frame_count ++ [frame],
                     frame_count := vm.frame_count + 1 })

/-- `interpret` (vm.c 739-743) between `compile` and `run`, for the function `compile`
returned. -/
def load (function : ObjFunction) (vm : VM) : Except Fault VM := do
  let vm ← push (OBJ_FUNCTION function.ref) vm
  let (closure, vm) := new_closure function vm
  let (_, vm) ← pop vm
  let vm ← push (OBJ_CLOSURE closure.ref) vm
  let (_, vm) := call closure 0 vm
  pure vm

/-- `interpret` (vm.c 733-746) for the result of `compile` (`none` is `NULL`). -/
def interpret_compiled (function : Option ObjFunction) (fuel : Nat) (vm : VM) : Res :=
  match function with
  | none => pure (INTERPRET_COMPILE_ERROR, vm)
  | some function => do
    let vm ← load function vm
    run fuel vm

/-! ## Concrete scripts

The chunks below are what `compile` (compiler.c 281-360) emits for the source quoted:
`OP_CONSTANT k` for a number or a string literal, `OP_VARIABLE k` for an identifier (a new
constant each time), one opcode for an operator, `OP_RETURN` at the end. -/

/-- The calls of `copy_string` the compiler makes for the names of a source (`false`) and for
its string literals (`true`), in order. -/
def intern_names : List (String × Bool) → VM → List ObjString × VM
  | [], vm => ([], vm)
  | (name, strlit) :: names, vm =>
    match copy_string (cstring name) name.length strlit vm with
    | .ok (s, vm) =>
      let (rest, vm) := intern_names names vm
      (s :: rest, vm)
    | .error _ => ([], vm)

/-- The machine at the call of `run` for a script with the given names, code and
constants (built from the interned names), started on `booted_VM`. -/
def script_VM (names : List (String × Bool)) (code : List Nat) (constants : List ObjString → List Value) :
    VM :=
  let ref := booted_VM.objects
  let (strings, vm) := intern_names names { booted_VM with objects := ref + 1 }
  let function : ObjFunction :=
    { ref := ref, arity := 0, upvalue_count := 0, name := none,
      chunk := { code := code, lines := code.map (fun _ => 1), constants := constants strings } }
  match load function vm with
  | .ok vm => vm
  | .error _ => blank_VM

/-- The script `5 x = x .` -/
def script_assign_read : VM :=
  script_VM [("x", false)] [20, 0, 16, 1, 17, 16, 2, 0, 21] fun names =>
    [NUMBER (Double.fin 5), OBJ_STRING (names.getD 0 null_string),
      OBJ_STRING (names.getD 0 null_string)]

/-- The script `1 x = x 2 x = 3`: what is on the stack when a following `+` starts. -/
def script_reassign : VM :=
  script_VM [("x", false)] [20, 0, 16, 1, 17, 16, 2, 20, 3, 16, 4, 17, 20, 5, 21] fun names =>
    [NUMBER (Double.fin 1), OBJ_STRING (names.getD 0 null_string),
      OBJ_STRING (names.getD 0 null_string), NUMBER (Double.fin 2),
      OBJ_STRING (names.getD 0 null_string), NUMBER (Double.fin 3)]

/-- The script `'a' 1 +` -/
def script_string_plus_number : VM :=
  script_VM [("a", true)] [20, 0, 20, 1, 2, 21] fun names =>
    [OBJ_STRING (names.getD 0 null_string), NUMBER (Double.fin 1)]

/-- The object of the `i`-th of the names interned on `booted_VM`. -/
def demo_name (names : List (String × Bool)) (i : Nat) : ObjString :=
  (intern_names names booted_VM).1.getD i null_string

/-- The booted machine after the names are interned, with the given operand stack (top
first) and globals. -/
def demo_VM (names : List (String × Bool)) (stack : List Value) (globals : Table) : VM :=
  { (intern_names names booted_VM).2 with stack := stack, globals := globals }

/-- A chunk of the given code without constants. -/
def code_only (code : List Nat) : Chunk := { code := code, lines := [], constants := [] }

/-- The interned name `body`. -/
def body_name : ObjString := demo_name [("body", false)] 0

/-- The interned name `x`. -/
def x_name : ObjString := demo_name [("x", false)] 0

/-- The interned literal `'a'`. -/
def a_string : ObjString := demo_name [("a", true)] 0

/-- The stack of `: 1 2 3` above the script closure. -/
def capture_VM : VM :=
  demo_VM [("body", false)]
    [NUMBER (Double.fin 3), NUMBER (Double.fin 2), NUMBER (Double.fin 1), NIL, OBJ_CLOSURE 21] []

/-- The stack of `1 2 false` above the script closure. -/
def if_VM : VM :=
  demo_VM [] [BOOL false, NUMBER (Double.fin 2), NUMBER (Double.fin 1), OBJ_CLOSURE 21] []

/-- The stack of `5 x` above the script closure, `x` not bound. -/
def assign_VM : VM :=
  demo_VM [("x", false)] [OBJ_VARIABLE 22 x_name NIL, NUMBER (Double.fin 5), OBJ_CLOSURE 21] []

/-- The code of `= x .` with its constant. -/
def assign_chunk : Chunk :=
  { code := [17, 16, 0, 0, 21], lines := [1, 1, 1, 1, 1], constants := [OBJ_STRING x_name] }

/-- The stack of `'a' 1` above the script closure. -/
def string_number_VM : VM :=
  demo_VM [("a", true)] [NUMBER (Double.fin 1), OBJ_STRING a_string, OBJ_CLOSURE 21] []

/-- The stack of `7 3` above the script closure. -/
def seven_three_VM : VM :=
  demo_VM [] [NUMBER (Double.fin 3), NUMBER (Double.fin 7), OBJ_CLOSURE 21] []

/-- The script closure alone on the stack, `x` bound to 2. -/
def rebound_VM : VM := demo_VM [("x", false)] [OBJ_CLOSURE 21] [(x_name, NUMBER (Double.fin 2))]

/-- A variable `x` made when `x` was 1 and the number 3 above the script closure, `x` bound
to 2. -/
def stale_variable_VM : VM :=
  demo_VM [("x", false)]
    [NUMBER (Double.fin 3), OBJ_VARIABLE 22 x_name (NUMBER (Double.fin 1)), OBJ_CLOSURE 21]
    [(x_name, NUMBER (Double.fin 2))]

/-! ## Scanner (`scanner.c`)

A pointer into the source is the list of the bytes from it to the terminating NUL (the end
of the list); the source holds no NUL byte. -/

/-- `TokenType` (scanner.h 6-43). -/
inductive TokenType where
  | TOKEN_LEFT_PAREN | TOKEN_RIGHT_PAREN | TOKEN_COMMA | TOKEN_DOT | TOKEN_CARROT
  | TOKEN_MINUS | TOKEN_PLUS | TOKEN_SLASH | TOKEN_STAR | TOKEN_MOD
  | TOKEN_BANG | TOKEN_BANG_EQUAL | TOKEN_EQUAL | TOKEN_EQUAL_EQUAL | TOKEN_GREATER
  | TOKEN_GREATER_EQUAL | TOKEN_LESS | TOKEN_LESS_EQUAL | TOKEN_QUESTION
  | TOKEN_IDENTIFIER | TOKEN_STRING | TOKEN_NUMBER
  | TOKEN_AND | TOKEN_FALSE | TOKEN_IF | TOKEN_OR | TOKEN_TRUE | TOKEN_WHILE | TOKEN_ARROW
  | TOKEN_COLON
  | TOKEN_ERROR | TOKEN_EOF
deriving DecidableEq

open TokenType

/-- A `Token` (scanner.h 45-50); `start` points into the source, or at the message of an
error token. -/
structure Token where
  type : TokenType
  start : List Nat
  length : Nat
  line : Nat
deriving DecidableEq

/-- The global `scanner` (scanner.c 9-15); `current` is a suffix of `start`. -/
structure Scanner where
  start : List Nat
  current : List Nat
  line : Nat
deriving DecidableEq

/-- `init_scanner` (scanner.c 17-21). -/
def init_scanner (source : List Nat) : Scanner :=
  { start := source, current := source, line := 1 }

/-- `is_digit` (scanner.c 23). -/
def is_digit (c : Nat) : Bool := decide (48 ≤ c) && decide (c ≤ 57)

/-- `is_alpha` (scanner.c 25-27). -/
def is_alpha (c : Nat) : Bool :=
  (decide (97 ≤ c) && decide (c ≤ 122)) || (decide (65 ≤ c) && decide (c ≤ 90)) || c == 95

/-- `make_token` (scanner.c 56-63). -/
def make_token (scanner : Scanner) (type : TokenType) : Token :=
  { type := type, start := scanner.start,
    length := scanner.start.length - scanner.current.length, line := scanner.line }

/-- `error_token` (scanner.c 65-72). -/
def error_token (scanner : Scanner) (message : String) : Token :=
  { type := TOKEN_ERROR, start := cstring message, length := strlen (cstring message),
    line := scanner.line }

/-- The loop of `skip_whitespace` (scanner.c 74-100) from `current`, giving the new
`current` and `line`. With `in_comment` the inner `while` of a `//` comment is running: it
stops before a newline, which the next turn of the outer loop counts and passes. -/
def skip_whitespace_loop : Bool → List Nat → Nat → List Nat × Nat
  | _, [], line => ([], line)
  | true, c :: rest, line =>
    if c = 10 then skip_whitespace_loop false rest (line + 1)
    else skip_whitespace_loop true rest line
  | false, c :: rest, line =>
    if c = 32 ∨ c = 13 ∨ c = 9 then skip_whitespace_loop false rest line
    else if c = 10 then skip_whitespace_loop false rest (line + 1)
    else if c = 47 then
      match rest with
      | 47 :: _ => skip_whitespace_loop true rest line
      | _ => (c :: rest, line)
    else (c :: rest, line)

/-- `skip_whitespace` (scanner.c 74-100). -/
def skip_whitespace (scanner : Scanner) : Scanner :=
  let (current, line) := skip_whitespace_loop false scanner.current scanner.line
  { scanner with current := current, line := line }

/-- `check_keyword` (scanner.c 102-109) on the text of the token. -/
def check_keyword (text : List Nat) (start length : Nat) (rest : String) (type : TokenType) :
    TokenType :=
  if text.length = start + length ∧ (text.drop start).take length = (cstring rest).take length
  then type
  else TOKEN_IDENTIFIER

/-- `identifier_type` (scanner.c 111-127) on the text of the token. -/
def identifier_type (text : List Nat) : TokenType :=
  match text.head? with
  | some 97 => check_keyword text 1 2 "nd" TOKEN_AND
  | some 105 => check_keyword text 1 1 "f" TOKEN_IF
  | some 111 => check_keyword text 1 1 "r" TOKEN_OR
  | some 119 => check_keyword text 1 4 "hile" TOKEN_WHILE
  | some 102 => check_keyword text 1 4 "alse" TOKEN_FALSE
  | some 116 => check_keyword text 1 3 "rue" TOKEN_TRUE
  | _ => TOKEN_IDENTIFIER

/-- The text between `scanner.start` and `scanner.current`. -/
def Scanner.text (scanner : Scanner) : List Nat :=
  scanner.start.take (scanner.start.length - scanner.current.length)

/-- `identifier` (scanner.c 129-134). -/
def identifier (scanner : Scanner) : Token × Scanner :=
  let scanner :=
    { scanner with current := scanner.current.dropWhile fun c => is_alpha c || is_digit c }
  (make_token scanner (identifier_type scanner.text), scanner)

/-- `number` (scanner.c 136-148). -/
def number (scanner : Scanner) : Token × Scanner :=
  let current := scanner.current.dropWhile is_digit
  let current :=
    match current with
    | 46 :: d :: rest => if is_digit d then (d :: rest).dropWhile is_digit else current
    | _ => current
  let scanner := { scanner with current := current }
  (make_token scanner TOKEN_NUMBER, scanner)

/-- The loop of `string` (scanner.c 151-167) from `current`, giving the new `current` and
`line`: it stops at a quote or at the end. -/
def string_loop : List Nat → Nat → List Nat × Nat
  | [], line => ([], line)
  | [c], line =>
    if c = 39 then ([c], line) else ([], if c = 10 then line + 1 else line)
  | c :: d :: rest, line =>
    if c = 39 then (c :: d :: rest, line)
    else
      let line := if c = 10 then line + 1 else line
      if c = 92 ∧ (d = 92 ∨ d = 39 ∨ d = 13 ∨ d = 10 ∨ d = 9) then string_loop rest line
      else string_loop (d :: rest) line

/-- `string` (scanner.c 150-175). -/
def string (scanner : Scanner) : Token × Scanner :=
  let (current, line) := string_loop scanner.current scanner.line
  let scanner := { scanner with current := current, line := line }
  match current with
  | [] => (error_token scanner "Unterminated string.", scanner)
  | _ :: rest =>
    let scanner := { scanner with current := rest }
    (make_token scanner TOKEN_STRING, scanner)

/-- `make_token(match(expected) ? yes : no)` (scanner.c 45-54 and 216-224). -/
def match_token (scanner : Scanner) (expected : Nat) (yes no : TokenType) : Token × Scanner :=
  match scanner.current with
  | c :: rest =>
    if c = expected then
      let scanner := { scanner with current := rest }
      (make_token scanner yes, scanner)
    else (make_token scanner no, scanner)
  | [] => (make_token scanner no, scanner)

/-- `scan_token` (scanner.c 177-230). -/
def scan_token (scanner : Scanner) : Token × Scanner :=
  let scanner := skip_whitespace scanner
  let scanner := { scanner with start := scanner.current }
  match scanner.current with
  | [] => (make_token scanner TOKEN_EOF, scanner)
  | c :: rest =>
    let scanner := { scanner with current := rest }
    if is_digit c then number scanner
    else if is_alpha c then identifier scanner
    else if c = 40 then (make_token scanner TOKEN_LEFT_PAREN, scanner)
    else if c = 41 then (make_token scanner TOKEN_RIGHT_PAREN, scanner)
    else if c = 44 then (make_token scanner TOKEN_COMMA, scanner)
    else if c = 46 then (make_token scanner TOKEN_DOT, scanner)
    else if c = 37 then (make_token scanner TOKEN_MOD, scanner)
    else if c = 43 then (make_token scanner TOKEN_PLUS, scanner)
    else if c = 45 then (make_token scanner TOKEN_MINUS, scanner)
    else if c = 42 then (make_token scanner TOKEN_STAR, scanner)
    else if c = 47 then (make_token scanner TOKEN_SLASH, scanner)
    else if c = 94 then (make_token scanner TOKEN_CARROT, scanner)
    else if c = 58 then (make_token scanner TOKEN_COLON, scanner)
    else if c = 61 then match_token scanner 62 TOKEN_ARROW TOKEN_EQUAL
    else if c = 63 then match_token scanner 61 TOKEN_EQUAL_EQUAL TOKEN_QUESTION
    else if c = 33 then match_token scanner 61 TOKEN_BANG_EQUAL TOKEN_BANG
    else if c = 60 then match_token scanner 61 TOKEN_LESS_EQUAL TOKEN_LESS
    else if c = 62 then match_token scanner 61 TOKEN_GREATER_EQUAL TOKEN_GREATER
    else if c = 39 then string scanner
    else (error_token scanner "Unexpected character.", scanner)

/-! ## `strtod` -/

/-- The number a list of decimal digits denotes. -/
def decimal_value (digits : List Nat) : Nat := digits.foldl (fun n c => 10 * n + (c - 48)) 0

/-- The value of a hexadecimal digit, if the byte is one. -/
def hex_digit (c : Nat) : Option Nat :=
  if 48 ≤ c ∧ c ≤ 57 then some (c - 48)
  else if 97 ≤ c ∧ c ≤ 102 then some (c - 87)
  else if 65 ≤ c ∧ c ≤ 70 then some (c - 55)
  else none

/-- The number a list of hexadecimal digits denotes. -/
def hex_value (digits : List Nat) : Nat :=
  digits.foldl (fun n c => 16 * n + (hex_digit c).getD 0) 0

/-- An exponent part `[+-]digits` after the exponent letter: its value, or `none` when no
digit follows (the letter is then not part of the number). -/
def exponent_part (input : List Nat) : Option Int :=
  match input with
  | 43 :: rest =>
    if (rest.takeWhile is_digit).isEmpty then none
    else some (decimal_value (rest.takeWhile is_digit))
  | 45 :: rest =>
    if (rest.takeWhile is_digit).isEmpty then none
    else some (-(decimal_value (rest.takeWhile is_digit) : Int))
  | _ =>
    if (input.takeWhile is_digit).isEmpty then none
    else some (decimal_value (input.takeWhile is_digit))

/-- The exact value of the decimal constant `digits[.digits][(e|E)[+-]digits]` a string that
starts with a digit begins with. -/
def decimal_constant (input : List Nat) : ℚ :=
  let whole := input.takeWhile is_digit
  let rest := input.dropWhile is_digit
  let fraction := match rest with
    | 46 :: rest => rest.takeWhile is_digit
    | _ => []
  let rest := match rest with
    | 46 :: rest => rest.dropWhile is_digit
    | _ => rest
  let exponent : Int := match rest with
    | 101 :: rest => (exponent_part rest).getD 0
    | 69 :: rest => (exponent_part rest).getD 0
    | _ => 0
  (decimal_value (whole ++ fraction) : ℚ) * (10 : ℚ) ^ (exponent - (fraction.length : Int))

/-- The exact value of the hexadecimal constant `hex[.hex][(p|P)[+-]digits]` that follows
`0x`, or `none` when no hexadecimal digit does. -/
def hex_constant (input : List Nat) : Option ℚ :=
  let is_hex := fun c => (hex_digit c).isSome
  let whole := input.takeWhile is_hex
  let rest := input.dropWhile is_hex
  let fraction := match rest with
    | 46 :: rest => rest.takeWhile is_hex
    | _ => []
  let rest := match rest with
    | 46 :: rest => rest.dropWhile is_hex
    | _ => rest
  let exponent : Int := match rest with
    | 112 :: rest => (exponent_part rest).getD 0
    | 80 :: rest => (exponent_part rest).getD 0
    | _ => 0
  if (whole ++ fraction).isEmpty then none
  else some ((hex_value (whole ++ fraction) : ℚ) * (2 : ℚ) ^ (exponent - 4 * (fraction.length : Int)))

/-- The function `strtod(input, NULL)` of the C library on a string that starts with a
digit: the longest decimal or hexadecimal floating constant at its beginning, correctly
rounded. -/
def strtod (input : List Nat) : Double :=
  match input with
  | 48 :: 120 :: rest =>
    match hex_constant rest with
    | some q => Double.round q
    | none => Double.round (decimal_constant input)
  | 48 :: 88 :: rest =>
    match hex_constant rest with
    | some q => Double.round q
    | none => Double.round (decimal_constant input)
  | _ => Double.round (decimal_constant input)

/-! ## Compiler (`compiler.c`) -/

/-- The global `parser` (compiler.c 22-27). -/
structure Parser where
  current : Token
  previous : Token
  had_error : Bool
  panic_mode : Bool

/-- The state `compile` works on: the global `scanner` and `parser`, the function of the
current compiler, and the machine (whose objects and intern table it extends). -/
structure Compiling where
  scanner : Scanner
  parser : Parser
  function : ObjFunction
  vm : VM

/-- The token of a zeroed `Token`. -/
def zero_token : Token := { type := TOKEN_LEFT_PAREN, start := [], length := 0, line := 0 }

/-- `error_at` (compiler.c 42-59); the text written to `stderr` is not kept. -/
def error_at (c : Compiling) : Compiling :=
  if c.parser.panic_mode then c
  else { c with parser := { c.parser with panic_mode := true, had_error := true } }

/-- The loop of `advance` (compiler.c 69-76); `fuel` bounds the error tokens it passes. -/
def advance_loop : Nat → Compiling → Except Fault Compiling
  | 0, _ => throw .timeout
  | fuel + 1, c =>
    let (token, scanner) := scan_token c.scanner
    let c := { c with scanner := scanner, parser := { c.parser with current := token } }
    if token.type ≠ TOKEN_ERROR then pure c
    else advance_loop fuel (error_at c)

/-- `advance` (compiler.c 67-77). Each error token takes at least one byte of the source,
so the loop makes at most one turn more than bytes are left. -/
def advance (c : Compiling) : Except Fault Compiling :=
  advance_loop (c.scanner.current.length + 1)
    { c with parser := { c.parser with previous := c.parser.current } }

/-- `consume` (compiler.c 79-86). -/
def consume (type : TokenType) (c : Compiling) : Except Fault Compiling :=
  if c.parser.current.type = type then advance c
  else pure (error_at c)

/-- `match` (compiler.c 90-96). -/
def match_type (type : TokenType) (c : Compiling) : Except Fault (Bool × Compiling) :=
  if c.parser.current.type ≠ type then pure (false, c)
  else do
    let c ← advance c
    pure (true, c)

/-- Modelled from the spec: `write_chunk` of `chunk.c` (not in the sources). A chunk is
"opcode bytes, a parallel line-number table, and a constant pool": the byte and its line
are appended. -/
def write_chunk (chunk : Chunk) (byte line : Nat) : Chunk :=
  { chunk with code := chunk.code ++ [byte], lines := chunk.lines ++ [line] }

/-- Modelled from the spec: `add_constant` of `chunk.c` (not in the sources). The value is
appended to the constant pool; the result is its index. -/
def add_constant (chunk : Chunk) (value : Value) : Nat × Chunk :=
  (chunk.constants.length, { chunk with constants := chunk.constants ++ [value] })

/-- `emit_byte` (compiler.c 105-107). -/
def emit_byte (byte : Nat) (c : Compiling) : Compiling :=
  { c with function := { c.function with
      chunk := write_chunk c.function.chunk byte c.parser.previous.line } }

/-- `emit_bytes` (compiler.c 109-112); the second byte is below 256 at every call. -/
def emit_bytes (byte1 byte2 : Nat) (c : Compiling) : Compiling :=
  emit_byte byte2 (emit_byte byte1 c)

/-- `emit_return` (compiler.c 114). -/
def emit_return (c : Compiling) : Compiling := emit_byte OP_RETURN.toByte c

/-- `make_constant` (compiler.c 116-124). -/
def make_constant (value : Value) (c : Compiling) : Nat × Compiling :=
  let (constant, chunk) := add_constant c.function.chunk value
  let c := { c with function := { c.function with chunk := chunk } }
  if constant > 255 then (0, error_at c) else (constant, c)

/-- `emit_constant` (compiler.c 126-128). -/
def emit_constant (value : Value) (c : Compiling) : Compiling :=
  let (constant, c) := make_constant value c
  emit_bytes OP_CONSTANT.toByte constant c

/-- `identifier_constant` (compiler.c 168-170). -/
def identifier_constant (name : Token) (c : Compiling) : Except Fault (Nat × Compiling) := do
  let (s, vm) ← copy_string name.start name.length false c.vm
  pure (make_constant (OBJ_STRING s) { c with vm := vm })

/-- `io` (compiler.c 188-194). -/
def io (c : Compiling) : Except Fault Compiling := do
  let (m, c) ← match_type TOKEN_DOT c
  if m then pure (emit_byte OP_PRINT.toByte c)
  else
    let (m, c) ← match_type TOKEN_CARROT c
    if m then pure (emit_byte OP_SCAN.toByte c) else pure c

/-- The chain of `operator` (compiler.c 196-224): the first token type of the list the
current token matches, with the bytes emitted for it. -/
def operator_chain : List (TokenType × List Nat) → Compiling → Except Fault Compiling
  | [], c => pure c
  | (type, bytes) :: rest, c => do
    let (m, c) ← match_type type c
    if m then pure (bytes.foldl (fun c byte => emit_byte byte c) c)
    else operator_chain rest c

/-- `operator` (compiler.c 196-224). -/
def operator (c : Compiling) : Except Fault Compiling :=
  operator_chain
    [(TOKEN_PLUS, [OP_ADD.toByte]), (TOKEN_MINUS, [OP_SUBTRACT.toByte]),
      (TOKEN_STAR, [OP_MULTIPLY.toByte]), (TOKEN_SLASH, [OP_DIVIDE.toByte]),
      (TOKEN_EQUAL_EQUAL, [OP_EQUAL.toByte]), (TOKEN_BANG, [OP_NOT.toByte]),
      (TOKEN_BANG_EQUAL, [OP_EQUAL.toByte, OP_NOT.toByte]), (TOKEN_LESS, [OP_LESS.toByte]),
      (TOKEN_GREATER, [OP_GREATER.toByte]), (TOKEN_LESS_EQUAL, [OP_LESS_EQUAL.toByte]),
      (TOKEN_GREATER_EQUAL, [OP_GREATER_EQUAL.toByte]),
      (TOKEN_QUESTION, [OP_NOT.toByte, OP_NOT.toByte]), (TOKEN_MOD, [OP_MOD.toByte])] c

/-- `synthetic_token` (compiler.c 98-103); `type` and `line` are not set. -/
def synthetic_token (text : String) : Token :=
  { type := TOKEN_LEFT_PAREN, start := cstring text, length := strlen (cstring text), line := 0 }

/-- `conditional` (compiler.c 226-234). -/
def conditional (c : Compiling) : Except Fault Compiling := do
  let (m, c) ← match_type TOKEN_IF c
  if m then pure (emit_byte OP_IF.toByte c)
  else
    let (m, c) ← match_type TOKEN_WHILE c
    if m then
      let (constant, c) ← identifier_constant (synthetic_token "while_condition") c
      pure (emit_byte OP_WHILE.toByte (emit_bytes OP_DEFINE_FUNCTION.toByte constant c))
    else pure c

/-- The token types `parenthesis` accepts between `(` and `)` (compiler.c 242-259). -/
def is_parenthesis_operator : TokenType → Bool
  | TOKEN_PLUS | TOKEN_MINUS | TOKEN_STAR | TOKEN_SLASH | TOKEN_EQUAL | TOKEN_EQUAL_EQUAL
  | TOKEN_LESS | TOKEN_GREATER | TOKEN_BANG_EQUAL | TOKEN_LESS_EQUAL | TOKEN_GREATER_EQUAL
  | TOKEN_BANG | TOKEN_QUESTION | TOKEN_COMMA | TOKEN_DOT | TOKEN_CARROT | TOKEN_IF
  | TOKEN_MOD => true
  | _ => false

/-- `parenthesis` (compiler.c 236-268). -/
def parenthesis (c : Compiling) : Except Fault Compiling := do
  let c ← advance c
  let (m, c) ← match_type TOKEN_RIGHT_PAREN c
  let c := if m then error_at c else c
  let c ←
    if is_parenthesis_operator c.parser.current.type then do
      let (constant, c) ← identifier_constant c.parser.current c
      advance (emit_bytes OP_PUSH_OPERATION.toByte constant c)
    else pure (error_at c)
  consume TOKEN_RIGHT_PAREN c

/-- The function `variable` (compiler.c 270-273). -/
def compile_variable (c : Compiling) : Except Fault Compiling := do
  let (constant, c) ← identifier_constant c.parser.current c
  advance (emit_bytes OP_VARIABLE.toByte constant c)

/-- `function` (compiler.c 275-279). -/
def function (c : Compiling) : Except Fault Compiling := do
  let c ← advance c
  let (constant, c) ← identifier_constant c.parser.current c
  advance (emit_bytes OP_DEFINE_FUNCTION.toByte constant c)

/-- `instruction` (compiler.c 281-344). -/
def instruction (c : Compiling) : Except Fault Compiling :=
  match c.parser.current.type with
  | TOKEN_DOT | TOKEN_CARROT => io c
  | TOKEN_PLUS | TOKEN_MINUS | TOKEN_STAR | TOKEN_SLASH | TOKEN_EQUAL_EQUAL | TOKEN_LESS
  | TOKEN_GREATER | TOKEN_BANG_EQUAL | TOKEN_LESS_EQUAL | TOKEN_GREATER_EQUAL | TOKEN_BANG
  | TOKEN_MOD | TOKEN_QUESTION => operator c
  | TOKEN_LEFT_PAREN => parenthesis c
  | TOKEN_NUMBER => do
    let c ← advance c
    let value := strtod c.parser.previous.start
    pure (emit_constant (NUMBER value) c)
  | TOKEN_IDENTIFIER => compile_variable c
  | TOKEN_COLON => do
    let c ← advance c
    pure (emit_constant NIL c)
  | TOKEN_EQUAL => do
    let c ← advance c
    pure (emit_byte OP_SET_VARIABLE.toByte c)
  | TOKEN_ARROW => function c
  | TOKEN_COMMA => advance (emit_byte OP_APPLY.toByte c)
  | TOKEN_STRING => do
    let (s, vm) ← copy_string (c.parser.current.start.drop 1) (c.parser.current.length - 2)
      true c.vm
    advance (emit_constant (OBJ_STRING s) { c with vm := vm })
  | TOKEN_IF | TOKEN_WHILE => conditional c
  | _ => advance (error_at c)

/-- The loop `while (!match(TOKEN_EOF)) instruction();` (compiler.c 355-357); `fuel`
bounds its turns. -/
def compile_loop : Nat → Compiling → Except Fault Compiling
  | 0, _ => throw .timeout
  | fuel + 1, c => do
    let (m, c) ← match_type TOKEN_EOF c
    if m then pure c
    else
      let c ← instruction c
      compile_loop fuel c

/-- `new_function` (object.c 42-49). -/
def new_function (vm : VM) : ObjFunction × VM :=
  ({ ref := vm.objects, arity := 0, upvalue_count := 0,
     chunk := { code := [], lines := [], constants := [] }, name := none },
   { vm with objects := vm.objects + 1 })

/-- `compile` (compiler.c 346-360) with `init_compiler` and `end_compiler`: the function, or
`none` for `NULL`, and the machine it leaves. The global `parser` is taken as zeroed at the
call (its tokens are read only for the line table). -/
def compile (fuel : Nat) (source : List Nat) (vm : VM) :
    Except Fault (Option ObjFunction × VM) := do
  let (function, vm) := new_function vm
  let c : Compiling :=
    { scanner := init_scanner source,
      parser := { current := zero_token, previous := zero_token, had_error := false,
                  panic_mode := false },
      function := function, vm := vm }
  let c ← advance c
  let c ← compile_loop fuel c
  let c := emit_return c
  pure (if c.parser.had_error then none else some c.function, c.vm)

/-- `interpret` (vm.c 733-746). -/
def interpret (fuel : Nat) (source : List Nat) (vm : VM) : Res := do
  let (function, vm) ← compile fuel source vm
  interpret_compiled function fuel vm

/-- The bytes of a source text. -/
def source_text (s : String) : List Nat := s.toList.map Char.toNat

/-! ## Observing a result -/

/-- The `InterpretResult` returned, `none` when the C program has no defined result. -/
def Res.result (r : Res) : Option InterpretResult :=
  match r with
  | .ok (result, _) => some result
  | .error _ => none

/-- The machine a routine leaves (`blank_VM` when the C program has no defined result). -/
def Res.machine (r : Res) : VM :=
  match r with
  | .ok (_, vm) => vm
  | .error _ => blank_VM

/-- What the C program leaves undefined in a run, if anything. -/
def Res.fault (r : Res) : Option Fault :=
  match r with
  | .ok _ => none
  | .error fault => some fault

mutual
/-- Equality test of two values (field by field). -/
def Value.same : Value → Value → Bool
  | NIL, NIL => true
  | BOOL a, BOOL b => a == b
  | NUMBER a, NUMBER b => decide (a = b)
  | OBJ_STRING a, OBJ_STRING b => decide (a = b)
  | OBJ_VARIABLE r n v, OBJ_VARIABLE r' n' v' =>
    decide (r = r') && decide (n = n') && Value.same v v'
  | OBJ_PROCEDURE r n s, OBJ_PROCEDURE r' n' s' =>
    decide (r = r') && decide (n = n') && Value.same_list s s'
  | OBJ_OPERATION r t, OBJ_OPERATION r' t' => decide (r = r') && decide (t = t')
  | OBJ_CLOSURE r, OBJ_CLOSURE r' => decide (r = r')
  | OBJ_FUNCTION r, OBJ_FUNCTION r' => decide (r = r')
  | _, _ => false
/-- Equality test of two lists of values. -/
def Value.same_list : List Value → List Value → Bool
  | [], [] => true
  | a :: as, b :: bs => Value.same a b && Value.same_list as bs
  | _, _ => false
end

/-! ## Notions used to state the properties of `,`, `=` and `while` -/

/-- The invariant of a table: each key (an interned string, by address) occurs once. -/
def table_keys_distinct (t : Table) : Prop := (t.map (fun entry => entry.1.ref)).Nodup

/-- Modelled from the spec: the result of the condition is dropped from the stack. As
amended to vm.c 591-598: only when another value lies below it (`vm.stack_top >
&vm.stack[1]`). -/
def drop_result (vm : VM) : VM :=
  if vm.stack.length > 1 then { vm with stack := vm.stack.tail } else vm

/-- Modelled from the spec: the protocol of `while`. `while_protocol replay condition body n
vm vm'` says that from `vm` the condition is replayed and leaves a truthy result `n` times,
each time followed by the drop of the result and one replay of the body, that the
condition replayed once more leaves a falsey result, and that `vm'` is the machine after
the drop of that last result. -/
inductive while_protocol (replay : List Value → VM → Res) (condition body : List Value) :
    Nat → VM → VM → Prop where
  | done (vm checked : VM) (result : Value) :
    replay condition vm = .ok (INTERPRET_OK, checked) →
    checked.stack.head? = some result → is_falsey result = true →
    while_protocol replay condition body 0 vm (drop_result checked)
  | again (n : Nat) (vm checked next vm' : VM) (result : Value) :
    replay condition vm = .ok (INTERPRET_OK, checked) →
    checked.stack.head? = some result → is_falsey result = false →
    replay body (drop_result checked) = .ok (INTERPRET_OK, next) →
    while_protocol replay condition body n next vm' →
    while_protocol replay condition body (n + 1) vm vm'

/-! ## Notions used to state the properties of `str_to_double` -/

/-- Modelled from the spec: "optional digits, at most one `.`, optional trailing newline,
nothing else". The line is `body`, or `body` and a newline, where every byte of `body` is
a digit or `.` and at most one of them is `.`. -/
def decimal_line (line : List Nat) : Prop :=
  ∃ body : List Nat, (line = body ∨ line = body ++ [10]) ∧
    (∀ c ∈ body, isdigit c = true ∨ c = 46) ∧ body.count 46 ≤ 1

/-! ## Concrete machines for `,`, `=` and `while` -/

/-- A variable `x` above the script closure, `x` bound to 5. -/
def apply_number_VM : VM :=
  demo_VM [("x", false)] [OBJ_VARIABLE 22 x_name (NUMBER (Double.fin 5)), OBJ_CLOSURE 21]
    [(x_name, NUMBER (Double.fin 5))]

/-- The procedure `: 1 2 3 => body` defines. -/
def body_procedure : Value :=
  OBJ_PROCEDURE 22 body_name [NUMBER (Double.fin 3), NUMBER (Double.fin 2), NUMBER (Double.fin 1)]

/-- A variable `body` above the script closure, `body` bound to `body_procedure`. -/
def apply_body_VM : VM :=
  demo_VM [("body", false)] [OBJ_VARIABLE 23 body_name body_procedure, OBJ_CLOSURE 21]
    [(body_name, body_procedure)]

/-- The names of the source `1 x = : 0 x (=) => body body : x (?) while`. -/
def loop_names : List (String × Bool) :=
  [("x", false), ("body", false), ("while_condition", false)]

/-- The stored values of the procedure `: 0 x (=) => body` (index 0 first). -/
def loop_body : List Value :=
  [OBJ_OPERATION 25 booted_VM.ops.set, OBJ_VARIABLE 24 (demo_name loop_names 0) NIL,
    NUMBER (Double.fin 0)]

/-- The stored values of the procedure `: x (?)` that `while` records as `while_condition`
(index 0 first). -/
def loop_condition : List Value :=
  [OBJ_OPERATION 29 booted_VM.ops.question,
    OBJ_VARIABLE 28 (demo_name loop_names 0) (NUMBER (Double.fin 1))]

/-- The machine of that source when `OP_WHILE` starts: the variable `body` above the script
closure, `x` bound to 1. -/
def loop_VM : VM :=
  demo_VM loop_names
    [OBJ_VARIABLE 27 (demo_name loop_names 1)
        (OBJ_PROCEDURE 26 (demo_name loop_names 1) loop_body),
      OBJ_CLOSURE 23]
    [(demo_name loop_names 0, NUMBER (Double.fin 1)),
      (demo_name loop_names 1, OBJ_PROCEDURE 26 (demo_name loop_names 1) loop_body),
      (demo_name loop_names 2, OBJ_PROCEDURE 30 (demo_name loop_names 2) loop_condition)]

/-- The machine after the pop of the variable `body`. -/
def loop_start : VM := { loop_VM with stack := [OBJ_CLOSURE 23] }

/-- The machine after the first replay of the condition. -/
def loop_checked : VM := (run_function 5 loop_condition loop_start).machine

/-- The machine after the replay of the body. -/
def loop_next : VM := (run_function 5 loop_body (drop_result loop_checked)).machine

/-- The machine after the second replay of the condition. -/
def loop_rechecked : VM := (run_function 5 loop_condition loop_next).machine

/-- The machine when the loop has ended. -/
def loop_end : VM := drop_result loop_rechecked

/-! ## Successive calls of `interpret` -/

/-- The calls `interpret(source)` made `n` times in a row on one machine, each after the one
before returned Ok: the result of the last call (of the first that did not return Ok). -/
def interpret_repeatedly (fuel : Nat) (source : List Nat) : Nat → VM → Res
  | 0, vm => pure (INTERPRET_OK, vm)
  | n + 1, vm => do
    let (result, vm) ← interpret_repeatedly fuel source n vm
    if result = INTERPRET_OK then interpret fuel source vm else pure (result, vm)

/-! ## Notions used to compare an opcode with the operation of the same spelling -/

/-- The status, the operand stack and the globals a routine leaves (a fault when the C
program has no defined result). -/
def Res.outcome (r : Res) : Except Fault (InterpretResult × List Value × Table) :=
  match r with
  | .ok (result, vm) => .ok (result, vm.stack, vm.globals)
  | .error fault => .error fault

/-- The same for one instruction of `run`: a `case` that ends in `break` has ended with
Ok. -/
def step_outcome (r : Except Fault (Option InterpretResult × Nat × VM)) :
    Except Fault (InterpretResult × List Value × Table) :=
  match r with
  | .ok (result, _, vm) => .ok (result.getD INTERPRET_OK, vm.stack, vm.globals)
  | .error fault => .error fault

/-- The opcode the compiler emits for a token (compiler.c 196-234, 318-328) and the
operator name `operators` interns for the same spelling (vm.c 25-44). -/
inductive same_spelling : Op_Code → (Operators → ObjString) → Prop where
  | plus : same_spelling OP_ADD Operators.plus
  | minus : same_spelling OP_SUBTRACT Operators.minus
  | star : same_spelling OP_MULTIPLY Operators.star
  | divide : same_spelling OP_DIVIDE Operators.divide
  | mod : same_spelling OP_MOD Operators.mod
  | equal : same_spelling OP_EQUAL Operators.equal
  | set : same_spelling OP_SET_VARIABLE Operators.set
  | comma : same_spelling OP_APPLY Operators.comma
  | _if : same_spelling OP_IF Operators._if

/-! ## Notions used to state that `compile` returns and what it leaves -/

/-- Two machines have the same operand stack (and room for it), the same frame stack and
the same globals. -/
def VM.same_frame (a b : VM) : Prop :=
  a.stack = b.stack ∧ a.STACK_MAX = b.STACK_MAX ∧ a.frames = b.frames ∧
    a.frame_count = b.frame_count ∧ a.globals = b.globals

/-- A bound on the number of instructions still to compile: the bytes not yet scanned, and
one for the current token unless it is the end of the source. -/
def Compiling.pending (c : Compiling) : Nat :=
  c.scanner.current.length + (if c.parser.current.type = TOKEN_EOF then 0 else 1)

/-- From `c` to `c'` the compiler has taken at least one token, and left the operand stack,
the frames and the globals as they were. -/
def Compiling.advanced (c c' : Compiling) : Prop :=
  c'.vm.same_frame c.vm ∧ c'.pending ≤ c.scanner.current.length

/-- From `c` to `c'` the compiler has taken no token, and left the operand stack, the
frames and the globals as they were. -/
def Compiling.emitted (c c' : Compiling) : Prop :=
  c'.vm.same_frame c.vm ∧ c'.scanner = c.scanner ∧ c'.parser.current = c.parser.current

/-! ## Objects under construction -/

mutual
/-- The addresses of the heap objects a value refers to: its own and those of its fields. -/
def Value.addresses : Value → List Nat
  | NIL => []
  | BOOL _ => []
  | NUMBER _ => []
  | OBJ_STRING s => [s.ref]
  | OBJ_VARIABLE ref name value => ref :: name.ref :: Value.addresses value
  | OBJ_PROCEDURE ref name stack => ref :: name.ref :: Value.addresses_list stack
  | OBJ_OPERATION ref type => [ref, type.ref]
  | OBJ_CLOSURE ref => [ref]
  | OBJ_FUNCTION ref => [ref]
/-- The addresses the values of a list refer to. -/
def Value.addresses_list : List Value → List Nat
  | [] => []
  | v :: vs => Value.addresses v ++ Value.addresses_list vs
end

/-- The addresses the keys and the values of a table refer to. -/
def table_addresses : Table → List Nat
  | [] => []
  | (key, value) :: rest => key.ref :: (Value.addresses value ++ table_addresses rest)

/-- The addresses a call frame refers to: its closure, the function of the closure, the name
and the constants of the function. -/
def CallFrame.addresses (frame : CallFrame) : List Nat :=
  frame.closure.ref :: frame.closure.function.ref ::
    ((match frame.closure.function.name with
      | some name => [name.ref]
      | none => []) ++ Value.addresses_list frame.closure.function.chunk.constants)

/-- Modelled from the spec: the addresses the collector reaches from its roots (section 4.4:
"every live slot on the operand stack, every closure captured by an active call frame, every
open upvalue, the globals table, the intern table"); the collector itself (memory.c) is not
part of the sources. Every frame of the array is counted, active or not. -/
def VM.reachable (vm : VM) : List Nat :=
  Value.addresses_list vm.stack ++ (vm.frames.map CallFrame.addresses).flatten ++
    vm.open_upvalues ++ table_addresses vm.globals ++ table_addresses vm.strings

/-- Modelled from the spec: a call into the allocator made while an object exists only in a
C local ("it may run during any allocation", section 5): `building` is the address of that
object, `machine` the machine at the call. -/
structure Allocation where
  building : Nat
  machine : VM

/-- Modelled from the spec: the object under construction is "reachable from the stack or a
table" at the call. -/
def Allocation.rooted (a : Allocation) : Prop := a.building ∈ a.machine.reachable

instance (a : Allocation) : Decidable a.rooted := by
  unfold Allocation.rooted
  exact inferInstance

/-- The calls `write_value_array(&procedure->stack, peek(i))` of `define_function`
(vm.c 253-256), one for each value the loop writes: the procedure of `new_procedure`
(vm.c 250) is held in the local `procedure`, and the machine is the one `new_procedure` left
(nothing is pushed, popped or bound before the loop ends). The array is empty after
`new_procedure` (object.c 148-153), so that the first call has to obtain its storage. -/
def define_function_writes (vm : VM) : Except Fault (List Allocation) := do
  let ref := vm.objects
  let vm := { vm with objects := vm.objects + 1 }
  let (array, _) ← define_function_loop vm vm.STACK_MAX 0 []
  pure (array.map fun _ => { building := ref, machine := vm })

/-- The first `count` instructions of `run_loop`: the instruction pointer and the machine
they leave, or those of an earlier return. -/
def run_prefix (fuel : Nat) : Nat → Chunk → Nat → VM → Except Fault (Nat × VM)
  | 0, _, ip, vm => pure (ip, vm)
  | count + 1, chunk, ip, vm => do
    let (result, ip, vm) ← step fuel chunk ip vm
    match result with
    | some _ => pure (ip, vm)
    | none => run_prefix fuel count chunk ip vm

/-- The call `interpret(source)` (vm.c 733-746) stopped after the first `count` instructions
of `run`: the chunk, the instruction pointer and the machine. -/
def interrupted (count fuel : Nat) (source : List Nat) (vm : VM) :
    Except Fault (Chunk × Nat × VM) := do
  let (function, vm) ← compile fuel source vm
  match function with
  | none => throw .bad_read
  | some function =>
    let vm ← load function vm
    match vm.frame_count with
    | 0 => throw .bad_read
    | n + 1 =>
      match vm.frames[n]? with
      | none => throw .bad_read
      | some frame => do
        let vm ← operators vm
        let (ip, vm) ← run_prefix fuel count frame.closure.function.chunk frame.ip vm
        pure (frame.closure.function.chunk, ip, vm)

/-- The script `: 1 2 3 => body` on `booted_VM` when its `OP_DEFINE_FUNCTION` starts. -/
def define_body_VM : VM :=
  match interrupted 4 100 (source_text ": 1 2 3 => body") booted_VM with
  | .ok (_, _, vm) => vm
  | .error _ => blank_VM

/-- The chunk of the function `compile` returns for a source (an empty chunk when it returns
`NULL`). -/
def compiled_chunk (source : List Nat) (vm : VM) : Chunk :=
  match compile (source.length + 2) source vm with
  | .ok (some function, _) => function.chunk
  | _ => { code := [], lines := [], constants := [] }

/-- The scanner after `count` calls of `scan_token`. -/
def scan_times : Nat → Scanner → Scanner
  | 0, scanner => scanner
  | count + 1, scanner => scan_times count (scan_token scanner).2

/-! # Properties -/

/-! ## Stack lemmas -/

theorem getElem?_append_length (done : List Value) (v : Value) (rest : List Value) :
    (done ++ v :: rest)[done.length]? = some v := by
  induction done with
  | nil => simp
  | cons d done ih => simpa using ih

theorem peek_append (vm : VM) (done : List Value) (v : Value) (rest : List Value)
    (h : vm.stack = done ++ v :: rest) : peek done.length vm = .ok v := by
  unfold peek
  rw [h, getElem?_append_length]

theorem pop_times_append (xs rest : List Value) (vm : VM) (h : vm.stack = xs ++ rest) :
    pop_times xs.length vm = .ok { vm with stack := rest } := by
  induction xs generalizing vm with
  | nil =>
    simp at h
    simp [pop_times, ← h, pure, Except.pure]
  | cons x xs ih =>
    simp [pop_times, pop, h, bind, Except.bind]
    exact ih _ rfl

theorem define_function_loop_stops (vm : VM) (pre : List Value) :
    ∀ (done rest : List Value) (remaining : Nat) (array : List Value),
      vm.stack = done ++ pre ++ NIL :: rest → (∀ v ∈ pre, v ≠ NIL) → pre.length < remaining →
      define_function_loop vm remaining done.length array
        = .ok (array ++ pre, done.length + pre.length) := by
  induction pre with
  | nil =>
    intro done rest remaining array h _ hrem
    obtain ⟨k, rfl⟩ : ∃ k, remaining = k + 1 := ⟨remaining - 1, by simp at hrem; omega⟩
    have hp : peek done.length vm = .ok NIL := peek_append vm done NIL rest (by simpa using h)
    simp [define_function_loop, hp, bind, Except.bind, pure, Except.pure]
  | cons v pre ih =>
    intro done rest remaining array h hne hrem
    obtain ⟨k, rfl⟩ : ∃ k, remaining = k + 1 := ⟨remaining - 1, by simp at hrem; omega⟩
    have hp : peek done.length vm = .ok v :=
      peek_append vm done v (pre ++ NIL :: rest) (by simpa using h)
    have hv : v ≠ NIL := hne v (by simp)
    have := ih (done ++ [v]) rest k (array ++ [v]) (by simpa using h)
      (fun w hw => hne w (by simp [hw])) (by simp at hrem; omega)
    simp at this
    unfold define_function_loop
    simp only [hp, bind, Except.bind]
    cases v <;> first | exact absurd rfl hv | (simp [this]; omega)

theorem Operators.ref_ne_of_nodup (ops : Operators) (h : ops.refs.Nodup) {i j a b : Nat}
    (hi : ops.refs[i]? = some a) (hj : ops.refs[j]? = some b) (hij : i ≠ j) : a ≠ b := by
  intro hab
  subst hab
  have hil : i < ops.refs.length := (List.getElem?_eq_some.1 hi).1
  have hjl : j < ops.refs.length := (List.getElem?_eq_some.1 hj).1
  rcases Nat.lt_or_gt_of_ne hij with hlt | hgt
  · exact List.nodup_iff_getElem?_ne_getElem?.1 h i j hlt hjl (hi.trans hj.symm)
  · exact List.nodup_iff_getElem?_ne_getElem?.1 h j i hgt hil (hj.trans hi.symm)

/-! ## Table lemmas -/

theorem table_get_set_self (t : Table) (key : ObjString) (value : Value) :
    table_get (table_set t key value) key = some value := by
  induction t with
  | nil => simp [table_set, table_get]
  | cons e t ih =>
    obtain ⟨k, v⟩ := e
    by_cases hk : k.ref = key.ref <;> simp [table_set, table_get, hk, ih]

theorem table_get_set_other (t : Table) (key other : ObjString) (value : Value)
    (h : other.ref ≠ key.ref) : table_get (table_set t key value) other = table_get t other := by
  induction t with
  | nil => simp [table_set, table_get, Ne.symm h]
  | cons e t ih =>
    obtain ⟨k, v⟩ := e
    by_cases hk : k.ref = key.ref
    · have : ¬ k.ref = other.ref := fun e => h (e ▸ hk)
      simp [table_set, table_get, hk, this, Ne.symm h]
    · by_cases ho : k.ref = other.ref <;> simp [table_set, table_get, hk, ho, ih, h]

/-! ## `define_function` and replay -/

theorem stack_of_slots (vm : VM) (l : List Value) (h : vm.slots = l) : vm.stack = l.reverse := by
  simp [VM.slots] at h
  simp [← h]

theorem define_function_drains (name : ObjString) (vm : VM) (S vs : List Value)
    (hstack : vm.slots = S ++ NIL :: vs) (hnil : ∀ v ∈ vs, v ≠ NIL)
    (hcap : vm.stack.length ≤ vm.STACK_MAX) :
    ∃ vm', define_function name vm = .ok vm' ∧
      vm'.slots = S ∧
      table_get vm'.globals name = some (OBJ_PROCEDURE vm.objects name vs.reverse) ∧
      (∀ key : ObjString, key.ref ≠ name.ref →
        table_get vm'.globals key = table_get vm.globals key) ∧
      (∀ v ∈ vs.reverse, v ≠ NIL) ∧
      vm'.objects = vm.objects + 1 ∧ vm'.STACK_MAX = vm.STACK_MAX := by
  have hs : vm.stack = vs.reverse ++ NIL :: S.reverse := by
    have := stack_of_slots vm _ hstack
    simpa using this
  have hlen : vs.reverse.length < vm.STACK_MAX := by
    rw [hs] at hcap
    simp at hcap ⊢
    omega
  have hloop := define_function_loop_stops { vm with objects := vm.objects + 1 } vs.reverse []
    S.reverse vm.STACK_MAX [] (by simpa using hs) (by simpa using hnil) hlen
  have hpop := pop_times_append (vs.reverse ++ [NIL]) S.reverse
    { vm with objects := vm.objects + 1 } (by simp [hs])
  simp at hloop hpop
  refine ⟨{ vm with
      stack := S.reverse, objects := vm.objects + 1,
      globals := table_set vm.globals name (OBJ_PROCEDURE vm.objects name vs.reverse) },
    ?_, ?_, ?_, ?_, ?_, ?_, ?_⟩
  · simp [define_function, hloop, hpop, bind, Except.bind, pure, Except.pure]
  · simp [VM.slots]
  · simp [table_get_set_self]
  · intro key hkey
    simp [table_get_set_other _ _ _ _ hkey]
  · simpa using hnil
  · rfl
  · rfl

theorem run_function_loop_verbatim (f : ObjString → VM → Res) (items : List Value) :
    ∀ vm : VM, (∀ v ∈ items, IS_VARIABLE v = false ∧ IS_OPERATION v = false) →
      vm.stack.length + items.length ≤ vm.STACK_MAX →
      run_function_loop f items vm
        = .ok (INTERPRET_OK, { vm with stack := items.reverse ++ vm.stack }) := by
  induction items with
  | nil => intro vm _ _; simp [run_function_loop, pure, Except.pure]
  | cons v items ih =>
    intro vm hplain hcap
    have hv := hplain v (by simp)
    have hlt : vm.stack.length < vm.STACK_MAX := by simp at hcap; omega
    have hpush : push v vm = .ok { vm with stack := v :: vm.stack } := by simp [push, hlt]
    have hrest := ih { vm with stack := v :: vm.stack } (fun w hw => hplain w (by simp [hw]))
      (by simp at hcap ⊢; omega)
    cases v <;> simp [IS_VARIABLE, IS_OPERATION] at hv <;>
      simp [run_function_loop, hpush, hrest, bind, Except.bind]

/-- C1. On a stack `S ++ [Nil, v1, ..., vn]` whose `vi` are neither `Nil` nor variables nor
operations, `define_function(name)` followed by `run_function` on the procedure it stored
under `name` leaves the stack `S ++ [v1, ..., vn]`, whatever the budget. -/
theorem capture_then_replay_restores_order (fuel : Nat) (name : ObjString) (vm : VM)
    (S vs : List Value) (hstack : vm.slots = S ++ NIL :: vs)
    (hplain : ∀ v ∈ vs, v ≠ NIL ∧ IS_VARIABLE v = false ∧ IS_OPERATION v = false)
    (hcap : vm.stack.length ≤ vm.STACK_MAX) :
    ∃ vm1 ref stored vm2, define_function name vm = .ok vm1 ∧
      table_get vm1.globals name = some (OBJ_PROCEDURE ref name stored) ∧
      run_function fuel stored vm1 = .ok (INTERPRET_OK, vm2) ∧
      vm2.slots = S ++ vs := by
  obtain ⟨vm1, hdef, hslots, hget, -, -, -, hmax⟩ :=
    define_function_drains name vm S vs hstack (fun v hv => (hplain v hv).1) hcap
  have hs1 : vm1.stack = S.reverse := stack_of_slots vm1 S hslots
  have hlen : vm.stack.length = S.length + (vs.length + 1) := by
    have := congrArg List.length hstack
    simpa [VM.slots] using this
  have hrun := run_function_loop_verbatim (run_operation fuel) vs vm1
    (fun v hv => (hplain v hv).2) (by rw [hs1, hmax]; simp; omega)
  refine ⟨vm1, vm.objects, vs.reverse, { vm1 with stack := vs.reverse ++ vm1.stack },
    hdef, hget, ?_, ?_⟩
  · simpa [run_function] using hrun
  · simp [VM.slots, hs1]

/-- C2. On a stack `S ++ [Nil, v1, ..., vn]` (no `vi` is `Nil`) `define_function(name)` leaves
the stack `S`, binds `name` in globals to a new procedure whose value array is
`[vn, ..., v1]`, leaves every other binding as it was, and the array holds no `Nil`. -/
theorem define_function_captures (name : ObjString) (vm : VM) (S vs : List Value)
    (hstack : vm.slots = S ++ NIL :: vs) (hnil : ∀ v ∈ vs, v ≠ NIL)
    (hcap : vm.stack.length ≤ vm.STACK_MAX) :
    ∃ vm', define_function name vm = .ok vm' ∧
      vm'.slots = S ∧
      table_get vm'.globals name = some (OBJ_PROCEDURE vm.objects name vs.reverse) ∧
      (∀ key : ObjString, key.ref ≠ name.ref →
        table_get vm'.globals key = table_get vm.globals key) ∧
      (∀ v ∈ vs.reverse, v ≠ NIL) := by
  obtain ⟨vm', h1, h2, h3, h4, h5, -, -⟩ := define_function_drains name vm S vs hstack hnil hcap
  exact ⟨vm', h1, h2, h3, h4, h5⟩

/-! ## `vars_to_vals` and `if` -/

theorem vars_to_vals_held (vm : VM) (v2 v1 : Value) (rest : List Value)
    (hstack : vm.stack = v2 :: v1 :: rest) (hcap : vm.stack.length ≤ vm.STACK_MAX) :
    vars_to_vals vm = .ok { vm with stack := held v2 :: held v1 :: rest } := by
  have h1 : rest.length < vm.STACK_MAX := by rw [hstack] at hcap; simp at hcap; omega
  have h2 : rest.length + 1 < vm.STACK_MAX := by rw [hstack] at hcap; simp at hcap; omega
  have hvm : vm = { vm with stack := v2 :: v1 :: rest } := by rw [← hstack]
  cases v1 <;> cases v2 <;>
    simp [vars_to_vals, peek, pop, push, hstack, held, bind, Except.bind, pure, Except.pure,
      h1, h2] <;> exact hvm

theorem if_operands_plain (rf : List Value → VM → Res) (ro : ObjString → VM → Res) (vm : VM)
    (c e t : Value) (rest : List Value) (hstack : vm.stack = c :: e :: t :: rest)
    (ht : IS_VARIABLE t = false ∧ IS_PROCEDURE t = false ∧ IS_OPERATION t = false)
    (he : IS_VARIABLE e = false ∧ IS_PROCEDURE e = false ∧ IS_OPERATION e = false)
    (hcap : vm.stack.length ≤ vm.STACK_MAX) :
    if_operands rf ro vm
      = .ok (INTERPRET_OK, { vm with stack := (if is_falsey c then e else t) :: rest }) := by
  obtain ⟨SM, FM, frames, fc, stack, globals, strings, ou, objects, ops, sin, sout, sv, sc⟩ := vm
  simp only at hstack hcap
  subst hstack
  simp only [List.length_cons] at hcap
  have h1 : rest.length < SM := by omega
  have h2 : rest.length + 1 + 1 < SM := by omega
  have hv := vars_to_vals_held ⟨SM, FM, frames, fc, e :: t :: rest, globals, strings, ou,
    objects, ops, sin, sout, sv, sc⟩ e t rest rfl (by simp; omega)
  have hhe : held e = e := by cases e <;> simp [IS_VARIABLE] at he <;> rfl
  have hht : held t = t := by cases t <;> simp [IS_VARIABLE] at ht <;> rfl
  rw [hhe, hht] at hv
  simp only at hv
  unfold if_operands
  simp only [pop, bind, Except.bind, hv, push, peek, List.length_cons, h2, if_true,
    List.getElem?_cons_zero, List.getElem?_cons_succ, pure, Except.pure]
  by_cases hc : is_falsey c = true
  · simp only [hc, Bool.not_true, if_true]
    cases e <;> simp [IS_VARIABLE, IS_PROCEDURE, IS_OPERATION] at he <;> simp [h1]
  · simp only [Bool.not_eq_true] at hc
    simp only [hc, Bool.not_false, if_true]
    cases t <;> simp [IS_VARIABLE, IS_PROCEDURE, IS_OPERATION] at ht <;> simp [h1]

theorem is_falsey_iff (c : Value) :
    is_falsey c = true ↔
      c = NIL ∨ c = BOOL false ∨ c = NUMBER (Double.fin 0) ∨ c = NUMBER Double.nzero := by
  cases c with
  | NUMBER x =>
    cases x with
    | fin q =>
      simp only [is_falsey, Double.eq, Double.le, Bool.and_eq_true, decide_eq_true_eq]
      constructor
      · intro h; simp [le_antisymm h.1 h.2]
      · intro h; simp at h; simp [h]
    | inf b => cases b <;> simp [is_falsey, Double.eq, Double.le]
    | _ => simp [is_falsey, Double.eq, Double.le]
  | BOOL b => cases b <;> simp [is_falsey]
  | _ => simp [is_falsey]

/-- C3. On a stack `S ++ [t, e, c]` whose payloads `t` and `e` are plain values, `if` — the
opcode `OP_IF` and the `if` operation alike — pops the three and leaves `S ++ [e]` when `c`
is falsey and `S ++ [t]` otherwise; the falsey values are `Nil`, `false` and the number 0
(of either sign), no other. -/
theorem if_selects_payload (fuel : Nat) (chunk : Chunk) (ip : Nat) (vm : VM) (S : List Value)
    (t e c : Value) (hstack : vm.slots = S ++ [t, e, c])
    (ht : IS_VARIABLE t = false ∧ IS_PROCEDURE t = false ∧ IS_OPERATION t = false)
    (he : IS_VARIABLE e = false ∧ IS_PROCEDURE e = false ∧ IS_OPERATION e = false)
    (hcap : vm.stack.length ≤ vm.STACK_MAX)
    (hcode : chunk.code[ip]? = some OP_IF.toByte) :
    (∃ vm', step fuel chunk ip vm = .ok (none, ip + 1, vm') ∧
      vm'.slots = S ++ [if is_falsey c then e else t]) ∧
    (∀ type : ObjString, vm.is_operation type Operators._if →
      ∃ vm', run_operation (fuel + 1) type vm = .ok (INTERPRET_OK, vm') ∧
        vm'.slots = S ++ [if is_falsey c then e else t]) ∧
    (is_falsey c = true ↔
      c = NIL ∨ c = BOOL false ∨ c = NUMBER (Double.fin 0) ∨ c = NUMBER Double.nzero) := by
  have hs : vm.stack = c :: e :: t :: S.reverse := by
    have := stack_of_slots vm _ hstack
    simpa using this
  refine ⟨?_, ?_, is_falsey_iff c⟩
  · refine ⟨{ vm with stack := (if is_falsey c then e else t) :: S.reverse }, ?_, ?_⟩
    · have h := if_operands_plain (run_function fuel) (run_operation fuel) vm c e t S.reverse
        hs ht he hcap
      simp [step, dispatch, finish, proceed, READ_BYTE, hcode, Op_Code.toByte, Op_Code.ofByte, h, bind, Except.bind,
        pure, Except.pure]
    · simp [VM.slots]
  · intro type ⟨hnd, htype⟩
    refine ⟨{ vm with stack := (if is_falsey c then e else t) :: S.reverse }, ?_, ?_⟩
    · have h := if_operands_plain
        (fun stack => run_function_loop (run_operation fuel) stack.reverse)
        (run_operation fuel) vm c e t S.reverse hs ht he hcap
      have e1 : ¬ vm.ops._if.ref = vm.ops.plus.ref :=
        vm.ops.ref_ne_of_nodup hnd (i := 12) (j := 0) rfl rfl (by decide)
      have e2 : ¬ vm.ops._if.ref = vm.ops.minus.ref :=
        vm.ops.ref_ne_of_nodup hnd (i := 12) (j := 1) rfl rfl (by decide)
      have e3 : ¬ vm.ops._if.ref = vm.ops.star.ref :=
        vm.ops.ref_ne_of_nodup hnd (i := 12) (j := 2) rfl rfl (by decide)
      have e4 : ¬ vm.ops._if.ref = vm.ops.divide.ref :=
        vm.ops.ref_ne_of_nodup hnd (i := 12) (j := 3) rfl rfl (by decide)
      have e5 : ¬ vm.ops._if.ref = vm.ops.mod.ref :=
        vm.ops.ref_ne_of_nodup hnd (i := 12) (j := 4) rfl rfl (by decide)
      have e6 : ¬ vm.ops._if.ref = vm.ops.equal.ref :=
        vm.ops.ref_ne_of_nodup hnd (i := 12) (j := 5) rfl rfl (by decide)
      have e7 : ¬ vm.ops._if.ref = vm.ops.greater.ref :=
        vm.ops.ref_ne_of_nodup hnd (i := 12) (j := 6) rfl rfl (by decide)
      have e8 : ¬ vm.ops._if.ref = vm.ops.less.ref :=
        vm.ops.ref_ne_of_nodup hnd (i := 12) (j := 7) rfl rfl (by decide)
      have e9 : ¬ vm.ops._if.ref = vm.ops.greater_equal.ref :=
        vm.ops.ref_ne_of_nodup hnd (i := 12) (j := 8) rfl rfl (by decide)
      have e10 : ¬ vm.ops._if.ref = vm.ops.less_equal.ref :=
        vm.ops.ref_ne_of_nodup hnd (i := 12) (j := 9) rfl rfl (by decide)
      have e11 : ¬ vm.ops._if.ref = vm.ops.not.ref :=
        vm.ops.ref_ne_of_nodup hnd (i := 12) (j := 10) rfl rfl (by decide)
      have e12 : ¬ vm.ops._if.ref = vm.ops.question.ref :=
        vm.ops.ref_ne_of_nodup hnd (i := 12) (j := 11) rfl rfl (by decide)
      simp only [run_operation, propagate, values_equal, beq_iff_eq, e1, e2, e3, e4, e5, e6, e7, e8, e9,
        e10, e11, e12, if_false, htype, if_true, h, bind, Except.bind, pure, Except.pure]
      simp
    · simp [VM.slots]

/-! ## Assignment and read -/

/-- C4. With `v` and a variable of name `x` on top of the stack `S ++ [v, x]`,
`OP_SET_VARIABLE` followed by `OP_VARIABLE x` binds `x` to `v` in globals, leaves the other
bindings as they were and leaves the stack `S ++ [x={v}]` with a new variable object; a
following `OP_PRINT` prints `v`. The script `5 x = x .` returns Ok and prints 5. -/
theorem assign_then_read (fuel : Nat) (chunk : Chunk) (ip k : Nat) (vm : VM) (S : List Value)
    (v snapshot : Value) (x : ObjString) (r : Nat)
    (hstack : vm.slots = S ++ [v, OBJ_VARIABLE r x snapshot])
    (hcap : vm.stack.length ≤ vm.STACK_MAX)
    (hset : chunk.code[ip]? = some OP_SET_VARIABLE.toByte)
    (hvar : chunk.code[ip + 1]? = some OP_VARIABLE.toByte)
    (hname : chunk.code[ip + 2]? = some k) (hconst : chunk.constants[k]? = some (OBJ_STRING x))
    (hprint : chunk.code[ip + 3]? = some OP_PRINT.toByte) :
    ∃ vm1 vm2 vm3, step fuel chunk ip vm = .ok (none, ip + 1, vm1) ∧
      step fuel chunk (ip + 1) vm1 = .ok (none, ip + 3, vm2) ∧
      step fuel chunk (ip + 3) vm2 = .ok (none, ip + 4, vm3) ∧
      table_get vm2.globals x = some v ∧
      (∀ key : ObjString, key.ref ≠ x.ref →
        table_get vm2.globals key = table_get vm.globals key) ∧
      vm2.slots = S ++ [OBJ_VARIABLE vm.objects x v] ∧
      vm3.stdout = vm.stdout ++ [Output.value v] ∧ vm3.slots = S ∧
      ∃ vm', run 9 script_assign_read = .ok (INTERPRET_OK, vm') ∧
        vm'.stdout = [Output.value (NUMBER (Double.fin 5))] := by
  have hs : vm.stack = OBJ_VARIABLE r x snapshot :: v :: S.reverse := by
    have := stack_of_slots vm _ hstack
    simpa using this
  obtain ⟨SM, FM, frames, fc, stack, globals, strings, ou, objects, ops, sin, sout, sv, sc⟩ := vm
  simp only at hs hcap
  subst hs
  simp only [List.length_cons] at hcap
  have h1 : S.length < SM := by simp at hcap; omega
  refine ⟨⟨SM, FM, frames, fc, S.reverse, table_set globals x v, strings, ou, objects, ops, sin,
      sout, sv, sc⟩,
    ⟨SM, FM, frames, fc, OBJ_VARIABLE objects x v :: S.reverse, table_set globals x v, strings,
      ou, objects + 1, ops, sin, sout, sv, sc⟩,
    ⟨SM, FM, frames, fc, S.reverse, table_set globals x v, strings,
      ou, objects + 1, ops, sin, sout ++ [Output.value v], sv, sc⟩, ?_, ?_, ?_, ?_, ?_, ?_, ?_, ?_,
    ⟨_, rfl, rfl⟩⟩
  · simp [step, dispatch, finish, proceed, READ_BYTE, hset, Op_Code.toByte, Op_Code.ofByte, set_variable, peek, pop,
      bind, Except.bind, pure, Except.pure]
  · simp [step, dispatch, finish, proceed, READ_BYTE, READ_STRING, READ_CONSTANT, hvar, hname, hconst, Op_Code.toByte,
      Op_Code.ofByte, push_variable, lookup_global, table_get_set_self, push, h1,
      bind, Except.bind, pure, Except.pure]
  · simp [step, dispatch, finish, proceed, READ_BYTE, hprint, Op_Code.toByte, Op_Code.ofByte, print_top, peek, pop,
      print_value, bind, Except.bind, pure, Except.pure]
  · exact table_get_set_self _ _ _
  · intro key hkey
    exact table_get_set_other _ _ _ _ hkey
  · simp [VM.slots]
  · rfl
  · simp [VM.slots]

/-! ## `+` -/

theorem add_operands_numbers (vm : VM) (b a : Value) (rest : List Value) (x y : Double)
    (hstack : vm.stack = b :: a :: rest) (hcap : vm.stack.length ≤ vm.STACK_MAX)
    (ha : held a = NUMBER x) (hb : held b = NUMBER y) :
    add_operands vm = .ok (INTERPRET_OK, { vm with stack := NUMBER (Double.add x y) :: rest }) := by
  have hv := vars_to_vals_held vm b a rest hstack hcap
  obtain ⟨SM, FM, frames, fc, stack, globals, strings, ou, objects, ops, sin, sout, sv, sc⟩ := vm
  simp only at hstack hcap hv
  subst hstack
  simp only [List.length_cons] at hcap
  have h1 : rest.length < SM := by omega
  simp [add_operands, hv, ha, hb, peek, pop, push, IS_STRING, IS_NUMBER, h1, bind, Except.bind,
    pure, Except.pure]

theorem add_operands_strings (vm : VM) (b a : Value) (rest : List Value) (sa sb : ObjString)
    (hstack : vm.stack = b :: a :: rest) (hcap : vm.stack.length ≤ vm.STACK_MAX)
    (ha : held a = OBJ_STRING sa) (hb : held b = OBJ_STRING sb) (vm' : VM) :
    add_operands vm ≠ .ok (INTERPRET_RUNTIME_ERROR, vm') := by
  have hv := vars_to_vals_held vm b a rest hstack hcap
  obtain ⟨SM, FM, frames, fc, stack, globals, strings, ou, objects, ops, sin, sout, sv, sc⟩ := vm
  simp only at hstack hcap hv
  subst hstack
  simp only [add_operands, hv, ha, hb, peek, IS_STRING, bind, Except.bind, pure, Except.pure,
    List.getElem?_cons_zero, List.getElem?_cons_succ, Bool.and_self, if_true]
  split <;> simp

theorem add_operands_mismatch (vm : VM) (b a : Value) (rest : List Value)
    (hstack : vm.stack = b :: a :: rest) (hcap : vm.stack.length ≤ vm.STACK_MAX)
    (h : ¬ ((IS_STRING (held a) = true ∧ IS_STRING (held b) = true) ∨
      (IS_NUMBER (held a) = true ∧ IS_NUMBER (held b) = true))) :
    add_operands vm = .ok (INTERPRET_RUNTIME_ERROR, reset_stack vm) := by
  have hv := vars_to_vals_held vm b a rest hstack hcap
  obtain ⟨SM, FM, frames, fc, stack, globals, strings, ou, objects, ops, sin, sout, sv, sc⟩ := vm
  simp only at hstack hcap hv
  subst hstack
  simp only [not_or, not_and, Bool.not_eq_true] at h
  obtain ⟨hs, hn⟩ := h
  have c1 : (IS_STRING (held b) && IS_STRING (held a)) = false := by
    cases h1 : IS_STRING (held a) <;> simp_all
  have c2 : (IS_NUMBER (held b) && IS_NUMBER (held a)) = false := by
    cases h1 : IS_NUMBER (held a) <;> simp_all
  simp [add_operands, hv, peek, c1, c2, fail, runtime_error, reset_stack, bind, Except.bind, pure,
    Except.pure]

theorem add_operands_error_iff (vm : VM) (b a : Value) (rest : List Value)
    (hstack : vm.stack = b :: a :: rest) (hcap : vm.stack.length ≤ vm.STACK_MAX) :
    (∃ vm', add_operands vm = .ok (INTERPRET_RUNTIME_ERROR, vm')) ↔
      ¬ ((IS_STRING (held a) = true ∧ IS_STRING (held b) = true) ∨
        (IS_NUMBER (held a) = true ∧ IS_NUMBER (held b) = true)) := by
  constructor
  · rintro ⟨vm', h⟩ (⟨hsa, hsb⟩ | ⟨hna, hnb⟩)
    · cases ha : held a <;> simp [ha, IS_STRING] at hsa
      cases hb : held b <;> simp [hb, IS_STRING] at hsb
      exact add_operands_strings vm b a rest _ _ hstack hcap ha hb vm' h
    · cases ha : held a <;> simp [ha, IS_NUMBER] at hna
      cases hb : held b <;> simp [hb, IS_NUMBER] at hnb
      rw [add_operands_numbers vm b a rest _ _ hstack hcap ha hb] at h
      simp at h
  · intro h
    exact ⟨_, add_operands_mismatch vm b a rest hstack hcap h⟩

theorem step_add (fuel : Nat) (chunk : Chunk) (ip : Nat) (vm : VM)
    (hcode : chunk.code[ip]? = some OP_ADD.toByte) :
    step fuel chunk ip vm = finish (ip + 1) (add_operands vm) := by
  simp [step, dispatch, finish, proceed, READ_BYTE, hcode, Op_Code.toByte, Op_Code.ofByte, bind, Except.bind, pure,
    Except.pure]

theorem run_operation_plus (fuel : Nat) (type : ObjString) (vm : VM)
    (h : vm.is_operation type Operators.plus) :
    run_operation (fuel + 1) type vm = add_operands vm := by
  simp [run_operation, values_equal, h.2]

/-- C5. `+` (the opcode `OP_ADD` and the `+` operation alike) on the operands `a`, `b` of a
stack `S ++ [a, b]`, each taken through the variable it may be wrapped in: the result is the
runtime error exactly when they are neither two strings nor two numbers; two numbers `x`,
`y` are replaced by the number `x + y`; a string with a number is a runtime error that
leaves the VM reset. -/
theorem add_type_checked (fuel : Nat) (chunk : Chunk) (ip : Nat) (vm : VM) (S : List Value)
    (a b : Value) (hstack : vm.slots = S ++ [a, b]) (hcap : vm.stack.length ≤ vm.STACK_MAX)
    (hcode : chunk.code[ip]? = some OP_ADD.toByte) :
    ((∃ vm', step fuel chunk ip vm = .ok (some INTERPRET_RUNTIME_ERROR, ip + 1, vm')) ↔
      ¬ ((IS_STRING (held a) = true ∧ IS_STRING (held b) = true) ∨
        (IS_NUMBER (held a) = true ∧ IS_NUMBER (held b) = true))) ∧
    (∀ type : ObjString, vm.is_operation type Operators.plus →
      ((∃ vm', run_operation (fuel + 1) type vm = .ok (INTERPRET_RUNTIME_ERROR, vm')) ↔
        ¬ ((IS_STRING (held a) = true ∧ IS_STRING (held b) = true) ∨
          (IS_NUMBER (held a) = true ∧ IS_NUMBER (held b) = true)))) ∧
    (∀ x y : Double, held a = NUMBER x → held b = NUMBER y →
      step fuel chunk ip vm
        = .ok (none, ip + 1, { vm with stack := NUMBER (Double.add x y) :: S.reverse }) ∧
      ∀ type : ObjString, vm.is_operation type Operators.plus →
        run_operation (fuel + 1) type vm
          = .ok (INTERPRET_OK, { vm with stack := NUMBER (Double.add x y) :: S.reverse })) ∧
    (∀ (s : ObjString) (x : Double),
      (held a = OBJ_STRING s ∧ held b = NUMBER x) ∨ (held a = NUMBER x ∧ held b = OBJ_STRING s) →
      step fuel chunk ip vm = .ok (some INTERPRET_RUNTIME_ERROR, ip + 1, reset_stack vm) ∧
      ∀ type : ObjString, vm.is_operation type Operators.plus →
        run_operation (fuel + 1) type vm = .ok (INTERPRET_RUNTIME_ERROR, reset_stack vm)) := by
  have hs : vm.stack = b :: a :: S.reverse := by
    have := stack_of_slots vm _ hstack
    simpa using this
  have hiff := add_operands_error_iff vm b a S.reverse hs hcap
  refine ⟨?_, ?_, ?_, ?_⟩
  · rw [← hiff, step_add fuel chunk ip vm hcode]
    constructor
    · rintro ⟨vm', h⟩
      cases hr : add_operands vm with
      | error f => simp [hr, finish, bind, Except.bind] at h
      | ok p =>
        obtain ⟨result, vm1⟩ := p
        by_cases hres : result = INTERPRET_RUNTIME_ERROR
        · exact ⟨vm1, by rw [hres]⟩
        · simp [hr, hres, finish, bind, Except.bind, pure, Except.pure] at h
    · rintro ⟨vm', h⟩
      exact ⟨vm', by simp [h, finish, bind, Except.bind, pure, Except.pure]⟩
  · intro type htype
    rw [run_operation_plus fuel type vm htype]
    exact hiff
  · intro x y ha hb
    have h := add_operands_numbers vm b a S.reverse x y hs hcap ha hb
    refine ⟨?_, fun type htype => ?_⟩
    · rw [step_add fuel chunk ip vm hcode, h]
      simp [finish, bind, Except.bind, pure, Except.pure]
    · rw [run_operation_plus fuel type vm htype, h]
  · intro s x hsx
    have hmis : ¬ ((IS_STRING (held a) = true ∧ IS_STRING (held b) = true) ∨
        (IS_NUMBER (held a) = true ∧ IS_NUMBER (held b) = true)) := by
      rcases hsx with ⟨ha, hb⟩ | ⟨ha, hb⟩ <;> simp [ha, hb, IS_STRING, IS_NUMBER]
    have h := add_operands_mismatch vm b a S.reverse hs hcap hmis
    refine ⟨?_, fun type htype => ?_⟩
    · rw [step_add fuel chunk ip vm hcode, h]
      simp [finish, bind, Except.bind, pure, Except.pure]
    · rw [run_operation_plus fuel type vm htype, h]

/-! ## Rounding of small integers -/

namespace Double

theorem bitsAux_spec : ∀ fuel n : Nat, n ≤ fuel →
    n < 2 ^ bitsAux fuel n ∧ (n ≠ 0 → 2 ^ (bitsAux fuel n - 1) ≤ n) := by
  intro fuel
  induction fuel with
  | zero =>
    intro n hn
    have : n = 0 := by omega
    subst this
    simp [bitsAux]
  | succ fuel ih =>
    intro n hn
    by_cases h0 : n = 0
    · subst h0
      simp [bitsAux]
    · have hhalf : n / 2 ≤ fuel := by omega
      obtain ⟨hlt, hge⟩ := ih (n / 2) hhalf
      simp only [bitsAux, h0, if_false, Nat.add_sub_cancel]
      refine ⟨?_, fun _ => ?_⟩
      · rw [pow_succ]
        omega
      · by_cases h1 : n / 2 = 0
        · have hb : bitsAux fuel (n / 2) = 0 := by
            rw [h1]
            cases fuel <;> simp [bitsAux]
          rw [hb]
          simp
          omega
        · have := hge h1
          have hpos : 0 < bitsAux fuel (n / 2) := by
            rcases Nat.eq_zero_or_pos (bitsAux fuel (n / 2)) with hz | hz
            · rw [hz] at hlt
              simp at hlt
              exact absurd hlt h1
            · exact hz
          obtain ⟨k, hk⟩ : ∃ k, bitsAux fuel (n / 2) = k + 1 := ⟨_, (Nat.succ_pred_eq_of_pos hpos).symm⟩
          rw [hk] at this ⊢
          simp only [Nat.add_sub_cancel] at this
          rw [pow_succ]
          omega

theorem bits_spec (n : Nat) (h : n ≠ 0) : 2 ^ (bits n - 1) ≤ n ∧ n < 2 ^ bits n :=
  ⟨(bitsAux_spec n n le_rfl).2 h, (bitsAux_spec n n le_rfl).1⟩

theorem roundEven_intCast (m : Int) : roundEven (m : ℚ) = m := by
  have hfloor : Rat.floor (m : ℚ) = m := by
    change ⌊(m : ℚ)⌋ = m
    exact Int.floor_intCast m
  simp [roundEven, hfloor]

theorem floorLog2_natCast (n : Nat) (h : n ≠ 0) : floorLog2 (n : ℚ) = ((bits n - 1 : Nat) : Int) := by
  have hb := bits_spec n h
  have hpos : 0 < bits n := by
    rcases Nat.eq_zero_or_pos (bits n) with hz | hz
    · rw [hz] at hb
      simp at hb
      omega
    · exact hz
  have h1 : bits 1 = 1 := by decide
  have he : ((bits n : Int) - (bits 1 : Int)) = ((bits n - 1 : Nat) : Int) := by
    rw [h1]
    omega
  have hle : (2 : ℚ) ^ (((bits n - 1 : Nat) : Int)) ≤ (n : ℚ) := by
    rw [zpow_natCast]
    exact_mod_cast hb.1
  simp only [floorLog2, Rat.num_natCast, Int.natAbs_ofNat, Rat.den_natCast, he, hle, if_true]

theorem round_natCast (n : Nat) (h : n ≤ 2 ^ 53) : round (n : ℚ) = fin n := by
  by_cases h0 : n = 0
  · subst h0
    simp [round]
  have hb := bits_spec n h0
  have hq0 : (n : ℚ) ≠ 0 := by exact_mod_cast h0
  have hL : bits n - 1 ≤ 53 := by
    by_contra hcon
    have : 2 ^ 54 ≤ 2 ^ (bits n - 1) := Nat.pow_le_pow_right (by decide) (by omega)
    have h53 : (2 : Nat) ^ 53 < 2 ^ 54 := by decide
    omega
  have habs : |(n : ℚ)| = n := abs_of_nonneg (by positivity)
  have hmax : max (((bits n - 1 : Nat) : Int)) (-1022) = ((bits n - 1 : Nat) : Int) := by
    apply max_eq_left
    omega
  -- the quotient by the unit in the last place is an integer
  have hquot : ∃ m : Int, (n : ℚ) / (2 : ℚ) ^ ((((bits n - 1 : Nat) : Int)) - 52) = (m : ℚ) := by
    by_cases h52 : bits n - 1 ≤ 52
    · refine ⟨(n : Int) * 2 ^ (52 - (bits n - 1)), ?_⟩
      have hexp : ((((bits n - 1 : Nat) : Int)) - 52) = -((52 - (bits n - 1) : Nat) : Int) := by
        omega
      rw [hexp, zpow_neg, zpow_natCast]
      push_cast
      field_simp
    · have h53 : bits n - 1 = 53 := by omega
      have hn : n = 2 ^ 53 := by
        have := hb.1
        rw [h53] at this
        omega
      refine ⟨2 ^ 52, ?_⟩
      rw [h53, hn]
      norm_num
  obtain ⟨m, hm⟩ := hquot
  have hy : ((roundEven ((n : ℚ) / (2 : ℚ) ^ ((((bits n - 1 : Nat) : Int)) - 52)) : Int) : ℚ) *
      (2 : ℚ) ^ ((((bits n - 1 : Nat) : Int)) - 52) = n := by
    rw [hm, roundEven_intCast, ← hm]
    field_simp
  have hsmall : ¬ ((2 : ℚ) ^ (1024 : Int) ≤ (n : ℚ)) := by
    have h1 : (n : ℚ) ≤ 2 ^ 53 := by exact_mod_cast h
    have h2 : (2 : ℚ) ^ 53 < (2 : ℚ) ^ (1024 : Int) := by norm_num
    intro hc
    linarith
  have hneg : ¬ ((n : ℚ) < 0) := by
    have : (0 : ℚ) ≤ n := by positivity
    linarith
  simp only [round, hq0, if_false, habs, floorLog2_natCast n h0, hmax, hy, hsmall, hneg]

theorem sub_natCast (a b : Nat) (hb : b ≤ a) (ha : a ≤ 2 ^ 53) :
    sub (fin a) (fin b) = fin ((a - b : Nat) : ℚ) := by
  have hr := round_natCast (a - b) (by omega)
  by_cases h0 : b = 0
  · subst h0
    simp [sub, neg, add]
  · have hq : (b : ℚ) ≠ 0 := by exact_mod_cast h0
    have hcast : ((a - b : Nat) : ℚ) = (a : ℚ) + -(b : ℚ) := by
      rw [Nat.cast_sub hb]
      ring
    simp only [sub, neg, hq, if_false, add]
    rw [← hcast, hr]

theorem ge_natCast (a b : Nat) : ge (fin a) (fin b) = decide (b ≤ a) := by
  simp [ge, le]

end Double

/-! ## `%` -/

theorem modulo_loop_natCast (b : Nat) (hb : 0 < b) :
    ∀ (a fuel : Nat), a ≤ 2 ^ 53 → a / b < fuel →
      modulo_loop fuel (Double.fin a) (Double.fin b) = some (Double.fin ((a % b : Nat) : ℚ)) := by
  intro a
  induction a using Nat.strong_induction_on with
  | _ a ih =>
    intro fuel ha hfuel
    have hfpos : 0 < fuel := Nat.lt_of_le_of_lt (Nat.zero_le _) hfuel
    obtain ⟨k, rfl⟩ : ∃ k, fuel = k + 1 := ⟨fuel - 1, by omega⟩
    by_cases hlt : a < b
    · simp [modulo_loop, Double.ge_natCast, Nat.not_le.2 hlt, Nat.mod_eq_of_lt hlt]
    · have hle : b ≤ a := Nat.le_of_not_lt hlt
      have hdiv : (a - b) / b < k := by
        have : a / b = (a - b) / b + 1 := Nat.div_eq_sub_div hb hle
        omega
      have := ih (a - b) (by omega) k (by omega) hdiv
      simp only [modulo_loop, Double.ge_natCast, hle, decide_True, if_true,
        Double.sub_natCast a b hle ha, this]
      rw [Nat.mod_eq_sub_mod hle]

theorem mod_operands_numbers (fuel : Nat) (vm : VM) (vb va : Value) (rest : List Value)
    (x y : Double) (hstack : vm.stack = vb :: va :: rest)
    (hcap : vm.stack.length ≤ vm.STACK_MAX) (ha : held va = NUMBER x) (hb : held vb = NUMBER y) :
    mod_operands fuel vm =
      match modulo_loop fuel x y with
      | none => .error .timeout
      | some r => .ok (INTERPRET_OK, { vm with stack := NUMBER r :: rest }) := by
  have hv := vars_to_vals_held vm vb va rest hstack hcap
  obtain ⟨SM, FM, frames, fc, stack, globals, strings, ou, objects, ops, sin, sout, sv, sc⟩ := vm
  simp only at hstack hcap hv
  subst hstack
  simp only [List.length_cons] at hcap
  have h1 : rest.length < SM := by omega
  cases hloop : modulo_loop fuel x y <;>
    simp [mod_operands, modulo, hv, ha, hb, hloop, peek, pop, push, IS_NUMBER, h1, bind,
      Except.bind, pure, Except.pure, throw, throwThe, MonadExceptOf.throw]

theorem step_mod (fuel : Nat) (chunk : Chunk) (ip : Nat) (vm : VM)
    (hcode : chunk.code[ip]? = some OP_MOD.toByte) :
    step fuel chunk ip vm = finish (ip + 1) (mod_operands fuel vm) := by
  simp [step, dispatch, finish, proceed, READ_BYTE, hcode, Op_Code.toByte, Op_Code.ofByte, bind, Except.bind, pure,
    Except.pure]

theorem run_operation_mod (fuel : Nat) (type : ObjString) (vm : VM)
    (h : vm.is_operation type Operators.mod) :
    run_operation (fuel + 1) type vm = mod_operands fuel vm := by
  obtain ⟨hnd, htype⟩ := h
  have e1 : ¬ vm.ops.mod.ref = vm.ops.plus.ref :=
    vm.ops.ref_ne_of_nodup hnd (i := 4) (j := 0) rfl rfl (by decide)
  have e2 : ¬ vm.ops.mod.ref = vm.ops.minus.ref :=
    vm.ops.ref_ne_of_nodup hnd (i := 4) (j := 1) rfl rfl (by decide)
  have e3 : ¬ vm.ops.mod.ref = vm.ops.star.ref :=
    vm.ops.ref_ne_of_nodup hnd (i := 4) (j := 2) rfl rfl (by decide)
  have e4 : ¬ vm.ops.mod.ref = vm.ops.divide.ref :=
    vm.ops.ref_ne_of_nodup hnd (i := 4) (j := 3) rfl rfl (by decide)
  simp [run_operation, values_equal, htype, e1, e2, e3, e4]

/-- C6, as amended. For integer-valued numbers `a`, `b` with `0 <= a <= 2^53` and `b > 0` on
top of the stack (directly or through a variable), `%` — the opcode `OP_MOD` and the `%`
operation alike — returns once its budget exceeds `a / b` turns of the loop, and replaces
the two operands with the number `a mod b`, which is below `b` and differs from `a` by a
multiple of `b`. -/
theorem mod_of_small_integers (chunk : Chunk) (ip : Nat) (vm : VM) (S : List Value)
    (va vb : Value) (a b : Nat) (hstack : vm.slots = S ++ [va, vb])
    (hcap : vm.stack.length ≤ vm.STACK_MAX) (hcode : chunk.code[ip]? = some OP_MOD.toByte)
    (hva : held va = NUMBER (Double.fin a)) (hvb : held vb = NUMBER (Double.fin b))
    (hb : 0 < b) (ha : a ≤ 2 ^ 53) :
    (∀ fuel : Nat, a / b < fuel →
      step fuel chunk ip vm = .ok (none, ip + 1,
        { vm with stack := NUMBER (Double.fin ((a % b : Nat) : ℚ)) :: S.reverse }) ∧
      ∀ type : ObjString, vm.is_operation type Operators.mod →
        run_operation (fuel + 1) type vm = .ok (INTERPRET_OK,
          { vm with stack := NUMBER (Double.fin ((a % b : Nat) : ℚ)) :: S.reverse })) ∧
    a % b < b ∧ b ∣ a - a % b := by
  have hs : vm.stack = vb :: va :: S.reverse := by
    have := stack_of_slots vm _ hstack
    simpa using this
  refine ⟨fun fuel hfuel => ?_, Nat.mod_lt a hb, ?_⟩
  · have hloop := modulo_loop_natCast b hb a fuel ha hfuel
    have h := mod_operands_numbers fuel vm vb va S.reverse _ _ hs hcap hva hvb
    rw [hloop] at h
    refine ⟨?_, fun type htype => ?_⟩
    · rw [step_mod fuel chunk ip vm hcode, h]
      simp [finish, bind, Except.bind, pure, Except.pure]
    · rw [run_operation_mod fuel type vm htype, h]
  · exact ⟨a / b, by
      have := Nat.mod_add_div a b
      omega⟩

theorem modulo_loop_stuck (fuel : Nat) :
    modulo_loop fuel (Double.fin (2 ^ 54)) (Double.fin 1) = none := by
  have hsub : Double.sub (Double.fin (2 ^ 54)) (Double.fin 1) = Double.fin (2 ^ 54) := by
    decide!
  have hge : Double.ge (Double.fin (2 ^ 54)) (Double.fin 1) = true := by decide!
  induction fuel with
  | zero => rfl
  | succ fuel ih => simp only [modulo_loop, hge, if_true, hsub, ih]

/-- C6, counterexample. With a = 2^54 and b = 1, two integer-valued numbers, `a - b` rounds
back to `a`: the loop of `%` is still running after any number of turns. -/
theorem mod_of_large_dividend_never_returns :
    Double.sub (Double.fin (2 ^ 54)) (Double.fin 1) = Double.fin (2 ^ 54) ∧
    ¬ ∃ fuel : Nat, ∃ r : InterpretResult × VM,
      mod_operands fuel (demo_VM [] [NUMBER (Double.fin 1), NUMBER (Double.fin (2 ^ 54))] [])
        = .ok r := by
  refine ⟨by decide!, ?_⟩
  rintro ⟨fuel, r, h⟩
  rw [mod_operands_numbers fuel _ (NUMBER (Double.fin 1)) (NUMBER (Double.fin (2 ^ 54))) []
    (Double.fin (2 ^ 54)) (Double.fin 1) rfl (by decide) rfl rfl, modulo_loop_stuck] at h
  simp at h

/-! ## Runtime errors discard the state -/

theorem discarded_runtime_error (vm : VM) : (runtime_error vm).discarded := by
  simp [VM.discarded, runtime_error, reset_stack]

theorem fail_discards (vm vm' : VM) (h : fail vm = .ok (INTERPRET_RUNTIME_ERROR, vm')) :
    vm'.discarded := by
  simp [fail, pure, Except.pure] at h
  rw [← h]
  exact discarded_runtime_error vm

theorem add_operands_discards (vm vm' : VM)
    (h : add_operands vm = .ok (INTERPRET_RUNTIME_ERROR, vm')) : vm'.discarded := by
  unfold add_operands at h
  simp only [bind, Except.bind, pure, Except.pure] at h
  repeat' split at h
  all_goals first
    | exact fail_discards _ _ h
    | simp at h

theorem BINARY_OP_discards (op : Double → Double → Double) (vm vm' : VM)
    (h : BINARY_OP op vm = .ok (INTERPRET_RUNTIME_ERROR, vm')) : vm'.discarded := by
  unfold BINARY_OP at h
  simp only [bind, Except.bind, pure, Except.pure] at h
  repeat' split at h
  all_goals first
    | exact fail_discards _ _ h
    | simp at h

theorem binary_operands_discards (op : Double → Double → Double) (vm vm' : VM)
    (h : binary_operands op vm = .ok (INTERPRET_RUNTIME_ERROR, vm')) : vm'.discarded := by
  unfold binary_operands at h
  simp only [bind, Except.bind, pure, Except.pure] at h
  repeat' split at h
  all_goals first
    | exact BINARY_OP_discards _ _ _ h
    | simp at h

theorem mod_operands_discards (fuel : Nat) (vm vm' : VM)
    (h : mod_operands fuel vm = .ok (INTERPRET_RUNTIME_ERROR, vm')) : vm'.discarded := by
  unfold mod_operands at h
  simp only [bind, Except.bind, pure, Except.pure] at h
  repeat' split at h
  all_goals first
    | exact fail_discards _ _ h
    | simp at h

theorem set_variable_discards (vm vm' : VM)
    (h : set_variable vm = .ok (INTERPRET_RUNTIME_ERROR, vm')) : vm'.discarded := by
  unfold set_variable at h
  simp only [bind, Except.bind, pure, Except.pure] at h
  repeat' split at h
  all_goals first
    | exact fail_discards _ _ h
    | simp at h

theorem print_top_discards (vm vm' : VM)
    (h : print_top vm = .ok (INTERPRET_RUNTIME_ERROR, vm')) : vm'.discarded := by
  unfold print_top at h
  simp only [bind, Except.bind, pure, Except.pure] at h
  repeat' split at h
  all_goals first
    | exact fail_discards _ _ h
    | simp at h

theorem scan_line_discards (vm vm' : VM)
    (h : scan_line vm = .ok (INTERPRET_RUNTIME_ERROR, vm')) : vm'.discarded := by
  unfold scan_line at h
  simp only [bind, Except.bind, pure, Except.pure] at h
  repeat' split at h
  all_goals first
    | exact fail_discards _ _ h
    | simp at h

theorem run_function_loop_discards (f : ObjString → VM → Res)
    (hf : ∀ type vm vm', f type vm = .ok (INTERPRET_RUNTIME_ERROR, vm') → vm'.discarded) :
    ∀ (items : List Value) (vm vm' : VM),
      run_function_loop f items vm = .ok (INTERPRET_RUNTIME_ERROR, vm') → vm'.discarded := by
  intro items
  induction items with
  | nil =>
    intro vm vm' h
    simp [run_function_loop, pure, Except.pure] at h
  | cons v items ih =>
    intro vm vm' h
    cases v <;> simp only [run_function_loop, bind, Except.bind, pure, Except.pure] at h <;>
      repeat' split at h
    all_goals first
      | exact ih _ _ h
      | (simp at h; done)
      | (rename_i hres heq
         simp only [Except.ok.injEq, Prod.mk.injEq] at h
         obtain ⟨-, rfl⟩ := h
         exact hf _ vm _ (by rw [hres, ← heq]))

theorem if_operands_discards (rf : List Value → VM → Res) (ro : ObjString → VM → Res)
    (hrf : ∀ stack vm vm', rf stack vm = .ok (INTERPRET_RUNTIME_ERROR, vm') → vm'.discarded)
    (hro : ∀ type vm vm', ro type vm = .ok (INTERPRET_RUNTIME_ERROR, vm') → vm'.discarded)
    (vm vm' : VM) (h : if_operands rf ro vm = .ok (INTERPRET_RUNTIME_ERROR, vm')) :
    vm'.discarded := by
  unfold if_operands at h
  simp only [bind, Except.bind, pure, Except.pure] at h
  repeat' split at h
  all_goals first
    | exact hrf _ _ _ h
    | exact hro _ _ _ h
    | simp at h

theorem apply_top_discards (rf : List Value → VM → Res)
    (hrf : ∀ stack vm vm', rf stack vm = .ok (INTERPRET_RUNTIME_ERROR, vm') → vm'.discarded)
    (vm vm' : VM) (h : apply_top rf vm = .ok (INTERPRET_RUNTIME_ERROR, vm')) :
    vm'.discarded := by
  unfold apply_top at h
  simp only [bind, Except.bind, pure, Except.pure] at h
  repeat' split at h
  all_goals first
    | exact hrf _ _ _ h
    | exact fail_discards _ _ h
    | simp at h

theorem propagate_discards (r : Res) (vm' : VM)
    (hr : ∀ vm', r = .ok (INTERPRET_RUNTIME_ERROR, vm') → vm'.discarded)
    (h : propagate r = .ok (INTERPRET_RUNTIME_ERROR, vm')) : vm'.discarded := by
  cases hres : r with
  | error f => simp [propagate, hres, bind, Except.bind] at h
  | ok p =>
    obtain ⟨result, vm1⟩ := p
    by_cases he : result = INTERPRET_RUNTIME_ERROR
    · simp [propagate, hres, he, bind, Except.bind, pure, Except.pure] at h
      subst h
      exact hr vm1 (by rw [hres, he])
    · simp [propagate, hres, he, bind, Except.bind, pure, Except.pure] at h

theorem unwrap_then_ok (vm vm' : VM) (g : Value → Value)
    (h : (do
      let vm ← unwrap_top vm
      let p0 ← peek 0 vm
      let (_, vm) ← pop vm
      let vm ← push (g p0) vm
      (pure (INTERPRET_OK, vm) : Res)) = .ok (INTERPRET_RUNTIME_ERROR, vm')) : False := by
  simp only [bind, Except.bind, pure, Except.pure] at h
  repeat' split at h
  all_goals simp at h

theorem run_operation_discards : ∀ (fuel : Nat) (type : ObjString) (vm vm' : VM),
    run_operation fuel type vm = .ok (INTERPRET_RUNTIME_ERROR, vm') → vm'.discarded := by
  intro fuel
  induction fuel with
  | zero =>
    intro type vm vm' h
    simp [run_operation, throw, throwThe, MonadExceptOf.throw] at h
  | succ fuel ih =>
    intro type vm vm' h
    have hrf : ∀ (stack : List Value) (vm vm' : VM),
        (fun stack : List Value => run_function_loop (run_operation fuel) stack.reverse) stack vm
          = .ok (INTERPRET_RUNTIME_ERROR, vm') → vm'.discarded :=
      fun stack vm vm' h => run_function_loop_discards (run_operation fuel) ih _ vm vm' h
    unfold run_operation at h
    by_cases c1 : values_equal (OBJ_STRING type) (OBJ_STRING vm.ops.plus) = true
    · rw [if_pos c1] at h; exact add_operands_discards _ _ h
    rw [if_neg c1] at h
    by_cases c2 : values_equal (OBJ_STRING type) (OBJ_STRING vm.ops.minus) = true
    · rw [if_pos c2] at h; exact binary_operands_discards _ _ _ h
    rw [if_neg c2] at h
    by_cases c3 : values_equal (OBJ_STRING type) (OBJ_STRING vm.ops.star) = true
    · rw [if_pos c3] at h; exact binary_operands_discards _ _ _ h
    rw [if_neg c3] at h
    by_cases c4 : values_equal (OBJ_STRING type) (OBJ_STRING vm.ops.divide) = true
    · rw [if_pos c4] at h; exact binary_operands_discards _ _ _ h
    rw [if_neg c4] at h
    by_cases c5 : values_equal (OBJ_STRING type) (OBJ_STRING vm.ops.mod) = true
    · rw [if_pos c5] at h; exact mod_operands_discards _ _ _ h
    rw [if_neg c5] at h
    by_cases c6 : values_equal (OBJ_STRING type) (OBJ_STRING vm.ops.equal) = true
    · rw [if_pos c6] at h
      unfold equal_operation at h
      simp only [bind, Except.bind, pure, Except.pure] at h
      repeat' split at h
      all_goals simp at h
    rw [if_neg c6] at h
    by_cases c7 : values_equal (OBJ_STRING type) (OBJ_STRING vm.ops.greater) = true
    · rw [if_pos c7] at h; exact binary_operands_discards _ _ _ h
    rw [if_neg c7] at h
    by_cases c8 : values_equal (OBJ_STRING type) (OBJ_STRING vm.ops.less) = true
    · rw [if_pos c8] at h; exact binary_operands_discards _ _ _ h
    rw [if_neg c8] at h
    by_cases c9 : values_equal (OBJ_STRING type) (OBJ_STRING vm.ops.greater_equal) = true
    · rw [if_pos c9] at h; exact binary_operands_discards _ _ _ h
    rw [if_neg c9] at h
    by_cases c10 : values_equal (OBJ_STRING type) (OBJ_STRING vm.ops.less_equal) = true
    · rw [if_pos c10] at h; exact binary_operands_discards _ _ _ h
    rw [if_neg c10] at h
    by_cases c11 : values_equal (OBJ_STRING type) (OBJ_STRING vm.ops.not) = true
    · rw [if_pos c11] at h; exact (unwrap_then_ok vm vm' _ h).elim
    rw [if_neg c11] at h
    by_cases c12 : values_equal (OBJ_STRING type) (OBJ_STRING vm.ops.question) = true
    · rw [if_pos c12] at h; exact (unwrap_then_ok vm vm' (fun p => BOOL (!is_falsey p)) h).elim
    rw [if_neg c12] at h
    by_cases c13 : values_equal (OBJ_STRING type) (OBJ_STRING vm.ops._if) = true
    · rw [if_pos c13] at h
      exact propagate_discards _ vm' (fun vm1 h1 => if_operands_discards _ _ hrf ih vm vm1 h1) h
    rw [if_neg c13] at h
    by_cases c14 : values_equal (OBJ_STRING type) (OBJ_STRING vm.ops.dot) = true
    · rw [if_pos c14] at h; exact print_top_discards _ _ h
    rw [if_neg c14] at h
    by_cases c15 : values_equal (OBJ_STRING type) (OBJ_STRING vm.ops.scan) = true
    · rw [if_pos c15] at h; exact scan_line_discards _ _ h
    rw [if_neg c15] at h
    by_cases c16 : values_equal (OBJ_STRING type) (OBJ_STRING vm.ops.set) = true
    · rw [if_pos c16] at h; exact set_variable_discards _ _ h
    rw [if_neg c16] at h
    by_cases c17 : values_equal (OBJ_STRING type) (OBJ_STRING vm.ops.comma) = true
    · rw [if_pos c17] at h
      exact propagate_discards _ vm' (fun vm1 h1 => apply_top_discards _ hrf vm vm1 h1) h
    rw [if_neg c17] at h
    simp [pure, Except.pure] at h

theorem run_function_discards (fuel : Nat) (stack : List Value) (vm vm' : VM)
    (h : run_function fuel stack vm = .ok (INTERPRET_RUNTIME_ERROR, vm')) : vm'.discarded :=
  run_function_loop_discards (run_operation fuel) (run_operation_discards fuel) _ vm vm' h

theorem while_loop_discards (rf : List Value → VM → Res)
    (hrf : ∀ stack vm vm', rf stack vm = .ok (INTERPRET_RUNTIME_ERROR, vm') → vm'.discarded)
    (cond body : List Value) : ∀ (fuel : Nat) (vm vm' : VM),
      while_loop rf cond body fuel vm = .ok (INTERPRET_RUNTIME_ERROR, vm') → vm'.discarded := by
  intro fuel
  induction fuel with
  | zero =>
    intro vm vm' h
    simp [while_loop, throw, throwThe, MonadExceptOf.throw] at h
  | succ fuel ih =>
    intro vm vm' h
    unfold while_loop at h
    simp only [bind, Except.bind, pure, Except.pure] at h
    repeat' split at h
    all_goals first
      | exact ih _ _ h
      | (simp at h; done)
      | (rename_i hres heq
         simp only [Except.ok.injEq, Prod.mk.injEq] at h
         obtain ⟨-, rfl⟩ := h
         exact hrf _ _ _ (by rw [hres, ← heq]))

theorem while_operands_discards (fuel : Nat) (vm vm' : VM)
    (h : while_operands fuel vm = .ok (INTERPRET_RUNTIME_ERROR, vm')) : vm'.discarded := by
  unfold while_operands at h
  simp only [bind, Except.bind, pure, Except.pure] at h
  repeat' split at h
  all_goals first
    | exact while_loop_discards _ (run_function_discards fuel) _ _ _ _ _ h
    | exact fail_discards _ _ h
    | simp at h

theorem finish_discards (ip ip' : Nat) (r : Res) (vm' : VM)
    (hr : ∀ vm', r = .ok (INTERPRET_RUNTIME_ERROR, vm') → vm'.discarded)
    (h : finish ip r = .ok (some INTERPRET_RUNTIME_ERROR, ip', vm')) : vm'.discarded := by
  cases hres : r with
  | error f => simp [finish, hres, bind, Except.bind] at h
  | ok p =>
    obtain ⟨result, vm1⟩ := p
    by_cases he : result = INTERPRET_RUNTIME_ERROR
    · simp [finish, hres, he, bind, Except.bind, pure, Except.pure] at h
      obtain ⟨-, rfl⟩ := h
      exact hr vm1 (by rw [hres, he])
    · simp [finish, hres, he, bind, Except.bind, pure, Except.pure] at h

theorem proceed_continues (ip ip' : Nat) (r : Except Fault VM) (vm' : VM)
    (h : proceed ip r = .ok (some INTERPRET_RUNTIME_ERROR, ip', vm')) : False := by
  cases hres : r <;> simp [proceed, hres, bind, Except.bind, pure, Except.pure] at h

theorem dispatch_discards (fuel : Nat) (chunk : Chunk) (ip ip' : Nat) (vm vm' : VM)
    (op : Option Op_Code)
    (h : dispatch fuel chunk ip vm op = .ok (some INTERPRET_RUNTIME_ERROR, ip', vm')) :
    vm'.discarded := by
  have hrf := run_function_discards fuel
  have hro := run_operation_discards fuel
  cases op with
  | none => simp [dispatch, pure, Except.pure] at h
  | some op =>
    cases op <;> simp only [dispatch] at h
    case OP_ADD => exact finish_discards _ _ _ _ (add_operands_discards vm) h
    case OP_SUBTRACT => exact finish_discards _ _ _ _ (binary_operands_discards _ vm) h
    case OP_MULTIPLY => exact finish_discards _ _ _ _ (binary_operands_discards _ vm) h
    case OP_DIVIDE => exact finish_discards _ _ _ _ (binary_operands_discards _ vm) h
    case OP_MOD => exact finish_discards _ _ _ _ (mod_operands_discards _ vm) h
    case OP_EQUAL => exact (proceed_continues _ _ _ _ h).elim
    case OP_GREATER => exact finish_discards _ _ _ _ (binary_operands_discards _ vm) h
    case OP_LESS => exact finish_discards _ _ _ _ (binary_operands_discards _ vm) h
    case OP_GREATER_EQUAL => exact finish_discards _ _ _ _ (binary_operands_discards _ vm) h
    case OP_LESS_EQUAL => exact finish_discards _ _ _ _ (binary_operands_discards _ vm) h
    case OP_NOT => exact (proceed_continues _ _ _ _ h).elim
    case OP_WHILE => exact finish_discards _ _ _ _ (while_operands_discards _ vm) h
    case OP_IF => exact finish_discards _ _ _ _ (if_operands_discards _ _ hrf hro vm) h
    case OP_PRINT => exact finish_discards _ _ _ _ (print_top_discards vm) h
    case OP_SCAN => exact finish_discards _ _ _ _ (scan_line_discards vm) h
    case OP_SET_VARIABLE => exact finish_discards _ _ _ _ (set_variable_discards vm) h
    case OP_APPLY => exact finish_discards _ _ _ _ (apply_top_discards _ hrf vm) h
    case OP_RETURN => simp [pure, Except.pure] at h
    case OP_PUSH_OPERATION =>
      simp only [bind, Except.bind] at h
      split at h
      · simp at h
      · exact (proceed_continues _ _ _ _ h).elim
    case OP_VARIABLE =>
      simp only [bind, Except.bind] at h
      split at h
      · simp at h
      · exact (proceed_continues _ _ _ _ h).elim
    case OP_DEFINE_FUNCTION =>
      simp only [bind, Except.bind] at h
      split at h
      · simp at h
      · exact (proceed_continues _ _ _ _ h).elim
    case OP_CONSTANT =>
      simp only [bind, Except.bind] at h
      split at h
      · simp at h
      · exact (proceed_continues _ _ _ _ h).elim

theorem step_discards (fuel : Nat) (chunk : Chunk) (ip ip' : Nat) (vm vm' : VM)
    (h : step fuel chunk ip vm = .ok (some INTERPRET_RUNTIME_ERROR, ip', vm')) :
    vm'.discarded := by
  unfold step at h
  simp only [bind, Except.bind] at h
  split at h
  · simp at h
  · exact dispatch_discards _ _ _ _ _ _ _ h

theorem run_loop_discards : ∀ (fuel : Nat) (chunk : Chunk) (ip : Nat) (vm vm' : VM),
    run_loop fuel chunk ip vm = .ok (INTERPRET_RUNTIME_ERROR, vm') → vm'.discarded := by
  intro fuel
  induction fuel with
  | zero =>
    intro chunk ip vm vm' h
    simp [run_loop, throw, throwThe, MonadExceptOf.throw] at h
  | succ fuel ih =>
    intro chunk ip vm vm' h
    unfold run_loop at h
    simp only [bind, Except.bind, pure, Except.pure] at h
    repeat' split at h
    all_goals first
      | exact ih _ _ _ _ h
      | (simp at h; done)
      | (rename_i p hres _ _ _
         obtain ⟨r, ip', vm1⟩ := p
         simp only [Except.ok.injEq, Prod.mk.injEq] at h
         obtain ⟨rfl, rfl⟩ := h
         simp only at *
         subst_vars
         exact step_discards _ _ _ _ _ _ hres)

theorem run_discards_state (fuel : Nat) (vm vm' : VM)
    (h : run fuel vm = .ok (INTERPRET_RUNTIME_ERROR, vm')) : vm'.discarded := by
  unfold run at h
  simp only [bind, Except.bind, pure, Except.pure] at h
  repeat' split at h
  all_goals first
    | exact run_loop_discards _ _ _ _ _ h
    | simp at h

/-! ## Replay of a procedure -/

theorem run_function_loop_append (f : ObjString → VM → Res) (xs ys : List Value) :
    ∀ vm vm1 : VM, run_function_loop f xs vm = .ok (INTERPRET_OK, vm1) →
      run_function_loop f (xs ++ ys) vm = run_function_loop f ys vm1 := by
  induction xs with
  | nil =>
    intro vm vm1 h
    simp [run_function_loop, pure, Except.pure] at h
    simp [h]
  | cons v xs ih =>
    intro vm vm1 h
    cases v
    case OBJ_OPERATION ref type =>
      simp only [run_function_loop, List.cons_append, bind, Except.bind] at h ⊢
      cases hr : f type vm with
      | error e => simp [hr] at h
      | ok p =>
        obtain ⟨result, vm2⟩ := p
        simp only [hr] at h ⊢
        by_cases he : result = INTERPRET_RUNTIME_ERROR
        · simp [he, pure, Except.pure] at h
        · simp only [he, if_false] at h ⊢
          exact ih vm2 vm1 h
    case OBJ_VARIABLE ref name value =>
      simp only [run_function_loop, List.cons_append, bind, Except.bind] at h ⊢
      cases hr : push_variable name vm with
      | error e => simp [hr] at h
      | ok vm2 =>
        simp only [hr] at h ⊢
        exact ih vm2 vm1 h
    all_goals
      simp only [run_function_loop, List.cons_append, bind, Except.bind] at h ⊢
      revert h
      cases hr : push _ vm with
      | error e => intro h; simp at h
      | ok vm2 =>
        intro h
        simp only at h ⊢
        exact ih vm2 vm1 h

/-- C9. In the replay of a procedure whose value array is `lo ++ [x] ++ hi`, once the values
above `x` have been replayed: if `x` is a variable of name `n` and `n` is bound in globals,
`run_function` pushes a new variable object whose value is the one `n` is bound to at that
moment (not the one held by `x`) and goes on with `lo`; if `x` is neither an operation nor
a variable it pushes `x` itself and goes on with `lo`. -/
theorem replay_rebinds_variables (fuel : Nat) (lo hi : List Value) (vm vm1 : VM)
    (hhi : run_function fuel hi vm = .ok (INTERPRET_OK, vm1)) :
    (∀ (r : Nat) (n : ObjString) (snapshot now : Value), table_get vm1.globals n = some now →
      run_function fuel (lo ++ OBJ_VARIABLE r n snapshot :: hi) vm
        = (push (OBJ_VARIABLE vm1.objects n now) { vm1 with objects := vm1.objects + 1 }
            >>= fun vm2 => run_function fuel lo vm2)) ∧
    (∀ x : Value, IS_OPERATION x = false → IS_VARIABLE x = false →
      run_function fuel (lo ++ x :: hi) vm
        = (push x vm1 >>= fun vm2 => run_function fuel lo vm2)) := by
  unfold run_function at hhi
  refine ⟨fun r n snapshot now hnow => ?_, fun x hop hvar => ?_⟩
  · have := run_function_loop_append (run_operation fuel) hi.reverse
      (OBJ_VARIABLE r n snapshot :: lo.reverse) vm vm1 hhi
    simp only [run_function, List.reverse_append, List.reverse_cons, List.append_assoc,
      List.singleton_append]
    rw [this]
    simp [run_function_loop, push_variable, lookup_global, hnow]
  · have := run_function_loop_append (run_operation fuel) hi.reverse (x :: lo.reverse) vm vm1 hhi
    simp only [run_function, List.reverse_append, List.reverse_cons, List.append_assoc,
      List.singleton_append]
    rw [this]
    cases x <;> simp [IS_OPERATION, IS_VARIABLE] at hop hvar <;> simp [run_function_loop]

/-- C7. When `run`, `run_operation` or `run_function` returns the runtime-error result, the
machine it leaves has no operand, no frame and no open upvalue. -/
theorem runtime_error_discards_state (fuel : Nat) (vm vm' : VM)
    (h : run fuel vm = .ok (INTERPRET_RUNTIME_ERROR, vm') ∨
      (∃ type : ObjString, run_operation fuel type vm = .ok (INTERPRET_RUNTIME_ERROR, vm')) ∨
      (∃ stack : List Value, run_function fuel stack vm = .ok (INTERPRET_RUNTIME_ERROR, vm'))) :
    vm'.stack = [] ∧ vm'.frame_count = 0 ∧ vm'.open_upvalues = [] := by
  rcases h with h | ⟨type, h⟩ | ⟨stack, h⟩
  · exact run_discards_state fuel vm vm' h
  · exact run_operation_discards fuel type vm vm' h
  · exact run_function_discards fuel stack vm vm' h

/-- C8, the code at the failing input. The literal `'\n'` (a backslash and an `n` between
quotes) constructed twice by `copy_string` on the booted machine: the second call does not
find the first object and allocates a second one with the same content. -/
theorem escaped_literal_is_interned_twice :
    ∃ s1 vm1 s2 vm2, copy_string [92, 110, 39, 0] 2 true booted_VM = .ok (s1, vm1) ∧
      copy_string [92, 110, 39, 0] 2 true vm1 = .ok (s2, vm2) ∧
      s1.ref ≠ s2.ref ∧ vm2.objects = vm1.objects + 1 ∧
      s1.chars = s2.chars ∧ s1.length = s2.length ∧ s1.hash = s2.hash :=
  ⟨_, _, _, _, rfl, rfl, by decide, rfl, rfl, rfl, rfl⟩

/-- C10, as amended. On a stack `S ++ [v1, v2]`, `vars_to_vals` replaces each of `v1`, `v2`
that is a variable by the value that variable object holds (the one its name was bound to
when the object was made), without reading globals; it leaves the other operands and the
slots below as they are, and the height of the stack unchanged. -/
theorem vars_to_vals_takes_held_values (vm : VM) (S : List Value) (v1 v2 : Value)
    (hstack : vm.slots = S ++ [v1, v2]) (hcap : vm.stack.length ≤ vm.STACK_MAX) :
    ∃ vm', vars_to_vals vm = .ok vm' ∧ vm'.slots = S ++ [held v1, held v2] ∧
      vm'.stack.length = vm.stack.length ∧ vm'.globals = vm.globals ∧
      (∀ (r : Nat) (n : ObjString) (value : Value), held (OBJ_VARIABLE r n value) = value) ∧
      (∀ v : Value, IS_VARIABLE v = false → held v = v) := by
  have hs : vm.stack = v2 :: v1 :: S.reverse := by
    have := stack_of_slots vm _ hstack
    simpa using this
  refine ⟨{ vm with stack := held v2 :: held v1 :: S.reverse },
    vars_to_vals_held vm v2 v1 S.reverse hs hcap, ?_, ?_, rfl, fun _ _ _ => rfl, ?_⟩
  · simp [VM.slots]
  · simp [hs]
  · intro v hv
    cases v <;> simp [IS_VARIABLE] at hv <;> rfl

/-- C10, counterexample. After `1 x = x 2 x = 3` the stack holds a variable `x` made when
`x` was 1 while globals binds `x` to 2; `vars_to_vals` puts 1 in its place. -/
theorem vars_to_vals_ignores_reassignment :
    ∃ vm r x vm', run 20 script_reassign = .ok (INTERPRET_OK, vm) ∧
      peek 1 vm = .ok (OBJ_VARIABLE r x (NUMBER (Double.fin 1))) ∧
      table_get vm.globals x = some (NUMBER (Double.fin 2)) ∧
      vars_to_vals vm = .ok vm' ∧
      peek 1 vm' = .ok (NUMBER (Double.fin 1)) ∧
      table_get vm'.globals x = some (NUMBER (Double.fin 2)) :=
  ⟨_, _, _, _, rfl, rfl, rfl, rfl, rfl, rfl⟩

/-! ## The theorems at concrete machines -/

theorem capture_then_replay_restores_order_witness :
    ∃ vm1 ref stored vm2, define_function body_name capture_VM = .ok vm1 ∧
      table_get vm1.globals body_name = some (OBJ_PROCEDURE ref body_name stored) ∧
      run_function 0 stored vm1 = .ok (INTERPRET_OK, vm2) ∧
      vm2.slots = [OBJ_CLOSURE 21] ++
        [NUMBER (Double.fin 1), NUMBER (Double.fin 2), NUMBER (Double.fin 3)] :=
  capture_then_replay_restores_order 0 body_name capture_VM [OBJ_CLOSURE 21]
    [NUMBER (Double.fin 1), NUMBER (Double.fin 2), NUMBER (Double.fin 3)] rfl
    (by simp [IS_VARIABLE, IS_OPERATION]) (by decide)

theorem define_function_captures_witness :
    ∃ vm', define_function body_name capture_VM = .ok vm' ∧ vm'.slots = [OBJ_CLOSURE 21] ∧
      table_get vm'.globals body_name = some (OBJ_PROCEDURE capture_VM.objects body_name
        [NUMBER (Double.fin 3), NUMBER (Double.fin 2), NUMBER (Double.fin 1)]) := by
  obtain ⟨vm', h1, h2, h3, -⟩ := define_function_captures body_name capture_VM [OBJ_CLOSURE 21]
    [NUMBER (Double.fin 1), NUMBER (Double.fin 2), NUMBER (Double.fin 3)] rfl (by simp)
    (by decide)
  exact ⟨vm', h1, h2, h3⟩

theorem if_selects_payload_witness :
    (∃ vm', step 0 (code_only [14, 21]) 0 if_VM = .ok (none, 1, vm') ∧
      vm'.slots = [OBJ_CLOSURE 21, NUMBER (Double.fin 2)]) ∧
    ∃ vm', run_operation 1 if_VM.ops._if if_VM = .ok (INTERPRET_OK, vm') ∧
      vm'.slots = [OBJ_CLOSURE 21, NUMBER (Double.fin 2)] :=
  have h := if_selects_payload 0 (code_only [14, 21]) 0 if_VM [OBJ_CLOSURE 21]
    (NUMBER (Double.fin 1)) (NUMBER (Double.fin 2)) (BOOL false) rfl ⟨rfl, rfl, rfl⟩
    ⟨rfl, rfl, rfl⟩ (by decide) rfl
  ⟨h.1, h.2.1 if_VM.ops._if ⟨by decide, rfl⟩⟩

theorem assign_then_read_witness :
    ∃ vm2 : VM, table_get vm2.globals x_name = some (NUMBER (Double.fin 5)) ∧
      vm2.slots = [OBJ_CLOSURE 21] ++ [OBJ_VARIABLE assign_VM.objects x_name (NUMBER (Double.fin 5))] := by
  obtain ⟨vm1, vm2, vm3, -, -, -, h4, -, h6, -⟩ := assign_then_read 0 assign_chunk 0 0 assign_VM
    [OBJ_CLOSURE 21] (NUMBER (Double.fin 5)) NIL x_name 22 rfl (by decide) rfl rfl rfl rfl rfl
  exact ⟨vm2, h4, h6⟩

theorem add_type_checked_witness :
    step 0 (code_only [2, 21]) 0 string_number_VM
      = .ok (some INTERPRET_RUNTIME_ERROR, 1, reset_stack string_number_VM) ∧
    run_operation 1 string_number_VM.ops.plus string_number_VM
      = .ok (INTERPRET_RUNTIME_ERROR, reset_stack string_number_VM) :=
  have h := (add_type_checked 0 (code_only [2, 21]) 0 string_number_VM [OBJ_CLOSURE 21]
    (OBJ_STRING a_string) (NUMBER (Double.fin 1)) rfl (by decide) rfl).2.2.2 a_string
    (Double.fin 1) (Or.inl ⟨rfl, rfl⟩)
  ⟨h.1, h.2 string_number_VM.ops.plus ⟨by decide, rfl⟩⟩

theorem mod_of_small_integers_witness :
    step 3 (code_only [6, 21]) 0 seven_three_VM = .ok (none, 1,
      { seven_three_VM with
        stack := [NUMBER (Double.fin ((7 % 3 : Nat) : ℚ)), OBJ_CLOSURE 21] }) ∧
    run_operation 4 seven_three_VM.ops.mod seven_three_VM = .ok (INTERPRET_OK,
      { seven_three_VM with
        stack := [NUMBER (Double.fin ((7 % 3 : Nat) : ℚ)), OBJ_CLOSURE 21] }) :=
  have h := (mod_of_small_integers (code_only [6, 21]) 0 seven_three_VM [OBJ_CLOSURE 21]
    (NUMBER (Double.fin 7)) (NUMBER (Double.fin 3)) 7 3 rfl (by decide) rfl (by simp [held])
    (by simp [held]) (by decide) (by decide)).1 3 (by decide)
  ⟨h.1, h.2 seven_three_VM.ops.mod ⟨by decide, rfl⟩⟩

theorem runtime_error_discards_state_witness :
    ∃ vm', run 3 script_string_plus_number = .ok (INTERPRET_RUNTIME_ERROR, vm') ∧
      vm'.stack = [] ∧ vm'.frame_count = 0 ∧ vm'.open_upvalues = [] :=
  ⟨_, rfl, runtime_error_discards_state 3 script_string_plus_number _ (Or.inl rfl)⟩

theorem replay_rebinds_variables_witness :
    run_function 1 ([] ++ OBJ_VARIABLE 99 x_name (NUMBER (Double.fin 1)) :: []) rebound_VM
      = (push (OBJ_VARIABLE rebound_VM.objects x_name (NUMBER (Double.fin 2)))
          { rebound_VM with objects := rebound_VM.objects + 1 }
          >>= fun vm2 => run_function 1 [] vm2) :=
  (replay_rebinds_variables 1 [] [] rebound_VM rebound_VM rfl).1 99 x_name (NUMBER (Double.fin 1))
    (NUMBER (Double.fin 2)) rfl

theorem vars_to_vals_takes_held_values_witness :
    ∃ vm', vars_to_vals stale_variable_VM = .ok vm' ∧
      vm'.slots = [OBJ_CLOSURE 21, NUMBER (Double.fin 1), NUMBER (Double.fin 3)] := by
  obtain ⟨vm', h1, h2, -⟩ := vars_to_vals_takes_held_values stale_variable_VM [OBJ_CLOSURE 21]
    (OBJ_VARIABLE 22 x_name (NUMBER (Double.fin 1))) (NUMBER (Double.fin 3)) rfl (by decide)
  exact ⟨vm', h1, h2⟩

/-! ## Decidable equality of values -/

mutual
theorem Value.same_sound : ∀ a b : Value, Value.same a b = true → a = b
  | NIL, b, h => by cases b <;> simp [Value.same] at h ⊢
  | BOOL a, b, h => by cases b <;> simp [Value.same] at h ⊢; exact h
  | NUMBER a, b, h => by cases b <;> simp [Value.same] at h ⊢; exact h
  | OBJ_STRING a, b, h => by cases b <;> simp [Value.same] at h ⊢; exact h
  | OBJ_VARIABLE r n v, b, h => by
    cases b <;> simp [Value.same] at h ⊢
    exact ⟨h.1.1, h.1.2, Value.same_sound _ _ h.2⟩
  | OBJ_PROCEDURE r n s, b, h => by
    cases b <;> simp [Value.same] at h ⊢
    exact ⟨h.1.1, h.1.2, Value.same_list_sound _ _ h.2⟩
  | OBJ_OPERATION r t, b, h => by cases b <;> simp [Value.same] at h ⊢; exact h
  | OBJ_CLOSURE r, b, h => by cases b <;> simp [Value.same] at h ⊢; exact h
  | OBJ_FUNCTION r, b, h => by cases b <;> simp [Value.same] at h ⊢; exact h
theorem Value.same_list_sound : ∀ a b : List Value, Value.same_list a b = true → a = b
  | [], b, h => by cases b <;> simp [Value.same_list] at h ⊢
  | a :: as, b, h => by
    cases b <;> simp [Value.same_list] at h ⊢
    exact ⟨Value.same_sound _ _ h.1, Value.same_list_sound _ _ h.2⟩
end

mutual
theorem Value.same_self : ∀ a : Value, Value.same a a = true
  | NIL => by simp [Value.same]
  | BOOL a => by simp [Value.same]
  | NUMBER a => by simp [Value.same]
  | OBJ_STRING a => by simp [Value.same]
  | OBJ_VARIABLE r n v => by simp [Value.same, Value.same_self v]
  | OBJ_PROCEDURE r n s => by simp [Value.same, Value.same_list_self s]
  | OBJ_OPERATION r t => by simp [Value.same]
  | OBJ_CLOSURE r => by simp [Value.same]
  | OBJ_FUNCTION r => by simp [Value.same]
theorem Value.same_list_self : ∀ a : List Value, Value.same_list a a = true
  | [] => by simp [Value.same_list]
  | a :: as => by simp [Value.same_list, Value.same_self a, Value.same_list_self as]
end

instance : DecidableEq Value := fun a b =>
  if h : Value.same a b = true then isTrue (Value.same_sound a b h)
  else isFalse (fun e => h (e ▸ Value.same_self a))

deriving instance DecidableEq for Chunk
deriving instance DecidableEq for ObjFunction
deriving instance DecidableEq for ObjClosure
deriving instance DecidableEq for CallFrame
deriving instance DecidableEq for Output
deriving instance DecidableEq for Operators
deriving instance DecidableEq for VM
deriving instance DecidableEq for Except

/-! ## Whole programs: `interpret` on the booted machine -/

/-- C11, the code at the failing input. The source `0 x = 1 2 x if` binds `x` to 0 and runs
`if` on the stack `1 2 x`: the condition is a variable holding 0, and `if` leaves the
then-payload 1 (not the else-payload 2) above the script closure. -/
theorem if_takes_zero_variable_as_truthy :
    (interpret 100 (source_text "0 x = 1 2 x if") booted_VM).result = some INTERPRET_OK ∧
    (interpret 100 (source_text "0 x = 1 2 x if") booted_VM).machine.slots
      = [OBJ_CLOSURE 22, NUMBER (Double.fin 1)] ∧
    (interpret 100 (source_text "0 x = 1 2 x if") booted_VM).machine.globals
      = [({ ref := 21, length := 1, chars := [120, 0], hash := 4245442695 },
          NUMBER (Double.fin 0))] := by
  decide!

/-- C15, the code at the failing input. The source `5 : 0 while` runs `OP_WHILE` with the
number 5 on top: after `runtime_error` the code does not return, it goes on to read
`AS_VARIABLE(while_body_var)->name` of a value that is no variable, which C leaves
undefined; no runtime-error result is returned. -/
theorem while_on_a_number_reads_it_as_a_variable :
    (interpret 100 (source_text "5 : 0 while") booted_VM).fault = some Fault.bad_cast ∧
    (interpret 100 (source_text "5 : 0 while") booted_VM).result = none := by
  decide!

/-- C16, the code at the failing input. The source `'hello' ^` with the input line
`hello` and a newline: `^` pushes a string object of length 6 (the five bytes and the
NUL that follows them), another object than the interned 5-byte literal `'hello'` below
it. -/
theorem scanned_hello_is_six_bytes_long :
    (interpret 100 (source_text "'hello' ^")
        { booted_VM with stdin := source_text "hello\n" }).result = some INTERPRET_OK ∧
    (interpret 100 (source_text "'hello' ^")
        { booted_VM with stdin := source_text "hello\n" }).machine.slots
      = [OBJ_CLOSURE 22,
          OBJ_STRING { ref := 21, length := 5, chars := [104, 101, 108, 108, 111, 0],
                       hash := 1335831723 },
          OBJ_STRING { ref := 23, length := 6, chars := [104, 101, 108, 108, 111, 0],
                       hash := 43209009 }] := by
  decide!

/-- C19, the code at the failing input. The source `'\n' 'x' +` (the first literal is a
backslash and an `n` between quotes): `+` leaves a string object of length 3 whose buffer
is a newline and a NUL; the byte `x` of the second operand is not in it. -/
theorem escaped_concatenation_loses_second_operand :
    (interpret 100 (source_text "'\\n' 'x' +") booted_VM).result = some INTERPRET_OK ∧
    (interpret 100 (source_text "'\\n' 'x' +") booted_VM).machine.slots
      = [OBJ_CLOSURE 23,
          OBJ_STRING { ref := 24, length := 3, chars := [10, 0], hash := 2008254285 }] := by
  decide!

/-- C14, the counterexample. The source `x = : => body body : 0 while` pops the script
closure with `x =`, so `OP_WHILE` runs with the variable `body` alone on the stack; the
condition pushes 0, which is falsey, and the loop ends with that 0 still on the stack: the
result is popped only when another value lies below it. -/
theorem lone_condition_result_is_left_on_stack :
    (interpret 100 (source_text "x = : => body body : 0 while") booted_VM).result
      = some INTERPRET_OK ∧
    (interpret 100 (source_text "x = : => body body : 0 while") booted_VM).machine.slots
      = [NUMBER (Double.fin 0)] := by
  decide!

/-- C20, the counterexample. The source `1 2 3 : => body ,body` does not return Ok:
`=> body` finds the sentinel on top and binds `body` to an empty procedure, and `,` finds
the number 3 on top, not a variable, so `interpret` returns the runtime-error result. -/
theorem prefix_source_is_a_runtime_error :
    (interpret 100 (source_text "1 2 3 : => body ,body") booted_VM).result
      = some INTERPRET_RUNTIME_ERROR ∧
    (interpret 100 (source_text "1 2 3 : => body ,body") booted_VM).machine.globals
      = [({ ref := 21, length := 4, chars := [98, 111, 100, 121, 0], hash := 3685382517 },
          OBJ_PROCEDURE 23
            { ref := 21, length := 4, chars := [98, 111, 100, 121, 0], hash := 3685382517 }
            [])] := by
  decide!

/-- C20, as amended. The source `: 1 2 3 => body body ,` returns Ok: it binds `body` to a
procedure holding 3, 2, 1 (index 0 first), and its invocation pushes 1, 2, 3 in that order
above the script closure. -/
theorem postfix_source_replays_in_order :
    (interpret 100 (source_text ": 1 2 3 => body body ,") booted_VM).result
      = some INTERPRET_OK ∧
    (interpret 100 (source_text ": 1 2 3 => body body ,") booted_VM).machine.slots
      = [OBJ_CLOSURE 22, NUMBER (Double.fin 1), NUMBER (Double.fin 2),
          NUMBER (Double.fin 3)] ∧
    (interpret 100 (source_text ": 1 2 3 => body body ,") booted_VM).machine.globals
      = [({ ref := 21, length := 4, chars := [98, 111, 100, 121, 0], hash := 3685382517 },
          OBJ_PROCEDURE 23
            { ref := 21, length := 4, chars := [98, 111, 100, 121, 0], hash := 3685382517 }
            [NUMBER (Double.fin 3), NUMBER (Double.fin 2), NUMBER (Double.fin 1)])] := by
  decide!

/-! ## `=` and `,` -/

theorem table_get_delete_self (t : Table) (key : ObjString) (h : table_keys_distinct t) :
    table_get (table_delete t key) key = none := by
  induction t with
  | nil => rfl
  | cons entry rest ih =>
    obtain ⟨k, v⟩ := entry
    have hd : (k.ref ∉ rest.map (fun entry => entry.1.ref)) ∧ table_keys_distinct rest := by
      simpa [table_keys_distinct] using h
    by_cases hk : k.ref = key.ref
    · have hnone : ∀ (l : Table), key.ref ∉ l.map (fun entry => entry.1.ref) →
          table_get l key = none := by
        intro l
        induction l with
        | nil => intro _; rfl
        | cons e l ihl =>
          intro hl
          obtain ⟨k2, v2⟩ := e
          have h2 : ¬ key.ref = k2.ref ∧ key.ref ∉ l.map (fun entry => entry.1.ref) := by
            simpa using hl
          have h3 : ¬ k2.ref = key.ref := fun e => h2.1 e.symm
          simp only [table_get, h3, if_false]
          exact ihl h2.2
      simp only [table_delete, hk, if_true]
      exact hnone rest (hk ▸ hd.1)
    · simp only [table_delete, hk, if_false, table_get]
      exact ih hd.2

theorem step_set (fuel : Nat) (chunk : Chunk) (ip : Nat) (vm : VM)
    (hcode : chunk.code[ip]? = some OP_SET_VARIABLE.toByte) :
    step fuel chunk ip vm = finish (ip + 1) (set_variable vm) := by
  simp [step, dispatch, finish, proceed, READ_BYTE, hcode, Op_Code.toByte, Op_Code.ofByte,
    bind, Except.bind, pure, Except.pure]

theorem step_apply (fuel : Nat) (chunk : Chunk) (ip : Nat) (vm : VM)
    (hcode : chunk.code[ip]? = some OP_APPLY.toByte) :
    step fuel chunk ip vm = finish (ip + 1) (apply_top (run_function fuel) vm) := by
  simp [step, dispatch, finish, proceed, READ_BYTE, hcode, Op_Code.toByte, Op_Code.ofByte,
    bind, Except.bind, pure, Except.pure]

theorem run_operation_set (fuel : Nat) (type : ObjString) (vm : VM)
    (h : vm.is_operation type Operators.set) :
    run_operation (fuel + 1) type vm = set_variable vm := by
  obtain ⟨hnd, htype⟩ := h
  have e0 : ¬ vm.ops.set.ref = vm.ops.plus.ref :=
    vm.ops.ref_ne_of_nodup hnd (i := 15) (j := 0) rfl rfl (by decide)
  have e1 : ¬ vm.ops.set.ref = vm.ops.minus.ref :=
    vm.ops.ref_ne_of_nodup hnd (i := 15) (j := 1) rfl rfl (by decide)
  have e2 : ¬ vm.ops.set.ref = vm.ops.star.ref :=
    vm.ops.ref_ne_of_nodup hnd (i := 15) (j := 2) rfl rfl (by decide)
  have e3 : ¬ vm.ops.set.ref = vm.ops.divide.ref :=
    vm.ops.ref_ne_of_nodup hnd (i := 15) (j := 3) rfl rfl (by decide)
  have e4 : ¬ vm.ops.set.ref = vm.ops.mod.ref :=
    vm.ops.ref_ne_of_nodup hnd (i := 15) (j := 4) rfl rfl (by decide)
  have e5 : ¬ vm.ops.set.ref = vm.ops.equal.ref :=
    vm.ops.ref_ne_of_nodup hnd (i := 15) (j := 5) rfl rfl (by decide)
  have e6 : ¬ vm.ops.set.ref = vm.ops.greater.ref :=
    vm.ops.ref_ne_of_nodup hnd (i := 15) (j := 6) rfl rfl (by decide)
  have e7 : ¬ vm.ops.set.ref = vm.ops.less.ref :=
    vm.ops.ref_ne_of_nodup hnd (i := 15) (j := 7) rfl rfl (by decide)
  have e8 : ¬ vm.ops.set.ref = vm.ops.greater_equal.ref :=
    vm.ops.ref_ne_of_nodup hnd (i := 15) (j := 8) rfl rfl (by decide)
  have e9 : ¬ vm.ops.set.ref = vm.ops.less_equal.ref :=
    vm.ops.ref_ne_of_nodup hnd (i := 15) (j := 9) rfl rfl (by decide)
  have e10 : ¬ vm.ops.set.ref = vm.ops.not.ref :=
    vm.ops.ref_ne_of_nodup hnd (i := 15) (j := 10) rfl rfl (by decide)
  have e11 : ¬ vm.ops.set.ref = vm.ops.question.ref :=
    vm.ops.ref_ne_of_nodup hnd (i := 15) (j := 11) rfl rfl (by decide)
  have e12 : ¬ vm.ops.set.ref = vm.ops._if.ref :=
    vm.ops.ref_ne_of_nodup hnd (i := 15) (j := 12) rfl rfl (by decide)
  have e13 : ¬ vm.ops.set.ref = vm.ops.dot.ref :=
    vm.ops.ref_ne_of_nodup hnd (i := 15) (j := 13) rfl rfl (by decide)
  have e14 : ¬ vm.ops.set.ref = vm.ops.scan.ref :=
    vm.ops.ref_ne_of_nodup hnd (i := 15) (j := 14) rfl rfl (by decide)
  simp only [run_operation, values_equal, beq_iff_eq, htype, e0, e1, e2, e3, e4, e5, e6, e7,
    e8, e9, e10, e11, e12, e13, e14, if_false, if_true]

theorem run_operation_comma (fuel : Nat) (type : ObjString) (vm : VM)
    (h : vm.is_operation type Operators.comma) :
    run_operation (fuel + 1) type vm = propagate (apply_top (run_function fuel) vm) := by
  obtain ⟨hnd, htype⟩ := h
  have e0 : ¬ vm.ops.comma.ref = vm.ops.plus.ref :=
    vm.ops.ref_ne_of_nodup hnd (i := 16) (j := 0) rfl rfl (by decide)
  have e1 : ¬ vm.ops.comma.ref = vm.ops.minus.ref :=
    vm.ops.ref_ne_of_nodup hnd (i := 16) (j := 1) rfl rfl (by decide)
  have e2 : ¬ vm.ops.comma.ref = vm.ops.star.ref :=
    vm.ops.ref_ne_of_nodup hnd (i := 16) (j := 2) rfl rfl (by decide)
  have e3 : ¬ vm.ops.comma.ref = vm.ops.divide.ref :=
    vm.ops.ref_ne_of_nodup hnd (i := 16) (j := 3) rfl rfl (by decide)
  have e4 : ¬ vm.ops.comma.ref = vm.ops.mod.ref :=
    vm.ops.ref_ne_of_nodup hnd (i := 16) (j := 4) rfl rfl (by decide)
  have e5 : ¬ vm.ops.comma.ref = vm.ops.equal.ref :=
    vm.ops.ref_ne_of_nodup hnd (i := 16) (j := 5) rfl rfl (by decide)
  have e6 : ¬ vm.ops.comma.ref = vm.ops.greater.ref :=
    vm.ops.ref_ne_of_nodup hnd (i := 16) (j := 6) rfl rfl (by decide)
  have e7 : ¬ vm.ops.comma.ref = vm.ops.less.ref :=
    vm.ops.ref_ne_of_nodup hnd (i := 16) (j := 7) rfl rfl (by decide)
  have e8 : ¬ vm.ops.comma.ref = vm.ops.greater_equal.ref :=
    vm.ops.ref_ne_of_nodup hnd (i := 16) (j := 8) rfl rfl (by decide)
  have e9 : ¬ vm.ops.comma.ref = vm.ops.less_equal.ref :=
    vm.ops.ref_ne_of_nodup hnd (i := 16) (j := 9) rfl rfl (by decide)
  have e10 : ¬ vm.ops.comma.ref = vm.ops.not.ref :=
    vm.ops.ref_ne_of_nodup hnd (i := 16) (j := 10) rfl rfl (by decide)
  have e11 : ¬ vm.ops.comma.ref = vm.ops.question.ref :=
    vm.ops.ref_ne_of_nodup hnd (i := 16) (j := 11) rfl rfl (by decide)
  have e12 : ¬ vm.ops.comma.ref = vm.ops._if.ref :=
    vm.ops.ref_ne_of_nodup hnd (i := 16) (j := 12) rfl rfl (by decide)
  have e13 : ¬ vm.ops.comma.ref = vm.ops.dot.ref :=
    vm.ops.ref_ne_of_nodup hnd (i := 16) (j := 13) rfl rfl (by decide)
  have e14 : ¬ vm.ops.comma.ref = vm.ops.scan.ref :=
    vm.ops.ref_ne_of_nodup hnd (i := 16) (j := 14) rfl rfl (by decide)
  have e15 : ¬ vm.ops.comma.ref = vm.ops.set.ref :=
    vm.ops.ref_ne_of_nodup hnd (i := 16) (j := 15) rfl rfl (by decide)
  simp only [run_operation, values_equal, beq_iff_eq, htype, e0, e1, e2, e3, e4, e5, e6, e7,
    e8, e9, e10, e11, e12, e13, e14, e15, if_false, if_true]
  rfl

theorem set_variable_not_variable (vm : VM) (top : Value) (rest : List Value)
    (hstack : vm.stack = top :: rest) (htop : IS_VARIABLE top = false) :
    set_variable vm = .ok (INTERPRET_RUNTIME_ERROR, runtime_error vm) := by
  cases top <;> simp [IS_VARIABLE] at htop <;>
    simp [set_variable, peek, hstack, fail, bind, Except.bind, pure, Except.pure]

theorem set_variable_pops_two (vm : VM) (r : Nat) (name : ObjString) (held_value v : Value)
    (rest : List Value) (hstack : vm.stack = OBJ_VARIABLE r name held_value :: v :: rest) :
    set_variable vm
      = .ok (INTERPRET_OK, { vm with globals := table_set vm.globals name v, stack := rest }) := by
  simp [set_variable, peek, pop, hstack, bind, Except.bind, pure, Except.pure]

theorem set_variable_error_iff (vm : VM) (top : Value) (rest : List Value)
    (hstack : vm.stack = top :: rest) :
    (∃ vm', set_variable vm = .ok (INTERPRET_RUNTIME_ERROR, vm')) ↔ IS_VARIABLE top = false := by
  constructor
  · rintro ⟨vm', h⟩
    cases top with
    | OBJ_VARIABLE r name held_value =>
      cases rest with
      | nil => simp [set_variable, peek, hstack, bind, Except.bind] at h
      | cons v rest =>
        rw [set_variable_pops_two vm r name held_value v rest hstack] at h
        simp at h
    | _ => rfl
  · intro htop
    exact ⟨_, set_variable_not_variable vm top rest hstack htop⟩

/-- C13. With a value `top` on top of the stack, `=` — the opcode `OP_SET_VARIABLE` and the
`=` operation alike — returns the runtime-error result if and only if `top` is not a
variable, and then leaves the machine `runtime_error` makes, whose globals are those
before; when `top` is a variable above a value `v`, it returns Ok (`run` goes on with the
next instruction) and leaves the stack without these two values. -/
theorem assignment_needs_a_variable (fuel : Nat) (chunk : Chunk) (ip : Nat) (vm : VM)
    (S : List Value) (top : Value) (hstack : vm.slots = S ++ [top])
    (hcode : chunk.code[ip]? = some OP_SET_VARIABLE.toByte) :
    ((∃ ip' vm', step fuel chunk ip vm = .ok (some INTERPRET_RUNTIME_ERROR, ip', vm')) ↔
      IS_VARIABLE top = false) ∧
    (IS_VARIABLE top = false →
      step fuel chunk ip vm = .ok (some INTERPRET_RUNTIME_ERROR, ip + 1, runtime_error vm) ∧
      (runtime_error vm).globals = vm.globals) ∧
    (IS_VARIABLE top = true → ∀ (S' : List Value) (v : Value), S = S' ++ [v] →
      ∃ vm', step fuel chunk ip vm = .ok (none, ip + 1, vm') ∧ vm'.slots = S') ∧
    ∀ type : ObjString, vm.is_operation type Operators.set →
      ((∃ vm', run_operation (fuel + 1) type vm = .ok (INTERPRET_RUNTIME_ERROR, vm')) ↔
        IS_VARIABLE top = false) ∧
      (IS_VARIABLE top = false →
        run_operation (fuel + 1) type vm = .ok (INTERPRET_RUNTIME_ERROR, runtime_error vm)) ∧
      (IS_VARIABLE top = true → ∀ (S' : List Value) (v : Value), S = S' ++ [v] →
        ∃ vm', run_operation (fuel + 1) type vm = .ok (INTERPRET_OK, vm') ∧ vm'.slots = S') := by
  have hs : vm.stack = top :: S.reverse := by
    have := stack_of_slots vm _ hstack
    simpa using this
  have hstep := step_set fuel chunk ip vm hcode
  have hiff := set_variable_error_iff vm top S.reverse hs
  have hok : IS_VARIABLE top = true → ∀ (S' : List Value) (v : Value), S = S' ++ [v] →
      ∃ vm', set_variable vm = .ok (INTERPRET_OK, vm') ∧ vm'.slots = S' := by
    intro htop S' v hS
    cases top <;> simp [IS_VARIABLE] at htop
    rename_i r name held_value
    refine ⟨_, set_variable_pops_two vm r name held_value v S'.reverse ?_, ?_⟩
    · rw [hs, hS]; simp
    · simp [VM.slots]
  refine ⟨?_, ?_, ?_, ?_⟩
  · rw [hstep, ← hiff]
    constructor
    · rintro ⟨ip', vm', h⟩
      cases hset : set_variable vm with
      | error f => simp [hset, finish, bind, Except.bind] at h
      | ok p =>
        obtain ⟨result, vm1⟩ := p
        by_cases hr : result = INTERPRET_RUNTIME_ERROR
        · exact ⟨vm1, by rw [hr]⟩
        · simp [hset, finish, bind, Except.bind, pure, Except.pure, hr] at h
    · rintro ⟨vm', h⟩
      exact ⟨ip + 1, vm', by simp [h, finish, bind, Except.bind, pure, Except.pure]⟩
  · intro htop
    refine ⟨?_, rfl⟩
    rw [hstep, set_variable_not_variable vm top S.reverse hs htop]
    simp [finish, bind, Except.bind, pure, Except.pure]
  · intro htop S' v hS
    obtain ⟨vm', h1, h2⟩ := hok htop S' v hS
    exact ⟨vm', by rw [hstep, h1]; simp [finish, bind, Except.bind, pure, Except.pure], h2⟩
  · intro type htype
    rw [run_operation_set fuel type vm htype]
    exact ⟨hiff, set_variable_not_variable vm top S.reverse hs, hok⟩

theorem apply_top_not_variable (rf : List Value → VM → Res) (vm : VM) (top : Value)
    (rest : List Value) (hstack : vm.stack = top :: rest) (htop : IS_VARIABLE top = false) :
    apply_top rf vm = .ok (INTERPRET_RUNTIME_ERROR, runtime_error vm) := by
  cases top <;> simp [IS_VARIABLE] at htop <;>
    simp [apply_top, peek, hstack, fail, bind, Except.bind, pure, Except.pure]

theorem apply_top_not_procedure (rf : List Value → VM → Res) (vm : VM) (r : Nat)
    (name : ObjString) (held_value g : Value) (rest : List Value)
    (hstack : vm.stack = OBJ_VARIABLE r name held_value :: rest)
    (hbound : table_get vm.globals name = some g) (hg : IS_PROCEDURE g = false) :
    apply_top rf vm = .ok (INTERPRET_RUNTIME_ERROR,
      runtime_error { vm with globals := table_delete vm.globals name }) := by
  cases g <;> simp [IS_PROCEDURE] at hg <;>
    simp [apply_top, peek, hstack, lookup_global, hbound, fail, bind, Except.bind, pure,
      Except.pure]

theorem apply_top_procedure (rf : List Value → VM → Res) (vm : VM) (r : Nat)
    (name : ObjString) (held_value : Value) (rest : List Value) (pr : Nat) (pn : ObjString)
    (stored : List Value) (hstack : vm.stack = OBJ_VARIABLE r name held_value :: rest)
    (hbound : table_get vm.globals name = some (OBJ_PROCEDURE pr pn stored)) :
    apply_top rf vm = rf stored { vm with stack := rest } := by
  simp [apply_top, peek, pop, hstack, lookup_global, hbound, bind, Except.bind, pure,
    Except.pure]

/-- C12. With a variable of name `n` on top of the stack and `n` bound in globals (a table
with distinct keys), `,` — the opcode `OP_APPLY` and the `,` operation alike — returns the
runtime-error result and leaves `n` unbound when the value bound to `n` is no procedure;
when it is a procedure, the variable is popped and the result is that of `run_function`
on the procedure, in the machine after the pop. With any other value than a variable on
top, the result is the runtime-error result and globals are as before. -/
theorem apply_needs_a_bound_procedure (fuel : Nat) (chunk : Chunk) (ip : Nat) (vm : VM)
    (S : List Value) (top : Value) (hstack : vm.slots = S ++ [top])
    (hkeys : table_keys_distinct vm.globals)
    (hcode : chunk.code[ip]? = some OP_APPLY.toByte) :
    (∀ (r : Nat) (n : ObjString) (held_value g : Value), top = OBJ_VARIABLE r n held_value →
      table_get vm.globals n = some g →
      (IS_PROCEDURE g = false →
        ∃ vm', step fuel chunk ip vm = .ok (some INTERPRET_RUNTIME_ERROR, ip + 1, vm') ∧
          table_get vm'.globals n = none ∧
          ∀ type : ObjString, vm.is_operation type Operators.comma →
            run_operation (fuel + 1) type vm = .ok (INTERPRET_RUNTIME_ERROR, vm')) ∧
      (∀ (pr : Nat) (pn : ObjString) (stored : List Value), g = OBJ_PROCEDURE pr pn stored →
        ∃ popped, pop vm = .ok (top, popped) ∧ popped.slots = S ∧
          step fuel chunk ip vm = finish (ip + 1) (run_function fuel stored popped) ∧
          ∀ type : ObjString, vm.is_operation type Operators.comma →
            run_operation (fuel + 1) type vm
              = propagate (run_function fuel stored popped))) ∧
    (IS_VARIABLE top = false →
      step fuel chunk ip vm = .ok (some INTERPRET_RUNTIME_ERROR, ip + 1, runtime_error vm) ∧
      (runtime_error vm).globals = vm.globals ∧
      ∀ type : ObjString, vm.is_operation type Operators.comma →
        run_operation (fuel + 1) type vm
          = .ok (INTERPRET_RUNTIME_ERROR, runtime_error vm)) := by
  have hs : vm.stack = top :: S.reverse := by
    have := stack_of_slots vm _ hstack
    simpa using this
  have hstep := step_apply fuel chunk ip vm hcode
  refine ⟨?_, ?_⟩
  · intro r n held_value g htop hbound
    subst htop
    refine ⟨?_, ?_⟩
    · intro hg
      have h := apply_top_not_procedure (run_function fuel) vm r n held_value g S.reverse hs
        hbound hg
      refine ⟨runtime_error { vm with globals := table_delete vm.globals n }, ?_, ?_, ?_⟩
      · rw [hstep, h]
        simp [finish, bind, Except.bind, pure, Except.pure]
      · exact table_get_delete_self vm.globals n hkeys
      · intro type htype
        rw [run_operation_comma fuel type vm htype, h]
        rfl
    · intro pr pn stored hg
      subst hg
      have h := apply_top_procedure (run_function fuel) vm r n held_value S.reverse pr pn
        stored hs hbound
      refine ⟨{ vm with stack := S.reverse }, ?_, ?_, ?_, ?_⟩
      · simp [pop, hs]
      · simp [VM.slots]
      · rw [hstep, h]
      · intro type htype
        rw [run_operation_comma fuel type vm htype, h]
  · intro htop
    have h := apply_top_not_variable (run_function fuel) vm top S.reverse hs htop
    refine ⟨?_, rfl, ?_⟩
    · rw [hstep, h]
      simp [finish, bind, Except.bind, pure, Except.pure]
    · intro type htype
      rw [run_operation_comma fuel type vm htype, h]
      rfl

/-! ## `while` -/

theorem peek_zero_of_head (vm : VM) (result : Value) (h : vm.stack.head? = some result) :
    peek 0 vm = .ok result ∧ vm.stack = result :: vm.stack.tail := by
  cases hst : vm.stack with
  | nil => simp [hst] at h
  | cons v rest =>
    simp only [hst, List.head?_cons, Option.some.injEq] at h
    subst h
    simp [peek, hst]

theorem drop_result_eq (vm : VM) (result : Value) (h : vm.stack.head? = some result) :
    (if vm.stack.length > 1 then (do let (_, vm) ← pop vm; pure vm) else pure vm)
      = (.ok (drop_result vm) : Except Fault VM) := by
  obtain ⟨-, hst⟩ := peek_zero_of_head vm result h
  unfold drop_result
  by_cases hl : vm.stack.length > 1
  · rw [if_pos hl, if_pos hl]
    obtain ⟨SM, FM, frames, fc, stack, globals, strings, ou, objects, ops, sin, sout, sv, sc⟩ :=
      vm
    simp only at hst
    cases stack with
    | nil => simp at hst
    | cons v rest => simp [pop, bind, Except.bind, pure, Except.pure]
  · rw [if_neg hl, if_neg hl]
    rfl

theorem while_loop_follows_protocol (rf : List Value → VM → Res) (condition body : List Value)
    (n : Nat) (vm vm' : VM) (h : while_protocol rf condition body n vm vm') :
    ∀ fuel : Nat, n < fuel → while_loop rf condition body fuel vm = .ok (INTERPRET_OK, vm') := by
  induction h with
  | done vm checked result hcond hhead hfalsey =>
    intro fuel hfuel
    obtain ⟨f, rfl⟩ : ∃ f, fuel = f + 1 := ⟨fuel - 1, by omega⟩
    obtain ⟨hpeek, -⟩ := peek_zero_of_head checked result hhead
    have hdrop := drop_result_eq checked result hhead
    unfold while_loop
    simp only [hcond, bind, Except.bind, hpeek, hfalsey, if_true]
    by_cases hl : checked.stack.length > 1
    · rw [if_pos hl] at hdrop
      simp only [bind, Except.bind] at hdrop
      simp only [hl, if_true]
      cases hp : pop checked with
      | error f => simp [hp] at hdrop
      | ok p =>
        simp only [hp, pure, Except.pure] at hdrop ⊢
        simp only [Except.ok.injEq] at hdrop
        simp [hdrop]
    · rw [if_neg hl] at hdrop
      simp only [pure, Except.pure, Except.ok.injEq] at hdrop
      simp [hl, pure, Except.pure, ← hdrop]
  | again n vm checked next vm' result hcond hhead htruthy hbody _ ih =>
    intro fuel hfuel
    obtain ⟨f, rfl⟩ : ∃ f, fuel = f + 1 := ⟨fuel - 1, by omega⟩
    obtain ⟨hpeek, -⟩ := peek_zero_of_head checked result hhead
    have hdrop := drop_result_eq checked result hhead
    have hrec := ih f (by omega)
    unfold while_loop
    simp only [hcond, bind, Except.bind, hpeek, htruthy]
    simp only [bind, Except.bind] at hdrop
    by_cases hl : checked.stack.length > 1
    · rw [if_pos hl] at hdrop
      have hl' : 1 < checked.stack.length := hl
      simp only [hl', if_true]
      simp [hdrop, hbody, hrec]
    · rw [if_neg hl] at hdrop
      have hl' : ¬ 1 < checked.stack.length := hl
      simp only [hl', if_false]
      simp [hdrop, hbody, hrec]

theorem while_protocol_deterministic (rf : List Value → VM → Res) (condition body : List Value)
    (n : Nat) (vm a : VM) (h : while_protocol rf condition body n vm a) :
    ∀ (m : Nat) (b : VM), while_protocol rf condition body m vm b → m = n ∧ b = a := by
  induction h with
  | done vm checked result hcond hhead hfalsey =>
    intro m b hb
    cases hb with
    | done _ checked2 result2 hcond2 hhead2 hfalsey2 =>
      rw [hcond] at hcond2
      simp only [Except.ok.injEq, Prod.mk.injEq, true_and] at hcond2
      subst hcond2
      exact ⟨rfl, rfl⟩
    | again k _ checked2 next2 _ result2 hcond2 hhead2 htruthy2 hbody2 hrest2 =>
      rw [hcond] at hcond2
      simp only [Except.ok.injEq, Prod.mk.injEq, true_and] at hcond2
      subst hcond2
      rw [hhead] at hhead2
      simp only [Option.some.injEq] at hhead2
      subst hhead2
      rw [hfalsey] at htruthy2
      exact absurd htruthy2 (by decide)
  | again n vm checked next vm' result hcond hhead htruthy hbody _ ih =>
    intro m b hb
    cases hb with
    | done _ checked2 result2 hcond2 hhead2 hfalsey2 =>
      rw [hcond] at hcond2
      simp only [Except.ok.injEq, Prod.mk.injEq, true_and] at hcond2
      subst hcond2
      rw [hhead] at hhead2
      simp only [Option.some.injEq] at hhead2
      subst hhead2
      rw [htruthy] at hfalsey2
      exact absurd hfalsey2 (by decide)
    | again k _ checked2 next2 _ result2 hcond2 hhead2 htruthy2 hbody2 hrest2 =>
      rw [hcond] at hcond2
      simp only [Except.ok.injEq, Prod.mk.injEq, true_and] at hcond2
      subst hcond2
      rw [hbody] at hbody2
      simp only [Except.ok.injEq, Prod.mk.injEq, true_and] at hbody2
      subst hbody2
      obtain ⟨h1, h2⟩ := ih k b hrest2
      exact ⟨by omega, h2⟩

theorem step_while (fuel : Nat) (chunk : Chunk) (ip : Nat) (vm : VM)
    (hcode : chunk.code[ip]? = some OP_WHILE.toByte) :
    step fuel chunk ip vm = finish (ip + 1) (while_operands fuel vm) := by
  simp [step, dispatch, finish, proceed, READ_BYTE, hcode, Op_Code.toByte, Op_Code.ofByte,
    bind, Except.bind, pure, Except.pure]

theorem while_operands_procedures (fuel : Nat) (vm : VM) (r : Nat) (name key : ObjString)
    (held_value : Value) (rest : List Value) (br cr : Nat) (bn cn : ObjString)
    (body condition : List Value) (hstack : vm.stack = OBJ_VARIABLE r name held_value :: rest)
    (hbody : table_get vm.globals name = some (OBJ_PROCEDURE br bn body))
    (hkey : copy_string (cstring "while_condition") 15 false vm = .ok (key, vm))
    (hcond : table_get vm.globals key = some (OBJ_PROCEDURE cr cn condition)) :
    while_operands fuel vm
      = while_loop (run_function fuel) condition body fuel { vm with stack := rest } := by
  unfold while_operands
  simp only [peek, hstack, List.getElem?_cons_zero, bind, Except.bind, lookup_global, hbody,
    hkey, hcond, pop]

/-- C14, as amended. `OP_WHILE` with a variable on top of `S` whose name is bound to a
procedure `body`, the interned name `while_condition` being bound to a procedure
`condition`: when from the stack `S` the condition yields a truthy result `n` times, each
followed by one replay of the body, and then a falsey one (`while_protocol`, in which a
result is dropped only if another value lies below it), then with a budget above `n` the
instruction ends with Ok (`run` goes on with the next instruction) in the machine after
the drop of that last result; `n` and that machine are determined by the start. -/
theorem while_replays_body_per_truthy_condition (fuel : Nat) (chunk : Chunk) (ip : Nat)
    (vm : VM) (S : List Value) (r : Nat) (name key : ObjString) (held_value : Value)
    (br cr : Nat) (bn cn : ObjString) (body condition : List Value) (n : Nat) (vm' : VM)
    (hstack : vm.slots = S ++ [OBJ_VARIABLE r name held_value])
    (hbody : table_get vm.globals name = some (OBJ_PROCEDURE br bn body))
    (hkey : copy_string (cstring "while_condition") 15 false vm = .ok (key, vm))
    (hcond : table_get vm.globals key = some (OBJ_PROCEDURE cr cn condition))
    (hcode : chunk.code[ip]? = some OP_WHILE.toByte)
    (hrun : while_protocol (run_function fuel) condition body n { vm with stack := S.reverse }
      vm')
    (hfuel : n < fuel) :
    step fuel chunk ip vm = .ok (none, ip + 1, vm') ∧
    ∀ (m : Nat) (other : VM),
      while_protocol (run_function fuel) condition body m { vm with stack := S.reverse } other →
      m = n ∧ other = vm' := by
  have hs : vm.stack = OBJ_VARIABLE r name held_value :: S.reverse := by
    have := stack_of_slots vm _ hstack
    simpa using this
  refine ⟨?_, while_protocol_deterministic _ _ _ _ _ _ hrun⟩
  rw [step_while fuel chunk ip vm hcode,
    while_operands_procedures fuel vm r name key held_value S.reverse br cr bn cn body
      condition hs hbody hkey hcond,
    while_loop_follows_protocol _ _ _ _ _ _ hrun fuel hfuel]
  simp [finish, bind, Except.bind, pure, Except.pure]

/-! ## `str_to_double` -/

theorem isdigit_iff (c : Nat) : isdigit c = true ↔ 48 ≤ c ∧ c ≤ 57 := by
  simp [isdigit]

theorem str_to_double_loop_stop (line : List Nat) :
    ∀ (decimals : Bool) (val place : Double),
      ((str_to_double_loop line decimals val place).1 = [] ∨
        (str_to_double_loop line decimals val place).1 = [10]) ↔
      ∃ body : List Nat, (line = body ∨ line = body ++ [10]) ∧
        (∀ c ∈ body, isdigit c = true ∨ c = 46) ∧
        body.count 46 ≤ (if decimals = true then 0 else 1) := by
  induction line with
  | nil =>
    intro decimals val place
    simp only [str_to_double_loop, true_or, true_iff]
    exact ⟨[], Or.inl rfl, by simp, by simp⟩
  | cons c tl ih =>
    intro decimals val place
    by_cases hd : isdigit c = true
    · -- a digit: the loop goes on with the same flag
      have hc : 48 ≤ c ∧ c ≤ 57 := (isdigit_iff c).1 hd
      have h46 : ¬ c = 46 := by omega
      have h46' : (c == 46) = false := by simpa using h46
      have hloop : (str_to_double_loop (c :: tl) decimals val place).1
          = (str_to_double_loop tl decimals
              (Double.add
                (if Double.eq (if decimals = true then Double.div place (Double.fin 10) else place)
                    (Double.fin 1) = true then Double.mul val (Double.fin 10) else val)
                (Double.mul (Double.ofInt ((c : Int) - 48))
                  (if decimals = true then Double.div place (Double.fin 10) else place)))
              (if decimals = true then Double.div place (Double.fin 10) else place)).1 := by
        simp [str_to_double_loop, hd, h46]
      rw [hloop, ih]
      constructor
      · rintro ⟨body, hline, hall, hcount⟩
        refine ⟨c :: body, ?_, ?_, ?_⟩
        · rcases hline with h | h
          · exact Or.inl (by rw [h])
          · exact Or.inr (by rw [h]; rfl)
        · intro x hx
          rcases List.mem_cons.1 hx with h | h
          · exact Or.inl (h ▸ hd)
          · exact hall x h
        · simpa [List.count_cons, h46] using hcount
      · rintro ⟨body, hline, hall, hcount⟩
        cases body with
        | nil =>
          rcases hline with h | h
          · simp at h
          · simp at h
            omega
        | cons b body =>
          have hb : c = b ∧ (tl = body ∨ tl = body ++ [10]) := by
            rcases hline with h | h
            · simp at h; exact ⟨h.1, Or.inl h.2⟩
            · simp at h; exact ⟨h.1, Or.inr h.2⟩
          obtain ⟨rfl, htl⟩ := hb
          refine ⟨body, htl, fun x hx => hall x (List.mem_cons_of_mem _ hx), ?_⟩
          simpa [List.count_cons, h46] using hcount
    · simp only [Bool.not_eq_true] at hd
      by_cases hdot : decimals = false ∧ c = 46
      · -- the first `.`: the loop goes on with the flag set
        obtain ⟨hdec, rfl⟩ := hdot
        subst hdec
        have hloop : (str_to_double_loop (46 :: tl) false val place).1
            = (str_to_double_loop tl true val place).1 := by
          simp [str_to_double_loop, hd]
        rw [hloop, ih]
        constructor
        · rintro ⟨body, hline, hall, hcount⟩
          refine ⟨46 :: body, ?_, ?_, ?_⟩
          · rcases hline with h | h
            · exact Or.inl (by rw [h])
            · exact Or.inr (by rw [h]; rfl)
          · intro x hx
            rcases List.mem_cons.1 hx with h | h
            · exact Or.inr h
            · exact hall x h
          · simp at hcount
            simp [List.count_cons, hcount]
        · rintro ⟨body, hline, hall, hcount⟩
          cases body with
          | nil =>
            rcases hline with h | h
            · simp at h
            · simp at h
          | cons b body =>
            have hb : 46 = b ∧ (tl = body ∨ tl = body ++ [10]) := by
              rcases hline with h | h
              · simp at h; exact ⟨h.1, Or.inl h.2⟩
              · simp at h; exact ⟨h.1, Or.inr h.2⟩
            obtain ⟨rfl, htl⟩ := hb
            refine ⟨body, htl, fun x hx => hall x (List.mem_cons_of_mem _ hx), ?_⟩
            simp [List.count_cons] at hcount
            simp [hcount]
      · -- any other byte: the loop stops here
        have hstop : (str_to_double_loop (c :: tl) decimals val place).1 = c :: tl := by
          cases decimals
          · have h46 : (c == 46) = false := by
              simpa using fun e : c = 46 => hdot ⟨rfl, e⟩
            simp [str_to_double_loop, hd, h46]
          · simp [str_to_double_loop, hd]
        rw [hstop]
        constructor
        · intro h
          have h10 : c = 10 ∧ tl = [] := by simpa using h
          exact ⟨[], Or.inr (by simp [h10.1, h10.2]), by simp, by simp⟩
        · rintro ⟨body, hline, hall, hcount⟩
          cases body with
          | nil =>
            rcases hline with h | h
            · simp at h
            · exact Or.inr (by simpa using h)
          | cons b body =>
            have hb : c = b := by
              rcases hline with h | h
              · simp at h; exact h.1
              · simp at h; exact h.1
            subst hb
            rcases hall c (List.mem_cons_self _ _) with h | h
            · rw [hd] at h; exact absurd h (by decide)
            · subst h
              have hdec : decimals = true := by
                cases decimals
                · exact absurd ⟨rfl, rfl⟩ hdot
                · rfl
              subst hdec
              simp [List.count_cons] at hcount

theorem str_to_double_status (line : List Nat) :
    (str_to_double line).2 = 0 ∨ (str_to_double line).2 = -1 := by
  unfold str_to_double
  split
  · exact Or.inr rfl
  · simp only
    split <;> simp

theorem str_to_double_accepts_iff (line : List Nat) :
    (str_to_double line).2 = 0 ↔ decimal_line line ∧ line ≠ [10] := by
  cases line with
  | nil =>
    simp only [str_to_double, str_to_double_loop, ne_eq, List.nil_eq, reduceCtorEq,
      not_false_eq_true, and_true, true_iff]
    exact ⟨[], Or.inl rfl, by simp, by simp⟩
  | cons c tl =>
    by_cases h10 : c = 10
    · subst h10
      have hst : (str_to_double (10 :: tl)).2 = -1 := by simp [str_to_double]
      rw [hst]
      constructor
      · intro h; exact absurd h (by decide)
      · rintro ⟨⟨body, hline, hall, -⟩, hne⟩
        exfalso
        cases body with
        | nil =>
          rcases hline with h | h
          · simp at h
          · exact hne (by simpa using h)
        | cons b body =>
          have hb : 10 = b := by
            rcases hline with h | h
            · simp at h; exact h.1
            · simp at h; exact h.1
          subst hb
          rcases hall 10 (List.mem_cons_self _ _) with h | h
          · simp [isdigit] at h
          · simp at h
    · have hne : c :: tl ≠ [10] := by
        intro h
        simp at h
        exact h10 h.1
      have hstop := str_to_double_loop_stop (c :: tl) false (Double.fin 0) (Double.fin 1)
      simp only [Bool.false_eq_true, if_false] at hstop
      have hrhs : (decimal_line (c :: tl) ∧ c :: tl ≠ [10]) ↔ decimal_line (c :: tl) :=
        ⟨fun h => h.1, fun h => ⟨h, hne⟩⟩
      rw [hrhs]
      unfold decimal_line
      rw [← hstop]
      unfold str_to_double
      split
      · rename_i heq
        simp at heq
        exact absurd heq.1 h10
      · generalize str_to_double_loop (c :: tl) false (Double.fin 0) (Double.fin 1) = p
        obtain ⟨out, val⟩ := p
        cases out with
        | nil => simp
        | cons o rest =>
          by_cases ho : o = 10
          · subst ho
            cases rest with
            | nil => simp
            | cons r rest => simp
          · have hkeep : (match o :: rest with
                | 10 :: rest => rest
                | _ => o :: rest) = o :: rest := by
              split
              · rename_i heq
                simp at heq
                exact absurd heq.1 ho
              · rfl
            simp only [hkeep]
            simp [ho]

/-- C17, the counterexample. The line that is a newline alone consists of no digit followed
by a newline, yet `str_to_double` rejects it with status -1. -/
theorem bare_newline_is_rejected :
    decimal_line [10] ∧ (str_to_double [10]).2 = -1 :=
  ⟨⟨[], Or.inr rfl, by simp, by simp⟩, rfl⟩

/-- C17, as amended. `str_to_double` reports status 0 if and only if the line is not the
bare newline and consists of digits and at most one `.`, followed by an optional newline
and nothing else; any other line gets status -1. -/
theorem str_to_double_accepts_decimal_lines (line : List Nat) :
    ((str_to_double line).2 = 0 ↔ decimal_line line ∧ line ≠ [10]) ∧
    ((str_to_double line).2 ≠ 0 → (str_to_double line).2 = -1) := by
  refine ⟨str_to_double_accepts_iff line, fun h => ?_⟩
  rcases str_to_double_status line with h0 | h1
  · exact absurd h0 h
  · exact h1

namespace Double

theorem add_natCast (a b : Nat) (h : a + b ≤ 2 ^ 53) :
    add (fin a) (fin b) = fin ((a + b : Nat) : ℚ) := by
  have hr := round_natCast (a + b) h
  simp only [add]
  rw [← hr]
  push_cast
  rfl

theorem mul_natCast (a b : Nat) (h : a * b ≤ 2 ^ 53) :
    mul (fin a) (fin b) = fin ((a * b : Nat) : ℚ) := by
  have hr := round_natCast (a * b) h
  have hcast : (a : ℚ) * (b : ℚ) = ((a * b : Nat) : ℚ) := by push_cast; rfl
  have ha : ¬ ((a : ℚ) < 0) := not_lt.2 (by positivity)
  have hb : ¬ ((b : ℚ) < 0) := not_lt.2 (by positivity)
  by_cases h0 : a * b = 0
  · have hq : (a : ℚ) * (b : ℚ) = 0 := by rw [hcast, h0]; rfl
    simp only [mul, hq, if_true, ha, hb, decide_False, Bool.xor_false, zero]
    rw [h0]
    simp
  · have hq : ¬ ((a : ℚ) * (b : ℚ) = 0) := by
      rw [hcast]
      exact_mod_cast h0
    simp only [mul, hq, if_false]
    rw [hcast, hr]

theorem eq_one_one : eq (fin 1) (fin 1) = true := by
  simp [eq, le]

end Double

theorem decimal_step_le (digits : List Nat) :
    ∀ a : Nat, a ≤ digits.foldl (fun n c => 10 * n + (c - 48)) a := by
  induction digits with
  | nil => intro a; exact Nat.le_refl a
  | cons c tl ih =>
    intro a
    exact Nat.le_trans (by omega) (ih (10 * a + (c - 48)))

theorem str_to_double_loop_digits (digits : List Nat)
    (hdigits : ∀ c ∈ digits, isdigit c = true) (rest : List Nat) :
    ∀ a : Nat, digits.foldl (fun n c => 10 * n + (c - 48)) a ≤ 2 ^ 53 →
      str_to_double_loop (digits ++ rest) false (Double.fin a) (Double.fin 1)
        = str_to_double_loop rest false
            (Double.fin ((digits.foldl (fun n c => 10 * n + (c - 48)) a : Nat) : ℚ))
            (Double.fin 1) := by
  induction digits with
  | nil => intro a _; rfl
  | cons c tl ih =>
    intro a hsmall
    have hd : isdigit c = true := hdigits c (List.mem_cons_self _ _)
    have hc : 48 ≤ c ∧ c ≤ 57 := (isdigit_iff c).1 hd
    have h46 : ¬ c = 46 := by omega
    have hstep : 10 * a + (c - 48) ≤ 2 ^ 53 :=
      Nat.le_trans (decimal_step_le tl (10 * a + (c - 48))) hsmall
    have hmul : Double.mul (Double.fin a) (Double.fin 10) = Double.fin ((a * 10 : Nat) : ℚ) := by
      have := Double.mul_natCast a 10 (by omega)
      simpa using this
    have hdigit : Double.mul (Double.ofInt ((c : Int) - 48)) (Double.fin 1)
        = Double.fin ((c - 48 : Nat) : ℚ) := by
      have hcast : (((c : Int) - 48 : Int) : ℚ) = ((c - 48 : Nat) : ℚ) := by
        have : ((c - 48 : Nat) : Int) = (c : Int) - 48 := by omega
        rw [← this]
        simp
      have := Double.mul_natCast (c - 48) 1 (by omega)
      simp only [Double.ofInt, hcast]
      simpa using this
    have hadd : Double.add (Double.fin ((a * 10 : Nat) : ℚ)) (Double.fin ((c - 48 : Nat) : ℚ))
        = Double.fin ((10 * a + (c - 48) : Nat) : ℚ) := by
      have := Double.add_natCast (a * 10) (c - 48) (by omega)
      rw [this]
      congr 2
      omega
    have ih' := ih (fun x hx => hdigits x (List.mem_cons_of_mem _ hx)) (10 * a + (c - 48))
      hsmall
    have hmul' : Double.mul (Double.fin a) (Double.fin 10) = Double.fin ((a : ℚ) * 10) := by
      rw [hmul]; push_cast; rfl
    have hadd' : Double.add (Double.fin ((a : ℚ) * 10)) (Double.fin ((c - 48 : Nat) : ℚ))
        = Double.fin ((10 * a + (c - 48) : Nat) : ℚ) := by
      rw [← hadd]; push_cast; rfl
    simp only [List.cons_append, List.foldl_cons]
    rw [← ih']
    simp only [str_to_double_loop, hd, Bool.true_or, if_true, beq_iff_eq, h46, if_false,
      Bool.false_eq_true, Double.eq_one_one, hmul', hdigit, hadd']

/-- C18, the counterexample. The line `0.1` is accepted, and the number returned is the
double nearest to one tenth, 3602879701896397 / 2^55, not the decimal value 1/10. -/
theorem one_tenth_is_not_exact :
    str_to_double (source_text "0.1\n")
      = (Double.fin (3602879701896397 / 36028797018963968), 0) ∧
    (str_to_double (source_text "0.1\n")).1 ≠ Double.fin (1 / 10) := by
  decide!

/-- C18, as amended. For a line of digits `d1 ... dk` (at least one, no `.`), with or
without a newline after them, whose decimal value is at most 2^53, `str_to_double` reports
status 0 and returns exactly that value; the line `3.5` yields the number 3.5. -/
theorem str_to_double_exact_on_integers (digits line : List Nat)
    (hdigits : ∀ c ∈ digits, isdigit c = true) (hne : digits ≠ [])
    (hline : line = digits ∨ line = digits ++ [10])
    (hsmall : decimal_value digits ≤ 2 ^ 53) :
    str_to_double line = (Double.fin ((decimal_value digits : Nat) : ℚ), 0) ∧
    str_to_double (source_text "3.5\n") = (Double.fin (7 / 2), 0) := by
  refine ⟨?_, by decide!⟩
  cases digits with
  | nil => exact absurd rfl hne
  | cons d tl =>
    have hd : isdigit d = true := hdigits d (List.mem_cons_self _ _)
    have hc : 48 ≤ d ∧ d ≤ 57 := (isdigit_iff d).1 hd
    have h10 : ¬ d = 10 := by omega
    have hloop := fun rest => str_to_double_loop_digits (d :: tl) hdigits rest 0 hsmall
    simp only [Nat.cast_zero, List.cons_append] at hloop
    have hmain : ∀ rest : List Nat, rest = [] ∨ rest = [10] →
        str_to_double (d :: (tl ++ rest))
          = (Double.fin ((decimal_value (d :: tl) : Nat) : ℚ), 0) := by
      intro rest hrest
      unfold str_to_double
      split
      · rename_i heq
        simp at heq
        exact absurd heq.1 h10
      · rw [hloop rest]
        rcases hrest with rfl | rfl <;> simp [str_to_double_loop, isdigit, decimal_value]
    rcases hline with h | h
    · subst h
      have := hmain [] (Or.inl rfl)
      simpa using this
    · subst h
      exact hmain [10] (Or.inr rfl)

/-! ## The conditions of `if` and `while` that are no variable or hold one -/

/-- On a stack `S ++ [t, e, c]` with plain payloads whose condition `c` is a variable,
`OP_IF` leaves `S ++ [t]` whatever the variable holds: the condition is tested as it is. -/
theorem if_ignores_what_a_variable_holds (fuel : Nat) (chunk : Chunk) (ip : Nat) (vm : VM)
    (S : List Value) (t e : Value) (r : Nat) (n : ObjString) (held_value : Value)
    (hstack : vm.slots = S ++ [t, e, OBJ_VARIABLE r n held_value])
    (ht : IS_VARIABLE t = false ∧ IS_PROCEDURE t = false ∧ IS_OPERATION t = false)
    (he : IS_VARIABLE e = false ∧ IS_PROCEDURE e = false ∧ IS_OPERATION e = false)
    (hcap : vm.stack.length ≤ vm.STACK_MAX)
    (hcode : chunk.code[ip]? = some OP_IF.toByte) :
    ∃ vm', step fuel chunk ip vm = .ok (none, ip + 1, vm') ∧ vm'.slots = S ++ [t] := by
  have hs : vm.stack = OBJ_VARIABLE r n held_value :: e :: t :: S.reverse := by
    have := stack_of_slots vm _ hstack
    simpa using this
  have h := if_operands_plain (run_function fuel) (run_operation fuel) vm
    (OBJ_VARIABLE r n held_value) e t S.reverse hs ht he hcap
  refine ⟨{ vm with stack := t :: S.reverse }, ?_, by simp [VM.slots]⟩
  simp only [is_falsey, Bool.false_eq_true, if_false] at h
  simp [step, dispatch, finish, READ_BYTE, hcode, Op_Code.toByte, Op_Code.ofByte, h, bind,
    Except.bind, pure, Except.pure]

/-- With any value that is no variable on top, `OP_WHILE` has no defined result: the code
goes on to `AS_VARIABLE(while_body_var)->name` after `runtime_error`. -/
theorem while_operands_not_variable (fuel : Nat) (vm : VM) (top : Value) (rest : List Value)
    (hstack : vm.stack = top :: rest) (htop : IS_VARIABLE top = false) :
    while_operands fuel vm = .error Fault.bad_cast := by
  cases top <;> simp [IS_VARIABLE] at htop <;>
    simp [while_operands, peek, hstack, bind, Except.bind, throw, throwThe,
      MonadExceptOf.throw]

/-- With a variable on top, `OP_WHILE` returns the runtime-error result when the value read
for the name of the variable or the one read for `while_condition` is no procedure. -/
theorem while_operands_not_procedures (fuel : Nat) (vm : VM) (r : Nat) (name key : ObjString)
    (held_value : Value) (rest : List Value)
    (hstack : vm.stack = OBJ_VARIABLE r name held_value :: rest)
    (hkey : copy_string (cstring "while_condition") 15 false vm = .ok (key, vm))
    (h : IS_PROCEDURE (lookup_global name vm) = false ∨
      IS_PROCEDURE (lookup_global key vm) = false) :
    while_operands fuel vm = .ok (INTERPRET_RUNTIME_ERROR, runtime_error vm) := by
  unfold while_operands
  simp only [peek, hstack, List.getElem?_cons_zero, bind, Except.bind, hkey]
  rcases h with h | h
  · cases hb : lookup_global name vm <;> simp [hb, IS_PROCEDURE] at h <;>
      cases hc : lookup_global key vm <;> simp [fail, pure, Except.pure]
  · cases hc : lookup_global key vm <;> simp [hc, IS_PROCEDURE] at h <;>
      simp [fail, pure, Except.pure]

/-! ## The scan fallback -/

theorem read_line_newline (s rest : List Nat) (hs : ∀ c ∈ s, c ≠ 10) :
    ∀ room : Nat, s.length < room → read_line room (s ++ 10 :: rest) = (s ++ [10], rest) := by
  induction s with
  | nil =>
    intro room hroom
    obtain ⟨k, rfl⟩ : ∃ k, room = k + 1 := ⟨room - 1, by simp at hroom; omega⟩
    simp [read_line]
  | cons c tl ih =>
    intro room hroom
    obtain ⟨k, rfl⟩ : ∃ k, room = k + 1 := ⟨room - 1, by simp at hroom; omega⟩
    have hc : c ≠ 10 := hs c (List.mem_cons_self _ _)
    have htl := ih (fun x hx => hs x (List.mem_cons_of_mem _ hx)) k
      (by simp at hroom; omega)
    simp [read_line, hc, htl]

theorem strlen_of_no_nul (s : List Nat) (hs : ∀ c ∈ s, c ≠ 0) : strlen s = s.length := by
  unfold strlen
  rw [List.takeWhile_eq_self_iff.2]
  intro c hc
  simpa using hs c hc

theorem table_find_string_length (t : Table) (chars : List Nat) (length hash : Nat)
    (k : ObjString) (h : table_find_string t chars length hash = some k) :
    k.length = length := by
  induction t with
  | nil => simp [table_find_string] at h
  | cons entry rest ih =>
    obtain ⟨k2, v2⟩ := entry
    unfold table_find_string at h
    split at h
    · rename_i hfound
      simp only [Option.some.injEq] at h
      subst h
      exact hfound.1
    · exact ih h

theorem take_string_length (chars : List Nat) (length : Nat) (vm : VM)
    (hcap : vm.stack.length < vm.STACK_MAX) :
    ∃ str vm', take_string chars length vm = .ok (str, vm') ∧ str.length = length ∧
      vm'.stack = vm.stack ∧ vm'.STACK_MAX = vm.STACK_MAX ∧ vm'.stdin = vm.stdin := by
  cases hfind : table_find_string vm.strings chars length (hash_string chars length) with
  | some interned =>
    refine ⟨interned, vm, ?_, table_find_string_length _ _ _ _ _ hfind, rfl, rfl, rfl⟩
    simp only [take_string, hfind, pure, Except.pure]
  | none =>
    obtain ⟨SM, FM, frames, fc, stack, globals, strings, ou, objects, ops, sin, sout, sv, sc⟩ :=
      vm
    simp only at hcap hfind
    refine ⟨⟨objects, length, format sc chars, hash_string chars length⟩,
      ⟨SM, FM, frames, fc, stack, globals,
        table_set strings ⟨objects, length, format sc chars, hash_string chars length⟩ NIL,
        ou, objects + 1, ops, sin, sout, sv, sc⟩,
      ?_, rfl, rfl, rfl, rfl⟩
    simp [take_string, hfind, allocate_string, push, hcap, pop, bind, Except.bind, pure,
      Except.pure]

/-- For every input line `s` and a newline that `str_to_double` rejects, scan pushes a
string object whose length is one more than the number of bytes of `s`. -/
theorem scan_line_string_is_one_byte_longer (vm : VM) (s rest : List Nat)
    (hs : ∀ c ∈ s, c ≠ 10 ∧ c ≠ 0) (hlen : s.length < 1023)
    (hin : vm.stdin = s ++ 10 :: rest) (hrej : (str_to_double (s ++ [10])).2 = -1)
    (hcap : vm.stack.length < vm.STACK_MAX) :
    ∃ str vm', scan_line vm = .ok (INTERPRET_OK, vm') ∧
      vm'.stack = OBJ_STRING str :: vm.stack ∧ str.length = s.length + 1 := by
  have hread : fgets 1024 vm.stdin = some (s ++ [10], rest) := by
    rw [hin]
    cases s with
    | nil => simp [fgets, read_line]
    | cons c tl =>
      simp only [fgets, List.cons_append]
      have := read_line_newline (c :: tl) rest (fun x hx => (hs x hx).1) 1023 hlen
      simpa using this
  have hstrlen : strlen (s ++ [10]) = s.length + 1 := by
    rw [strlen_of_no_nul]
    · simp
    · intro c hc
      rcases List.mem_append.1 hc with h | h
      · exact (hs c h).2
      · simp at h; omega
  obtain ⟨str, vm1, htake, hlength, hstack, hmax, -⟩ :=
    take_string_length ((s ++ [10]).take (s.length + 1 - 1) ++ [0]) (s.length + 1)
      { vm with stdin := rest } hcap
  have hcap1 : vm1.stack.length < vm1.STACK_MAX := by
    rw [hstack, hmax]
    exact hcap
  refine ⟨str, { vm1 with stack := OBJ_STRING str :: vm1.stack }, ?_, ?_, hlength⟩
  · unfold scan_line
    simp only [hread]
    cases hsd : str_to_double (s ++ [10]) with
    | mk result status =>
      rw [hsd] at hrej
      simp only at hrej
      subst hrej
      simp only [hstrlen, if_true, Nat.succ_ne_zero, if_false, bind, Except.bind, htake,
        push, hcap1, pure, Except.pure]
  · simp [hstack]

/-! ## The theorems of `,`, `=`, `while` and `str_to_double` at concrete inputs -/

theorem apply_needs_a_bound_procedure_witness :
    (∃ vm', step 1 (code_only [19, 21]) 0 apply_number_VM
        = .ok (some INTERPRET_RUNTIME_ERROR, 1, vm') ∧
      table_get vm'.globals x_name = none) ∧
    ∃ popped, pop apply_body_VM = .ok (OBJ_VARIABLE 23 body_name body_procedure, popped) ∧
      popped.slots = [OBJ_CLOSURE 21] ∧
      step 1 (code_only [19, 21]) 0 apply_body_VM
        = finish 1 (run_function 1
            [NUMBER (Double.fin 3), NUMBER (Double.fin 2), NUMBER (Double.fin 1)] popped) := by
  have h1 := (apply_needs_a_bound_procedure 1 (code_only [19, 21]) 0 apply_number_VM
    [OBJ_CLOSURE 21] (OBJ_VARIABLE 22 x_name (NUMBER (Double.fin 5))) (by decide!)
    (by unfold table_keys_distinct; decide!) (by decide!)).1 22 x_name
    (NUMBER (Double.fin 5)) (NUMBER (Double.fin 5)) rfl (by decide!)
  have h2 := (apply_needs_a_bound_procedure 1 (code_only [19, 21]) 0 apply_body_VM
    [OBJ_CLOSURE 21] (OBJ_VARIABLE 23 body_name body_procedure) (by decide!)
    (by unfold table_keys_distinct; decide!) (by decide!)).1 23 body_name
    body_procedure body_procedure rfl (by decide!)
  obtain ⟨vm', h3, h4, -⟩ := h1.1 rfl
  obtain ⟨popped, h5, h6, h7, -⟩ := h2.2 22 body_name
    [NUMBER (Double.fin 3), NUMBER (Double.fin 2), NUMBER (Double.fin 1)] rfl
  exact ⟨⟨vm', h3, h4⟩, popped, h5, h6, h7⟩

theorem assignment_needs_a_variable_witness :
    (∃ vm', step 0 assign_chunk 0 assign_VM = .ok (none, 1, vm') ∧
      vm'.slots = [OBJ_CLOSURE 21]) ∧
    step 0 assign_chunk 0 string_number_VM
      = .ok (some INTERPRET_RUNTIME_ERROR, 1, runtime_error string_number_VM) :=
  ⟨(assignment_needs_a_variable 0 assign_chunk 0 assign_VM
      [OBJ_CLOSURE 21, NUMBER (Double.fin 5)] (OBJ_VARIABLE 22 x_name NIL) (by decide!)
      (by decide!)).2.2.1 rfl [OBJ_CLOSURE 21] (NUMBER (Double.fin 5)) rfl,
    ((assignment_needs_a_variable 0 assign_chunk 0 string_number_VM
      [OBJ_CLOSURE 21, OBJ_STRING a_string] (NUMBER (Double.fin 1)) (by decide!)
      (by decide!)).2.1 rfl).1⟩

theorem while_replays_body_per_truthy_condition_witness :
    step 5 (code_only [13, 21]) 0 loop_VM = .ok (none, 1, loop_end) ∧
    loop_end.slots = [OBJ_CLOSURE 23] ∧
    table_get loop_VM.globals (demo_name loop_names 0) = some (NUMBER (Double.fin 1)) ∧
    table_get loop_end.globals (demo_name loop_names 0) = some (NUMBER (Double.fin 0)) :=
  ⟨(while_replays_body_per_truthy_condition 5 (code_only [13, 21]) 0 loop_VM
      [OBJ_CLOSURE 23] 27 (demo_name loop_names 1) (demo_name loop_names 2)
      (OBJ_PROCEDURE 26 (demo_name loop_names 1) loop_body) 26 30 (demo_name loop_names 1)
      (demo_name loop_names 2) loop_body loop_condition 1 loop_end (by decide!) (by decide!)
      (by decide!) (by decide!) (by decide!)
      (while_protocol.again 0 loop_start loop_checked loop_next loop_end (BOOL true)
        (by decide!) (by decide!) (by decide!) (by decide!)
        (while_protocol.done loop_next loop_rechecked (BOOL false) (by decide!) (by decide!)
          (by decide!)))
      (by decide)).1,
    by decide!, by decide!, by decide!⟩

theorem str_to_double_exact_on_integers_witness :
    str_to_double (source_text "42\n") = (Double.fin ((decimal_value [52, 50] : Nat) : ℚ), 0) ∧
    decimal_value [52, 50] = 42 :=
  ⟨(str_to_double_exact_on_integers [52, 50] (source_text "42\n") (by decide) (by decide)
      (Or.inr (by decide!)) (by decide!)).1, by decide⟩

/-! ## `%` with the divisor 0 -/

theorem Double.sub_zero_of_positive (a : Double) (ha : Double.gt a (Double.fin 0) = true) :
    Double.sub a (Double.fin 0) = a ∧ Double.ge a (Double.fin 0) = true := by
  cases a with
  | nan => simp [Double.gt, Double.lt] at ha
  | inf b =>
    cases b
    · exact ⟨by simp [Double.sub, Double.neg, Double.add], by simp [Double.ge, Double.le]⟩
    · simp [Double.gt, Double.lt, Double.le] at ha
  | nzero => simp [Double.gt, Double.lt, Double.le] at ha
  | fin q =>
    have hq : (0 : ℚ) < q := by
      simpa [Double.gt, Double.lt, Double.le] using ha
    exact ⟨by simp [Double.sub, Double.neg, Double.add],
      by simpa [Double.ge, Double.le] using le_of_lt hq⟩

theorem modulo_loop_zero_divisor (a : Double) (ha : Double.gt a (Double.fin 0) = true)
    (fuel : Nat) : modulo_loop fuel a (Double.fin 0) = none := by
  obtain ⟨hsub, hge⟩ := Double.sub_zero_of_positive a ha
  induction fuel with
  | zero => rfl
  | succ fuel ih => simp only [modulo_loop, hge, if_true, hsub, ih]

/-- C21. With the numbers `a > 0` and `b = 0` on top of the stack, the loop of `%` never
ends: after any number of turns the value is still `a` and the condition `a >= b` still
holds, so for every budget `modulo_loop` is still running and neither `OP_MOD` nor the
`%` operation returns a result. -/
theorem modulo_by_zero_never_terminates (a : Double) (vm : VM) (S : List Value)
    (ha : Double.gt a (Double.fin 0) = true)
    (hstack : vm.slots = S ++ [NUMBER a, NUMBER (Double.fin 0)])
    (hcap : vm.stack.length ≤ vm.STACK_MAX) :
    (∀ n : Nat, (fun x => Double.sub x (Double.fin 0))^[n] a = a ∧
      Double.ge ((fun x => Double.sub x (Double.fin 0))^[n] a) (Double.fin 0) = true) ∧
    (∀ fuel : Nat, modulo_loop fuel a (Double.fin 0) = none) ∧
    (∀ (fuel : Nat) (chunk : Chunk) (ip : Nat), chunk.code[ip]? = some OP_MOD.toByte →
      step fuel chunk ip vm = .error Fault.timeout) ∧
    (∀ (fuel : Nat) (type : ObjString), vm.is_operation type Operators.mod →
      run_operation (fuel + 1) type vm = .error Fault.timeout) := by
  obtain ⟨hsub, hge⟩ := Double.sub_zero_of_positive a ha
  have hs : vm.stack = NUMBER (Double.fin 0) :: NUMBER a :: S.reverse := by
    have := stack_of_slots vm _ hstack
    simpa using this
  have hmod : ∀ fuel : Nat, mod_operands fuel vm = .error Fault.timeout := by
    intro fuel
    rw [mod_operands_numbers fuel vm (NUMBER (Double.fin 0)) (NUMBER a) S.reverse a
      (Double.fin 0) hs hcap rfl rfl, modulo_loop_zero_divisor a ha]
  refine ⟨?_, modulo_loop_zero_divisor a ha, ?_, ?_⟩
  · intro n
    have hiter : (fun x => Double.sub x (Double.fin 0))^[n] a = a := by
      induction n with
      | zero => rfl
      | succ n ih => rw [Function.iterate_succ_apply, hsub, ih]
    exact ⟨hiter, by rw [hiter]; exact hge⟩
  · intro fuel chunk ip hcode
    rw [step_mod fuel chunk ip vm hcode, hmod]
    rfl
  · intro fuel type htype
    rw [run_operation_mod fuel type vm htype, hmod]

theorem modulo_by_zero_never_terminates_witness :
    (∀ fuel : Nat, modulo_loop fuel (Double.fin 7) (Double.fin 0) = none) ∧
    ∀ fuel : Nat, step fuel (code_only [6, 21]) 0
      (demo_VM [] [NUMBER (Double.fin 0), NUMBER (Double.fin 7), OBJ_CLOSURE 21] [])
        = .error Fault.timeout :=
  have h := modulo_by_zero_never_terminates (Double.fin 7)
    (demo_VM [] [NUMBER (Double.fin 0), NUMBER (Double.fin 7), OBJ_CLOSURE 21] [])
    [OBJ_CLOSURE 21] (by decide!) (by decide!) (by decide!)
  ⟨h.2.1, fun fuel => h.2.2.1 fuel (code_only [6, 21]) 0 (by decide)⟩

/-! ## The compiled comparison and negation opcodes -/

theorem binary_operands_numbers (op : Double → Double → Double) (vm : VM) (a b : Double)
    (rest : List Value) (hstack : vm.stack = NUMBER b :: NUMBER a :: rest)
    (hcap : vm.stack.length ≤ vm.STACK_MAX) :
    binary_operands op vm = .ok (INTERPRET_OK, { vm with stack := NUMBER (op a b) :: rest }) := by
  have hv := vars_to_vals_held vm (NUMBER b) (NUMBER a) rest hstack hcap
  obtain ⟨SM, FM, frames, fc, stack, globals, strings, ou, objects, ops, sin, sout, sv, sc⟩ := vm
  simp only at hstack hcap hv
  subst hstack
  simp only [List.length_cons] at hcap
  have h1 : rest.length < SM := by omega
  simp [binary_operands, BINARY_OP, hv, held, peek, pop, push, IS_NUMBER, h1, bind,
    Except.bind, pure, Except.pure]

/-- With the numbers `a` and `b` on top of the stack, `OP_LESS`, `OP_LESS_EQUAL` and
`OP_GREATER_EQUAL` leave the product `a * b`; `OP_GREATER` leaves 1 or 0 as `a > b`. -/
theorem compiled_comparisons_on_numbers (fuel : Nat) (chunk : Chunk) (ip : Nat) (vm : VM)
    (S : List Value) (a b : Double) (hstack : vm.slots = S ++ [NUMBER a, NUMBER b])
    (hcap : vm.stack.length ≤ vm.STACK_MAX) :
    (chunk.code[ip]? = some OP_LESS.toByte ∨ chunk.code[ip]? = some OP_LESS_EQUAL.toByte ∨
        chunk.code[ip]? = some OP_GREATER_EQUAL.toByte →
      step fuel chunk ip vm
        = .ok (none, ip + 1, { vm with stack := NUMBER (Double.mul a b) :: S.reverse })) ∧
    (chunk.code[ip]? = some OP_GREATER.toByte →
      step fuel chunk ip vm = .ok (none, ip + 1,
        { vm with stack := NUMBER (Double.ofBool (Double.gt a b)) :: S.reverse })) := by
  have hs : vm.stack = NUMBER b :: NUMBER a :: S.reverse := by
    have := stack_of_slots vm _ hstack
    simpa using this
  have hmul := binary_operands_numbers Double.mul vm a b S.reverse hs hcap
  have hgt := binary_operands_numbers (fun a b => Double.ofBool (Double.gt a b)) vm a b
    S.reverse hs hcap
  refine ⟨?_, ?_⟩
  · rintro (hcode | hcode | hcode) <;>
      simp [step, dispatch, finish, READ_BYTE, hcode, Op_Code.toByte, Op_Code.ofByte, hmul,
        bind, Except.bind, pure, Except.pure]
  · intro hcode
    simp [step, dispatch, finish, READ_BYTE, hcode, Op_Code.toByte, Op_Code.ofByte, hgt,
      bind, Except.bind, pure, Except.pure]

/-- C26, the code at the failing inputs. The sources `2 1 <`, `2 1 <=` and `1 2 >=` leave
the number 2, a truthy value, although none of `2 < 1`, `2 <= 1`, `1 >= 2` holds, and
`0 1 <` leaves the falsey 0 although `0 < 1`: `OP_LESS`, `OP_LESS_EQUAL` and
`OP_GREATER_EQUAL` multiply. The operation `(<)`, replayed from a procedure on the same
operands `2 1`, leaves 0. -/
theorem compiled_less_multiplies :
    (interpret 100 (source_text "2 1 <") booted_VM).result = some INTERPRET_OK ∧
    (interpret 100 (source_text "2 1 <") booted_VM).machine.slots
      = [OBJ_CLOSURE 21, NUMBER (Double.fin 2)] ∧
    (interpret 100 (source_text "2 1 <=") booted_VM).machine.slots
      = [OBJ_CLOSURE 21, NUMBER (Double.fin 2)] ∧
    (interpret 100 (source_text "1 2 >=") booted_VM).machine.slots
      = [OBJ_CLOSURE 21, NUMBER (Double.fin 2)] ∧
    (interpret 100 (source_text "0 1 <") booted_VM).machine.slots
      = [OBJ_CLOSURE 21, NUMBER (Double.fin 0)] ∧
    (interpret 100 (source_text ": 2 1 (<) => f f ,") booted_VM).result
      = some INTERPRET_OK ∧
    (interpret 100 (source_text ": 2 1 (<) => f f ,") booted_VM).machine.slots
      = [OBJ_CLOSURE 22, NUMBER (Double.fin 0)] := by
  decide!

/-- With a variable on top of the stack, `OP_NOT` replaces it by the value it holds and
does nothing else. -/
theorem not_operand_on_variable (vm : VM) (r : Nat) (name : ObjString) (held_value : Value)
    (rest : List Value) (hstack : vm.stack = OBJ_VARIABLE r name held_value :: rest)
    (hcap : vm.stack.length ≤ vm.STACK_MAX) :
    not_operand vm = .ok { vm with stack := held_value :: rest } := by
  obtain ⟨SM, FM, frames, fc, stack, globals, strings, ou, objects, ops, sin, sout, sv, sc⟩ := vm
  simp only at hstack hcap
  subst hstack
  simp only [List.length_cons] at hcap
  have h1 : rest.length < SM := by omega
  simp [not_operand, peek, pop, push, h1, bind, Except.bind]

/-- C27, the code at the failing inputs. With `x` bound to 1, the source `x !` leaves the
number 1 (not `false`) and `x ?` leaves `false` (not `true`): on a variable `OP_NOT` only
replaces it by its value. The operations `(!)` and `(?)`, replayed from a procedure on the
same variable, leave `false` and `true`. -/
theorem compiled_not_stops_at_a_variable :
    (interpret 100 (source_text "1 x = x !") booted_VM).result = some INTERPRET_OK ∧
    (interpret 100 (source_text "1 x = x !") booted_VM).machine.slots
      = [OBJ_CLOSURE 22, NUMBER (Double.fin 1)] ∧
    (interpret 100 (source_text "1 x = x ?") booted_VM).result = some INTERPRET_OK ∧
    (interpret 100 (source_text "1 x = x ?") booted_VM).machine.slots
      = [OBJ_CLOSURE 22, BOOL false] ∧
    (interpret 100 (source_text ": x (!) => f 1 x = f ,") booted_VM).machine.slots
      = [OBJ_CLOSURE 23, BOOL false] ∧
    (interpret 100 (source_text ": x (?) => f 1 x = f ,") booted_VM).machine.slots
      = [OBJ_CLOSURE 23, BOOL true] := by
  decide!

/-! ## The content and the length of a string object -/

theorem format_loop_plain (stale : Nat) (chars : List Nat) (h : ∀ c ∈ chars, c ≠ 92) :
    format_loop stale chars = chars := by
  induction chars with
  | nil => rfl
  | cons c tl ih =>
    have hc : c ≠ 92 := h c (List.mem_cons_self _ _)
    have htl := ih (fun x hx => h x (List.mem_cons_of_mem _ hx))
    cases tl with
    | nil => rfl
    | cons d rest => simp [format_loop, hc, htl]

/-- A string without backslash and without NUL is stored as it is. -/
theorem format_plain (stale : Nat) (chars : List Nat) (h : ∀ c ∈ chars, c ≠ 92 ∧ c ≠ 0) :
    format stale (chars ++ [0]) = chars ++ [0] := by
  have htake : (chars ++ [0]).takeWhile (fun c => c != 0) = chars := by
    rw [List.takeWhile_append_of_pos]
    · simp
    · intro c hc
      simpa using (h c hc).2
  simp [format, htake, format_loop_plain stale chars (fun c hc => (h c hc).1)]

/-- C29, the code at the failing inputs. In the literal `'a\qb'` the backslash is followed
by none of the five characters: `format` writes nothing in its place, so the stored content
has the byte `malloc` left there (`stale`, indeterminate) instead of the backslash; the
same holds for the backslash of `\'`, the escape the scanner accepts for a quote. On the
booted machine, whose stale byte is 0, the literal `'a\qb'` is an object of length 4 whose
content ends after `a`. -/
theorem lone_backslash_becomes_stale_byte (stale : Nat) :
    format stale (cstring "a\\qb") = [97, stale, 113, 98, 0] ∧
    format stale (cstring "it\\'s") = [105, 116, stale, 39, 115, 0] ∧
    booted_VM.stale_char = 0 ∧
    (interpret 100 (source_text "'a\\qb'") booted_VM).machine.slots
      = [OBJ_CLOSURE 22,
          OBJ_STRING { ref := 21, length := 4, chars := [97, 0, 113, 98, 0],
                       hash := 1320443971 }] := by
  refine ⟨?_, ?_, by decide!, by decide!⟩
  · simp [format, format_loop, cstring]
  · simp [format, format_loop, cstring]

/-- C30, the code at the failing inputs. The literal `'\n'` (a backslash and an `n`
between quotes) is an object of length 2 whose content is one byte, a newline; the line
`hello` read by `^` is an object of length 6 whose content is five bytes. -/
theorem string_length_differs_from_content :
    (interpret 100 (source_text "'\\n'") booted_VM).machine.slots
      = [OBJ_CLOSURE 22,
          OBJ_STRING { ref := 21, length := 2, chars := [10, 0, 0], hash := 1661555183 }] ∧
    strlen [10, 0, 0] = 1 ∧
    (interpret 100 (source_text "^") { booted_VM with stdin := source_text "hello\n" }
        ).machine.slots
      = [OBJ_CLOSURE 21,
          OBJ_STRING { ref := 22, length := 6, chars := [104, 101, 108, 108, 111, 0],
                       hash := 43209009 }] ∧
    strlen [104, 101, 108, 108, 111, 0] = 5 := by
  decide!

/-! ## The capacity of the operand stack and of the frame array -/

/-- A `push` on a full stack has no defined result: `push` (vm.c 131-134) writes at
`vm.stack_top` without a test, here one slot past the array. -/
theorem push_on_full_stack (fuel : Nat) (chunk : Chunk) (ip k : Nat) (v : Value) (vm : VM)
    (hfull : vm.stack.length = vm.STACK_MAX)
    (hcode : chunk.code[ip]? = some OP_CONSTANT.toByte) (hindex : chunk.code[ip + 1]? = some k)
    (hconstant : chunk.constants[k]? = some v) :
    push v vm = .error Fault.stack_overflow ∧
    step fuel chunk ip vm = .error Fault.stack_overflow := by
  have hpush : push v vm = .error Fault.stack_overflow := by
    simp [push, hfull]
  refine ⟨hpush, ?_⟩
  simp [step, dispatch, proceed, READ_BYTE, READ_CONSTANT, hcode, hindex, hconstant,
    Op_Code.toByte, Op_Code.ofByte, hpush, bind, Except.bind, pure, Except.pure]

/-- C22, the code at the failing input. The source `: 1 => body body : 1 while` pushes one
more value in every turn of its loop. On the booted machine, whose stack has 256 slots,
`interpret` does not return the runtime-error result: the push on the full stack writes
past the array, which C leaves undefined. -/
theorem unbounded_pushes_overrun_the_stack :
    booted_VM.STACK_MAX = 256 ∧
    (interpret 300 (source_text ": 1 => body body : 1 while") booted_VM).fault
      = some Fault.stack_overflow ∧
    (interpret 300 (source_text ": 1 => body body : 1 while") booted_VM).result = none := by
  decide!

/-- With all frames in use, `interpret` of a source that compiles has no defined result:
`call` reports the overflow and empties the frame stack, its result is not tested, and
`run` reads `vm.frames[vm.frame_count - 1]` with `vm.frame_count` 0. -/
theorem interpret_with_all_frames_in_use (function : ObjFunction) (fuel : Nat) (vm : VM)
    (hfull : vm.frame_count = vm.FRAMES_MAX) (harity : function.arity = 0)
    (hcap : vm.stack.length < vm.STACK_MAX) :
    interpret_compiled (some function) fuel vm = .error Fault.bad_read := by
  obtain ⟨SM, FM, frames, fc, stack, globals, strings, ou, objects, ops, sin, sout, sv, sc⟩ := vm
  simp only at hfull hcap
  subst hfull
  simp [interpret_compiled, load, push, pop, new_closure, call, harity, hcap, runtime_error,
    reset_stack, run, bind, Except.bind, pure, Except.pure, throw, throwThe,
    MonadExceptOf.throw]

/-- C23, the code at the failing inputs. `interpret` of the empty source on the booted
machine returns Ok with one frame (and the script closure) left: `OP_RETURN` returns
without touching `vm.frame_count`. Each further successful call adds a frame; after 64 of
them all `FRAMES_MAX` = 64 frames are in use, and the 65th call has no defined result. -/
theorem return_leaves_the_frame :
    (interpret 10 (source_text "") booted_VM).result = some INTERPRET_OK ∧
    (interpret 10 (source_text "") booted_VM).machine.frame_count = 1 ∧
    (interpret 10 (source_text "") booted_VM).machine.slots = [OBJ_CLOSURE 21] ∧
    booted_VM.FRAMES_MAX = 64 ∧
    (interpret_repeatedly 10 (source_text "") 64 booted_VM).result = some INTERPRET_OK ∧
    (interpret_repeatedly 10 (source_text "") 64 booted_VM).machine.frame_count = 64 ∧
    (interpret_repeatedly 10 (source_text "") 65 booted_VM).result = none ∧
    (interpret_repeatedly 10 (source_text "") 65 booted_VM).fault = some Fault.bad_read := by
  decide!

/-! ## An opcode and the operation of the same spelling -/

theorem run_operation_minus (fuel : Nat) (type : ObjString) (vm : VM)
    (h : vm.is_operation type Operators.minus) :
    run_operation (fuel + 1) type vm = binary_operands Double.sub vm := by
  obtain ⟨hnd, htype⟩ := h
  have e0 : ¬ vm.ops.minus.ref = vm.ops.plus.ref :=
    vm.ops.ref_ne_of_nodup hnd (i := 1) (j := 0) rfl rfl (by decide)
  simp only [run_operation, values_equal, beq_iff_eq, htype, e0, if_false, if_true]

theorem run_operation_star (fuel : Nat) (type : ObjString) (vm : VM)
    (h : vm.is_operation type Operators.star) :
    run_operation (fuel + 1) type vm = binary_operands Double.mul vm := by
  obtain ⟨hnd, htype⟩ := h
  have e0 : ¬ vm.ops.star.ref = vm.ops.plus.ref :=
    vm.ops.ref_ne_of_nodup hnd (i := 2) (j := 0) rfl rfl (by decide)
  have e1 : ¬ vm.ops.star.ref = vm.ops.minus.ref :=
    vm.ops.ref_ne_of_nodup hnd (i := 2) (j := 1) rfl rfl (by decide)
  simp only [run_operation, values_equal, beq_iff_eq, htype, e0, e1, if_false, if_true]

theorem run_operation_divide (fuel : Nat) (type : ObjString) (vm : VM)
    (h : vm.is_operation type Operators.divide) :
    run_operation (fuel + 1) type vm = binary_operands Double.div vm := by
  obtain ⟨hnd, htype⟩ := h
  have e0 : ¬ vm.ops.divide.ref = vm.ops.plus.ref :=
    vm.ops.ref_ne_of_nodup hnd (i := 3) (j := 0) rfl rfl (by decide)
  have e1 : ¬ vm.ops.divide.ref = vm.ops.minus.ref :=
    vm.ops.ref_ne_of_nodup hnd (i := 3) (j := 1) rfl rfl (by decide)
  have e2 : ¬ vm.ops.divide.ref = vm.ops.star.ref :=
    vm.ops.ref_ne_of_nodup hnd (i := 3) (j := 2) rfl rfl (by decide)
  simp only [run_operation, values_equal, beq_iff_eq, htype, e0, e1, e2, if_false, if_true]

theorem run_operation_equal (fuel : Nat) (type : ObjString) (vm : VM)
    (h : vm.is_operation type Operators.equal) :
    run_operation (fuel + 1) type vm = equal_operation vm := by
  obtain ⟨hnd, htype⟩ := h
  have e0 : ¬ vm.ops.equal.ref = vm.ops.plus.ref :=
    vm.ops.ref_ne_of_nodup hnd (i := 5) (j := 0) rfl rfl (by decide)
  have e1 : ¬ vm.ops.equal.ref = vm.ops.minus.ref :=
    vm.ops.ref_ne_of_nodup hnd (i := 5) (j := 1) rfl rfl (by decide)
  have e2 : ¬ vm.ops.equal.ref = vm.ops.star.ref :=
    vm.ops.ref_ne_of_nodup hnd (i := 5) (j := 2) rfl rfl (by decide)
  have e3 : ¬ vm.ops.equal.ref = vm.ops.divide.ref :=
    vm.ops.ref_ne_of_nodup hnd (i := 5) (j := 3) rfl rfl (by decide)
  have e4 : ¬ vm.ops.equal.ref = vm.ops.mod.ref :=
    vm.ops.ref_ne_of_nodup hnd (i := 5) (j := 4) rfl rfl (by decide)
  simp only [run_operation, values_equal, beq_iff_eq, htype, e0, e1, e2, e3, e4, if_false,
    if_true]

theorem run_operation_if (fuel : Nat) (type : ObjString) (vm : VM)
    (h : vm.is_operation type Operators._if) :
    run_operation (fuel + 1) type vm = propagate (if_operands (run_function fuel) (run_operation fuel) vm) := by
  obtain ⟨hnd, htype⟩ := h
  have e0 : ¬ vm.ops._if.ref = vm.ops.plus.ref :=
    vm.ops.ref_ne_of_nodup hnd (i := 12) (j := 0) rfl rfl (by decide)
  have e1 : ¬ vm.ops._if.ref = vm.ops.minus.ref :=
    vm.ops.ref_ne_of_nodup hnd (i := 12) (j := 1) rfl rfl (by decide)
  have e2 : ¬ vm.ops._if.ref = vm.ops.star.ref :=
    vm.ops.ref_ne_of_nodup hnd (i := 12) (j := 2) rfl rfl (by decide)
  have e3 : ¬ vm.ops._if.ref = vm.ops.divide.ref :=
    vm.ops.ref_ne_of_nodup hnd (i := 12) (j := 3) rfl rfl (by decide)
  have e4 : ¬ vm.ops._if.ref = vm.ops.mod.ref :=
    vm.ops.ref_ne_of_nodup hnd (i := 12) (j := 4) rfl rfl (by decide)
  have e5 : ¬ vm.ops._if.ref = vm.ops.equal.ref :=
    vm.ops.ref_ne_of_nodup hnd (i := 12) (j := 5) rfl rfl (by decide)
  have e6 : ¬ vm.ops._if.ref = vm.ops.greater.ref :=
    vm.ops.ref_ne_of_nodup hnd (i := 12) (j := 6) rfl rfl (by decide)
  have e7 : ¬ vm.ops._if.ref = vm.ops.less.ref :=
    vm.ops.ref_ne_of_nodup hnd (i := 12) (j := 7) rfl rfl (by decide)
  have e8 : ¬ vm.ops._if.ref = vm.ops.greater_equal.ref :=
    vm.ops.ref_ne_of_nodup hnd (i := 12) (j := 8) rfl rfl (by decide)
  have e9 : ¬ vm.ops._if.ref = vm.ops.less_equal.ref :=
    vm.ops.ref_ne_of_nodup hnd (i := 12) (j := 9) rfl rfl (by decide)
  have e10 : ¬ vm.ops._if.ref = vm.ops.not.ref :=
    vm.ops.ref_ne_of_nodup hnd (i := 12) (j := 10) rfl rfl (by decide)
  have e11 : ¬ vm.ops._if.ref = vm.ops.question.ref :=
    vm.ops.ref_ne_of_nodup hnd (i := 12) (j := 11) rfl rfl (by decide)
  simp only [run_operation, values_equal, beq_iff_eq, htype, e0, e1, e2, e3, e4, e5, e6, e7, e8,
    e9, e10, e11, if_false, if_true]
  rfl


theorem step_binary (fuel : Nat) (chunk : Chunk) (ip : Nat) (vm : VM) :
    (chunk.code[ip]? = some OP_SUBTRACT.toByte →
      step fuel chunk ip vm = finish (ip + 1) (binary_operands Double.sub vm)) ∧
    (chunk.code[ip]? = some OP_MULTIPLY.toByte →
      step fuel chunk ip vm = finish (ip + 1) (binary_operands Double.mul vm)) ∧
    (chunk.code[ip]? = some OP_DIVIDE.toByte →
      step fuel chunk ip vm = finish (ip + 1) (binary_operands Double.div vm)) ∧
    (chunk.code[ip]? = some OP_EQUAL.toByte →
      step fuel chunk ip vm = proceed (ip + 1) (equal_operands vm)) ∧
    (chunk.code[ip]? = some OP_IF.toByte →
      step fuel chunk ip vm
        = finish (ip + 1) (if_operands (run_function fuel) (run_operation fuel) vm)) := by
  refine ⟨?_, ?_, ?_, ?_, ?_⟩ <;> intro hcode <;>
    simp [step, dispatch, READ_BYTE, hcode, Op_Code.toByte, Op_Code.ofByte, bind,
      Except.bind, pure, Except.pure]

theorem outcome_finish_propagate (ip : Nat) (r : Res) :
    step_outcome (finish ip r) = (propagate r).outcome := by
  cases r with
  | error f => rfl
  | ok p =>
    obtain ⟨result, vm⟩ := p
    by_cases h : result = INTERPRET_RUNTIME_ERROR
    · simp [finish, propagate, h, step_outcome, Res.outcome, bind, Except.bind, pure,
        Except.pure]
    · simp [finish, propagate, h, step_outcome, Res.outcome, bind, Except.bind, pure,
        Except.pure]

theorem outcome_propagate (r : Res)
    (h : ∀ result vm, r = .ok (result, vm) →
      result = INTERPRET_OK ∨ result = INTERPRET_RUNTIME_ERROR) :
    (propagate r).outcome = r.outcome := by
  cases r with
  | error f => rfl
  | ok p =>
    obtain ⟨result, vm⟩ := p
    rcases h result vm rfl with h | h <;> subst h <;>
      simp [propagate, Res.outcome, bind, Except.bind, pure, Except.pure]

theorem add_operands_status (vm : VM) (result : InterpretResult) (vm' : VM)
    (h : add_operands vm = .ok (result, vm')) :
    result = INTERPRET_OK ∨ result = INTERPRET_RUNTIME_ERROR := by
  unfold add_operands at h
  simp only [bind, Except.bind, pure, Except.pure, fail] at h
  repeat' split at h
  all_goals first
    | (simp only [Except.ok.injEq, Prod.mk.injEq] at h; exact Or.inl h.1.symm)
    | (simp only [Except.ok.injEq, Prod.mk.injEq] at h; exact Or.inr h.1.symm)
    | simp at h

theorem binary_operands_status (op : Double → Double → Double) (vm : VM)
    (result : InterpretResult) (vm' : VM) (h : binary_operands op vm = .ok (result, vm')) :
    result = INTERPRET_OK ∨ result = INTERPRET_RUNTIME_ERROR := by
  unfold binary_operands BINARY_OP at h
  simp only [bind, Except.bind, pure, Except.pure, fail] at h
  repeat' split at h
  all_goals first
    | (simp only [Except.ok.injEq, Prod.mk.injEq] at h; exact Or.inl h.1.symm)
    | (simp only [Except.ok.injEq, Prod.mk.injEq] at h; exact Or.inr h.1.symm)
    | simp at h

theorem mod_operands_status (fuel : Nat) (vm : VM) (result : InterpretResult) (vm' : VM)
    (h : mod_operands fuel vm = .ok (result, vm')) :
    result = INTERPRET_OK ∨ result = INTERPRET_RUNTIME_ERROR := by
  unfold mod_operands at h
  simp only [bind, Except.bind, pure, Except.pure, fail] at h
  repeat' split at h
  all_goals first
    | (simp only [Except.ok.injEq, Prod.mk.injEq] at h; exact Or.inl h.1.symm)
    | (simp only [Except.ok.injEq, Prod.mk.injEq] at h; exact Or.inr h.1.symm)
    | simp at h

theorem set_variable_status (vm : VM) (result : InterpretResult) (vm' : VM)
    (h : set_variable vm = .ok (result, vm')) :
    result = INTERPRET_OK ∨ result = INTERPRET_RUNTIME_ERROR := by
  unfold set_variable at h
  simp only [bind, Except.bind, pure, Except.pure, fail] at h
  repeat' split at h
  all_goals first
    | (simp only [Except.ok.injEq, Prod.mk.injEq] at h; exact Or.inl h.1.symm)
    | (simp only [Except.ok.injEq, Prod.mk.injEq] at h; exact Or.inr h.1.symm)
    | simp at h

theorem outcome_finish (ip : Nat) (r : Res)
    (h : ∀ result vm, r = .ok (result, vm) →
      result = INTERPRET_OK ∨ result = INTERPRET_RUNTIME_ERROR) :
    step_outcome (finish ip r) = r.outcome := by
  rw [outcome_finish_propagate, outcome_propagate r h]

/-- `OP_EQUAL` and the `?=` operation leave the same status, stack and globals; the
operation also prints its operands. -/
theorem equal_outcomes_agree (ip : Nat) (vm : VM) :
    step_outcome (proceed ip (equal_operands vm)) = (equal_operation vm).outcome := by
  unfold equal_operands equal_operation
  cases hv : vars_to_vals vm with
  | error f => simp [proceed, step_outcome, Res.outcome, bind, Except.bind]
  | ok vm1 =>
    obtain ⟨SM, FM, frames, fc, stack, globals, strings, ou, objects, ops, sin, sout, sv, sc⟩ :=
      vm1
    cases stack with
    | nil => simp [proceed, step_outcome, Res.outcome, peek, pop, bind, Except.bind]
    | cons b stack =>
      cases stack with
      | nil => simp [proceed, step_outcome, Res.outcome, peek, pop, bind, Except.bind]
      | cons a rest =>
        by_cases hcap : rest.length < SM
        · simp [proceed, step_outcome, Res.outcome, peek, pop, push, printf, print_value,
            hcap, bind, Except.bind, pure, Except.pure]
        · simp [proceed, step_outcome, Res.outcome, peek, pop, push, printf, print_value,
            hcap, bind, Except.bind, pure, Except.pure]

/-- C28. For each of `+`, `-`, `*`, `/`, `%`, `?=`, `=`, `,` and `if`, in every machine
state, the instruction of the direct opcode and `run_operation` on an operation of the
same spelling leave the same result status, the same operand stack and the same globals
(and where C leaves the one undefined it leaves the other undefined). `fuel` is the budget
of the calls below either of them. -/
theorem opcode_agrees_with_operation (fuel : Nat) (chunk : Chunk) (ip : Nat) (vm : VM)
    (op : Op_Code) (name : Operators → ObjString) (type : ObjString)
    (hpair : same_spelling op name) (hcode : chunk.code[ip]? = some op.toByte)
    (htype : vm.is_operation type name) :
    step_outcome (step fuel chunk ip vm) = (run_operation (fuel + 1) type vm).outcome := by
  cases hpair with
  | plus =>
    rw [step_add fuel chunk ip vm hcode, run_operation_plus fuel type vm htype]
    exact outcome_finish _ _ (add_operands_status vm)
  | minus =>
    rw [(step_binary fuel chunk ip vm).1 hcode, run_operation_minus fuel type vm htype]
    exact outcome_finish _ _ (binary_operands_status _ vm)
  | star =>
    rw [(step_binary fuel chunk ip vm).2.1 hcode, run_operation_star fuel type vm htype]
    exact outcome_finish _ _ (binary_operands_status _ vm)
  | divide =>
    rw [(step_binary fuel chunk ip vm).2.2.1 hcode, run_operation_divide fuel type vm htype]
    exact outcome_finish _ _ (binary_operands_status _ vm)
  | mod =>
    rw [step_mod fuel chunk ip vm hcode, run_operation_mod fuel type vm htype]
    exact outcome_finish _ _ (mod_operands_status fuel vm)
  | equal =>
    rw [(step_binary fuel chunk ip vm).2.2.2.1 hcode, run_operation_equal fuel type vm htype]
    exact equal_outcomes_agree _ vm
  | set =>
    rw [step_set fuel chunk ip vm hcode, run_operation_set fuel type vm htype]
    exact outcome_finish _ _ (set_variable_status vm)
  | comma =>
    rw [step_apply fuel chunk ip vm hcode, run_operation_comma fuel type vm htype]
    exact outcome_finish_propagate _ _
  | _if =>
    rw [(step_binary fuel chunk ip vm).2.2.2.2 hcode, run_operation_if fuel type vm htype]
    exact outcome_finish_propagate _ _

theorem opcode_agrees_with_operation_witness :
    step_outcome (step 5 (code_only [6, 21]) 0 seven_three_VM)
      = (run_operation 6 seven_three_VM.ops.mod seven_three_VM).outcome ∧
    step_outcome (step 5 (code_only [6, 21]) 0 seven_three_VM)
      = .ok (INTERPRET_OK, [NUMBER (Double.fin 1), OBJ_CLOSURE 21], []) :=
  ⟨opcode_agrees_with_operation 5 (code_only [6, 21]) 0 seven_three_VM OP_MOD Operators.mod
      seven_three_VM.ops.mod same_spelling.mod (by decide) ⟨by decide!, rfl⟩,
    by decide!⟩

/-! ## The scanner takes at least one byte for each token -/

theorem skip_whitespace_loop_length : ∀ (input : List Nat) (flag : Bool) (line : Nat),
    (skip_whitespace_loop flag input line).1.length ≤ input.length := by
  intro input
  induction input with
  | nil => intro flag line; cases flag <;> simp [skip_whitespace_loop]
  | cons c rest ih =>
    intro flag line
    cases flag
    · by_cases h1 : c = 32 ∨ c = 13 ∨ c = 9
      · simp only [skip_whitespace_loop, h1, if_true, List.length_cons]
        exact Nat.le_succ_of_le (ih false line)
      · by_cases h2 : c = 10
        · simp only [skip_whitespace_loop, h1, h2, if_true, if_false, List.length_cons]
          exact Nat.le_succ_of_le (ih false (line + 1))
        · by_cases h3 : c = 47
          · subst h3
            cases rest with
            | nil => simp [skip_whitespace_loop]
            | cons d rest' =>
              by_cases hd : d = 47
              · subst hd
                have := ih true line
                simp only [skip_whitespace_loop, List.length_cons,
                  show ¬ ((47 : Nat) = 32 ∨ (47 : Nat) = 13 ∨ (47 : Nat) = 9) by decide,
                  show ¬ ((47 : Nat) = 10) by decide, if_false, if_true] at this ⊢
                omega
              · simp [skip_whitespace_loop, hd]
          · simp [skip_whitespace_loop, h1, h2, h3]
    · by_cases h2 : c = 10
      · simp only [skip_whitespace_loop, h2, if_true, List.length_cons]
        exact Nat.le_succ_of_le (ih false (line + 1))
      · simp only [skip_whitespace_loop, h2, if_false, List.length_cons]
        exact Nat.le_succ_of_le (ih true line)

theorem dropWhile_length_le (p : Nat → Bool) (l : List Nat) :
    (l.dropWhile p).length ≤ l.length := by
  induction l with
  | nil => simp
  | cons c rest ih =>
    simp only [List.dropWhile_cons]
    split
    · exact Nat.le_succ_of_le ih
    · exact Nat.le_refl _

theorem string_loop_length : ∀ (n : Nat) (input : List Nat) (line : Nat), input.length ≤ n →
    (string_loop input line).1.length ≤ input.length := by
  intro n
  induction n with
  | zero =>
    intro input line h
    cases input with
    | nil => simp [string_loop]
    | cons c rest => simp at h
  | succ n ih =>
    intro input line h
    cases input with
    | nil => simp [string_loop]
    | cons c rest =>
      cases rest with
      | nil =>
        simp only [string_loop]
        split <;> simp
      | cons d rest =>
        simp only [List.length_cons] at h
        simp only [string_loop]
        split
        · exact Nat.le_refl _
        · split
          · have := ih rest (if c = 10 then line + 1 else line) (by omega)
            simp only [List.length_cons]
            omega
          · have := ih (d :: rest) (if c = 10 then line + 1 else line)
              (by simp only [List.length_cons]; omega)
            simp only [List.length_cons] at this ⊢
            omega

theorem number_length (s : Scanner) : (number s).2.current.length ≤ s.current.length := by
  have h1 := dropWhile_length_le is_digit s.current
  simp only [number]
  split
  · rename_i d rest heq
    split
    · have h2 := dropWhile_length_le is_digit (d :: rest)
      rw [heq] at h1
      simp only [List.length_cons] at h1 h2 ⊢
      omega
    · exact h1
  · exact h1

theorem identifier_length (s : Scanner) :
    (identifier s).2.current.length ≤ s.current.length := by
  simp only [identifier]
  exact dropWhile_length_le _ _

theorem string_length (s : Scanner) : (string s).2.current.length ≤ s.current.length := by
  have h := string_loop_length s.current.length s.current s.line (Nat.le_refl _)
  simp only [string]
  split
  · rename_i heq
    simp [heq]
  · rename_i c rest heq
    rw [heq] at h
    simp only [List.length_cons] at h ⊢
    omega

theorem match_token_length (s : Scanner) (expected : Nat) (yes no : TokenType) :
    (match_token s expected yes no).2.current.length ≤ s.current.length := by
  simp only [match_token]
  split
  · rename_i c rest heq
    split
    · simp [heq]
    · exact Nat.le_refl _
  · exact Nat.le_refl _

theorem ite_motive {α : Type} (Q : α → Prop) (c : Prop) [Decidable c] (a b : α) (ha : Q a)
    (hb : Q b) : Q (if c then a else b) := by
  split <;> assumption

theorem scan_token_progress (s : Scanner) :
    (scan_token s).2.current.length < s.current.length ∨
    ((scan_token s).1.type = TOKEN_EOF ∧
      (scan_token s).2.current.length ≤ s.current.length) := by
  have hskip : (skip_whitespace s).current.length ≤ s.current.length := by
    simp only [skip_whitespace]
    exact skip_whitespace_loop_length s.current false s.line
  unfold scan_token
  dsimp only
  split
  · rename_i hcur
    right
    exact ⟨rfl, by simp [make_token, hcur]⟩
  · rename_i c rest hcur
    left
    have hrest : rest.length < s.current.length := by
      rw [hcur] at hskip
      simp only [List.length_cons] at hskip
      omega
    have key : ∀ out : Token × Scanner, out.2.current.length ≤ rest.length →
        out.2.current.length < s.current.length := fun out h => Nat.lt_of_le_of_lt h hrest
    have leaf : ∀ out : Token × Scanner, (out.2.current.length ≤ rest.length) →
        (fun out : Token × Scanner => out.2.current.length < s.current.length) out :=
      fun out h => key out h
    have hQ := fun c inst a b => @ite_motive (Token × Scanner)
      (fun out : Token × Scanner => out.2.current.length < s.current.length) c inst a b
    have h0 := Nat.le_refl rest.length
    iterate 19 refine hQ _ _ _ _ (leaf _ (by first | exact number_length _ | exact identifier_length _ | exact match_token_length _ _ _ _ | exact string_length _ | exact h0)) ?_
    exact key _ h0

/-! ## `compile` returns, and leaves the stack, the frames and the globals -/

theorem VM.same_frame_refl (vm : VM) : vm.same_frame vm := ⟨rfl, rfl, rfl, rfl, rfl⟩

theorem VM.same_frame_trans {a b c : VM} (h1 : a.same_frame b) (h2 : b.same_frame c) :
    a.same_frame c :=
  ⟨h1.1.trans h2.1, h1.2.1.trans h2.2.1, h1.2.2.1.trans h2.2.2.1,
    h1.2.2.2.1.trans h2.2.2.2.1, h1.2.2.2.2.trans h2.2.2.2.2⟩

theorem VM.room_of_same_frame {a b : VM} (h : a.same_frame b)
    (hcap : b.stack.length < b.STACK_MAX) : a.stack.length < a.STACK_MAX := by
  rw [h.1, h.2.1]
  exact hcap

theorem copy_string_same_frame (chars : List Nat) (length : Nat) (strlit : Bool) (vm : VM)
    (hcap : vm.stack.length < vm.STACK_MAX) :
    ∃ s vm', copy_string chars length strlit vm = .ok (s, vm') ∧ vm'.same_frame vm := by
  cases hfind : table_find_string vm.strings chars length (hash_string chars length) with
  | some interned =>
    refine ⟨interned, vm, ?_, VM.same_frame_refl vm⟩
    simp only [copy_string, hfind, pure, Except.pure]
  | none =>
    obtain ⟨SM, FM, frames, fc, stack, globals, strings, ou, objects, ops, sin, sout, sv, sc⟩ :=
      vm
    simp only at hcap hfind
    refine ⟨⟨objects, length, if strlit = true then format sc (chars.take length ++ [0])
          else chars.take length ++ [0], hash_string chars length⟩,
      ⟨SM, FM, frames, fc, stack, globals,
        table_set strings ⟨objects, length, if strlit = true then
          format sc (chars.take length ++ [0]) else chars.take length ++ [0],
          hash_string chars length⟩ NIL,
        ou, objects + 1, ops, sin, sout, sv, sc⟩,
      ?_, rfl, rfl, rfl, rfl, rfl⟩
    simp [copy_string, hfind, allocate_string, push, hcap, pop, bind, Except.bind, pure,
      Except.pure]

theorem Compiling.emitted_refl (c : Compiling) : c.emitted c :=
  ⟨VM.same_frame_refl _, rfl, rfl⟩

theorem Compiling.emitted_trans {c c1 c2 : Compiling} (h1 : c.emitted c1)
    (h2 : c1.emitted c2) : c.emitted c2 :=
  ⟨VM.same_frame_trans h2.1 h1.1, h2.2.1.trans h1.2.1, h2.2.2.trans h1.2.2⟩

theorem Compiling.advanced_of_emitted {c c1 c2 : Compiling} (h1 : c.emitted c1)
    (h2 : c1.advanced c2) : c.advanced c2 := by
  refine ⟨VM.same_frame_trans h2.1 h1.1, ?_⟩
  have := h2.2
  rw [h1.2.1] at this
  exact this

theorem Compiling.advanced_emitted {c c1 c2 : Compiling} (h1 : c.advanced c1)
    (h2 : c1.emitted c2) : c.advanced c2 := by
  refine ⟨VM.same_frame_trans h2.1 h1.1, ?_⟩
  have := h1.2
  simp only [Compiling.pending] at this ⊢
  rw [h2.2.1, h2.2.2]
  exact this

theorem Compiling.advanced_advanced {c c1 c2 : Compiling} (h1 : c.advanced c1)
    (h2 : c1.advanced c2) : c.advanced c2 := by
  refine ⟨VM.same_frame_trans h2.1 h1.1, ?_⟩
  have a := h1.2
  have b := h2.2
  simp only [Compiling.pending] at a b ⊢
  omega

theorem Compiling.advanced_moved {c c1 c2 : Compiling} (h1 : c.advanced c1)
    (h2 : c1.advanced c2 ∨ c1.emitted c2) : c.advanced c2 := by
  rcases h2 with h2 | h2
  · exact Compiling.advanced_advanced h1 h2
  · exact Compiling.advanced_emitted h1 h2

theorem emit_byte_emitted (byte : Nat) (c : Compiling) : c.emitted (emit_byte byte c) :=
  ⟨VM.same_frame_refl _, rfl, rfl⟩

theorem emit_bytes_emitted (byte1 byte2 : Nat) (c : Compiling) :
    c.emitted (emit_bytes byte1 byte2 c) :=
  ⟨VM.same_frame_refl _, rfl, rfl⟩

theorem error_at_emitted (c : Compiling) : c.emitted (error_at c) := by
  unfold error_at
  split
  · exact Compiling.emitted_refl c
  · exact ⟨VM.same_frame_refl _, rfl, rfl⟩

theorem make_constant_emitted (value : Value) (c : Compiling) :
    c.emitted (make_constant value c).2 := by
  unfold make_constant
  simp only [add_constant]
  split
  · exact Compiling.emitted_trans ⟨VM.same_frame_refl _, rfl, rfl⟩ (error_at_emitted _)
  · exact ⟨VM.same_frame_refl _, rfl, rfl⟩

theorem emit_constant_emitted (value : Value) (c : Compiling) :
    c.emitted (emit_constant value c) := by
  unfold emit_constant
  exact Compiling.emitted_trans (make_constant_emitted value c) (emit_bytes_emitted _ _ _)

theorem identifier_constant_emitted (name : Token) (c : Compiling)
    (hcap : c.vm.stack.length < c.vm.STACK_MAX) :
    ∃ k c', identifier_constant name c = .ok (k, c') ∧ c.emitted c' := by
  obtain ⟨s, vm', hcopy, hframe⟩ :=
    copy_string_same_frame name.start name.length false c.vm hcap
  refine ⟨(make_constant (OBJ_STRING s) { c with vm := vm' }).1,
    (make_constant (OBJ_STRING s) { c with vm := vm' }).2, ?_, ?_⟩
  · simp only [identifier_constant, hcopy, bind, Except.bind, pure, Except.pure]
  · have h1 : c.emitted { c with vm := vm' } := ⟨hframe, rfl, rfl⟩
    exact Compiling.emitted_trans h1 (make_constant_emitted _ _)

theorem advance_loop_total : ∀ (fuel : Nat) (c : Compiling), c.scanner.current.length < fuel →
    ∃ c', advance_loop fuel c = .ok c' ∧ c'.vm = c.vm ∧
      c'.pending ≤ c.scanner.current.length := by
  intro fuel
  induction fuel with
  | zero => intro c h; exact absurd h (Nat.not_lt_zero _)
  | succ fuel ih =>
    intro c h
    have hprog := scan_token_progress c.scanner
    unfold advance_loop
    cases hscan : scan_token c.scanner with
    | mk token scanner =>
      rw [hscan] at hprog
      simp only at hprog ⊢
      by_cases herr : token.type = TOKEN_ERROR
      · have hlt : scanner.current.length < c.scanner.current.length := by
          rcases hprog with hp | hp
          · exact hp
          · rw [herr] at hp
            exact absurd hp.1 (by decide)
        obtain ⟨c', hc', hvm, hpend⟩ := ih
          (error_at { c with scanner := scanner, parser := { c.parser with current := token } })
          (by have := (error_at_emitted
                { c with scanner := scanner, parser := { c.parser with current := token } }).2.1
              rw [this]
              simp only
              omega)
        refine ⟨c', ?_, ?_, ?_⟩
        · simp only [herr, ne_eq, not_true_eq_false, if_false]
          exact hc'
        · rw [hvm]
          have := (error_at_emitted
            { c with scanner := scanner, parser := { c.parser with current := token } }).1
          exact congrArg _ rfl |>.trans (by
            unfold error_at
            split <;> rfl)
        · have := (error_at_emitted
            { c with scanner := scanner, parser := { c.parser with current := token } }).2.1
          rw [this] at hpend
          simp only at hpend
          omega
      · refine ⟨{ c with scanner := scanner, parser := { c.parser with current := token } },
          ?_, rfl, ?_⟩
        · simp only [ne_eq, herr, not_false_eq_true, if_true, pure, Except.pure]
        · simp only [Compiling.pending]
          rcases hprog with hp | hp
          · split <;> omega
          · simp only [hp.1, if_true]
            omega

theorem advance_advanced (c : Compiling) : ∃ c', advance c = .ok c' ∧ c.advanced c' := by
  obtain ⟨c', h, hvm, hpend⟩ := advance_loop_total (c.scanner.current.length + 1)
    { c with parser := { c.parser with previous := c.parser.current } } (Nat.lt_succ_self _)
  refine ⟨c', h, ?_, hpend⟩
  rw [hvm]
  exact VM.same_frame_refl _

theorem match_type_cases (type : TokenType) (c : Compiling) :
    (c.parser.current.type ≠ type ∧ match_type type c = .ok (false, c)) ∨
    (c.parser.current.type = type ∧
      ∃ c', match_type type c = .ok (true, c') ∧ c.advanced c') := by
  by_cases h : c.parser.current.type = type
  · right
    obtain ⟨c', hadv, hrel⟩ := advance_advanced c
    refine ⟨h, c', ?_, hrel⟩
    simp [match_type, h, hadv, bind, Except.bind, pure, Except.pure]
  · left
    exact ⟨h, by simp [match_type, h, pure, Except.pure]⟩

theorem consume_moved (type : TokenType) (c : Compiling) :
    ∃ c', consume type c = .ok c' ∧ (c.advanced c' ∨ c.emitted c') := by
  by_cases h : c.parser.current.type = type
  · obtain ⟨c', hadv, hrel⟩ := advance_advanced c
    exact ⟨c', by simp [consume, h, hadv], Or.inl hrel⟩
  · exact ⟨error_at c, by simp [consume, h, pure, Except.pure], Or.inr (error_at_emitted c)⟩

theorem io_advanced (c : Compiling)
    (h : c.parser.current.type = TOKEN_DOT ∨ c.parser.current.type = TOKEN_CARROT) :
    ∃ c', io c = .ok c' ∧ c.advanced c' := by
  rcases match_type_cases TOKEN_DOT c with ⟨hne, hm⟩ | ⟨-, c1, hm, hrel⟩
  · rcases match_type_cases TOKEN_CARROT c with ⟨hne2, -⟩ | ⟨-, c1, hm2, hrel⟩
    · rcases h with h | h
      · exact absurd h hne
      · exact absurd h hne2
    · refine ⟨emit_byte OP_SCAN.toByte c1, ?_,
        Compiling.advanced_emitted hrel (emit_byte_emitted _ _)⟩
      simp [io, hm, hm2, bind, Except.bind, pure, Except.pure]
  · refine ⟨emit_byte OP_PRINT.toByte c1, ?_,
      Compiling.advanced_emitted hrel (emit_byte_emitted _ _)⟩
    simp [io, hm, bind, Except.bind, pure, Except.pure]

theorem emit_all_emitted (bytes : List Nat) :
    ∀ c : Compiling, c.emitted (bytes.foldl (fun c byte => emit_byte byte c) c) := by
  induction bytes with
  | nil => intro c; exact Compiling.emitted_refl c
  | cons b rest ih =>
    intro c
    exact Compiling.emitted_trans (emit_byte_emitted b c) (ih _)

theorem operator_chain_advanced (table : List (TokenType × List Nat)) (c : Compiling)
    (h : c.parser.current.type ∈ table.map Prod.fst) :
    ∃ c', operator_chain table c = .ok c' ∧ c.advanced c' := by
  induction table with
  | nil => simp at h
  | cons entry rest ih =>
    obtain ⟨type, bytes⟩ := entry
    rcases match_type_cases type c with ⟨hne, hm⟩ | ⟨-, c1, hm, hrel⟩
    · have hrest : c.parser.current.type ∈ rest.map Prod.fst := by
        simp only [List.map_cons, List.mem_cons] at h
        rcases h with h | h
        · exact absurd h hne
        · exact h
      obtain ⟨c', hc', hrel⟩ := ih hrest
      exact ⟨c', by simp [operator_chain, hm, hc', bind, Except.bind], hrel⟩
    · refine ⟨bytes.foldl (fun c byte => emit_byte byte c) c1, ?_,
        Compiling.advanced_emitted hrel (emit_all_emitted bytes c1)⟩
      simp [operator_chain, hm, bind, Except.bind, pure, Except.pure]

theorem conditional_advanced (c : Compiling)
    (h : c.parser.current.type = TOKEN_IF ∨ c.parser.current.type = TOKEN_WHILE)
    (hcap : c.vm.stack.length < c.vm.STACK_MAX) :
    ∃ c', conditional c = .ok c' ∧ c.advanced c' := by
  rcases match_type_cases TOKEN_IF c with ⟨hne, hm⟩ | ⟨-, c1, hm, hrel⟩
  · rcases match_type_cases TOKEN_WHILE c with ⟨hne2, -⟩ | ⟨-, c1, hm2, hrel⟩
    · rcases h with h | h
      · exact absurd h hne
      · exact absurd h hne2
    · obtain ⟨k, c2, hk, hrel2⟩ := identifier_constant_emitted
        (synthetic_token "while_condition") c1 (VM.room_of_same_frame hrel.1 hcap)
      refine ⟨emit_byte OP_WHILE.toByte (emit_bytes OP_DEFINE_FUNCTION.toByte k c2), ?_,
        Compiling.advanced_emitted hrel (Compiling.emitted_trans hrel2
          (Compiling.emitted_trans (emit_bytes_emitted _ _ _) (emit_byte_emitted _ _)))⟩
      simp [conditional, hm, hm2, hk, bind, Except.bind, pure, Except.pure]
  · refine ⟨emit_byte OP_IF.toByte c1, ?_,
      Compiling.advanced_emitted hrel (emit_byte_emitted _ _)⟩
    simp [conditional, hm, bind, Except.bind, pure, Except.pure]

theorem compile_variable_advanced (c : Compiling)
    (hcap : c.vm.stack.length < c.vm.STACK_MAX) :
    ∃ c', compile_variable c = .ok c' ∧ c.advanced c' := by
  obtain ⟨k, c1, hk, hrel1⟩ := identifier_constant_emitted c.parser.current c hcap
  obtain ⟨c2, hadv, hrel2⟩ := advance_advanced (emit_bytes OP_VARIABLE.toByte k c1)
  refine ⟨c2, ?_, Compiling.advanced_of_emitted
    (Compiling.emitted_trans hrel1 (emit_bytes_emitted _ _ _)) hrel2⟩
  simp [compile_variable, hk, hadv, bind, Except.bind]

theorem function_advanced (c : Compiling) (hcap : c.vm.stack.length < c.vm.STACK_MAX) :
    ∃ c', function c = .ok c' ∧ c.advanced c' := by
  obtain ⟨c1, hadv1, hrel1⟩ := advance_advanced c
  obtain ⟨k, c2, hk, hrel2⟩ := identifier_constant_emitted c1.parser.current c1
    (VM.room_of_same_frame hrel1.1 hcap)
  obtain ⟨c3, hadv3, hrel3⟩ := advance_advanced (emit_bytes OP_DEFINE_FUNCTION.toByte k c2)
  refine ⟨c3, ?_, Compiling.advanced_advanced hrel1 (Compiling.advanced_of_emitted
    (Compiling.emitted_trans hrel2 (emit_bytes_emitted _ _ _)) hrel3)⟩
  simp [function, hadv1, hk, hadv3, bind, Except.bind]

theorem parenthesis_advanced (c : Compiling) (hcap : c.vm.stack.length < c.vm.STACK_MAX) :
    ∃ c', parenthesis c = .ok c' ∧ c.advanced c' := by
  obtain ⟨c1, hadv1, hrel1⟩ := advance_advanced c
  -- the test for an empty pair of parentheses
  have hstep2 : ∃ m c2, match_type TOKEN_RIGHT_PAREN c1 = .ok (m, c2) ∧
      c.advanced (if m = true then error_at c2 else c2) := by
    rcases match_type_cases TOKEN_RIGHT_PAREN c1 with ⟨-, hm⟩ | ⟨-, c2, hm, hrel2⟩
    · exact ⟨false, c1, hm, by simpa using hrel1⟩
    · exact ⟨true, c2, hm, by
        simpa using Compiling.advanced_emitted (Compiling.advanced_advanced hrel1 hrel2)
          (error_at_emitted c2)⟩
  obtain ⟨m, c2, hm, hrel2⟩ := hstep2
  generalize hc3 : (if m = true then error_at c2 else c2) = c3 at hrel2
  -- the operator
  by_cases hop : is_parenthesis_operator c3.parser.current.type = true
  · obtain ⟨k, c4, hk, hrel4⟩ := identifier_constant_emitted c3.parser.current c3
      (VM.room_of_same_frame hrel2.1 hcap)
    obtain ⟨c5, hadv5, hrel5⟩ := advance_advanced (emit_bytes OP_PUSH_OPERATION.toByte k c4)
    obtain ⟨c6, hc6, hrel6⟩ := consume_moved TOKEN_RIGHT_PAREN c5
    refine ⟨c6, ?_, Compiling.advanced_moved (Compiling.advanced_advanced hrel2
      (Compiling.advanced_of_emitted
        (Compiling.emitted_trans hrel4 (emit_bytes_emitted _ _ _)) hrel5)) hrel6⟩
    simp only [parenthesis, hadv1, hm, bind, Except.bind, hc3, hop, if_true, hk, hadv5]
    exact hc6
  · obtain ⟨c6, hc6, hrel6⟩ := consume_moved TOKEN_RIGHT_PAREN (error_at c3)
    refine ⟨c6, ?_, Compiling.advanced_moved
      (Compiling.advanced_emitted hrel2 (error_at_emitted c3)) hrel6⟩
    simp only [parenthesis, hadv1, hm, bind, Except.bind, hc3, hop, if_false, pure,
      Except.pure]
    exact hc6

theorem instruction_advanced (c : Compiling) (hcap : c.vm.stack.length < c.vm.STACK_MAX) :
    ∃ c', instruction c = .ok c' ∧ c.advanced c' := by
  have hnumber : ∃ c', (do
      let c ← advance c
      let value := strtod c.parser.previous.start
      pure (emit_constant (NUMBER value) c) : Except Fault Compiling) = .ok c' ∧
      c.advanced c' := by
    obtain ⟨c1, hadv, hrel⟩ := advance_advanced c
    exact ⟨emit_constant (NUMBER (strtod c1.parser.previous.start)) c1,
      by simp only [hadv, bind, Except.bind, pure, Except.pure],
      Compiling.advanced_emitted hrel (emit_constant_emitted _ _)⟩
  have hcolon : ∃ c', (do
      let c ← advance c
      pure (emit_constant NIL c) : Except Fault Compiling) = .ok c' ∧ c.advanced c' := by
    obtain ⟨c1, hadv, hrel⟩ := advance_advanced c
    exact ⟨emit_constant NIL c1, by simp only [hadv, bind, Except.bind, pure, Except.pure],
      Compiling.advanced_emitted hrel (emit_constant_emitted _ _)⟩
  have hequal : ∃ c', (do
      let c ← advance c
      pure (emit_byte OP_SET_VARIABLE.toByte c) : Except Fault Compiling) = .ok c' ∧
      c.advanced c' := by
    obtain ⟨c1, hadv, hrel⟩ := advance_advanced c
    exact ⟨emit_byte OP_SET_VARIABLE.toByte c1,
      by simp only [hadv, bind, Except.bind, pure, Except.pure],
      Compiling.advanced_emitted hrel (emit_byte_emitted _ _)⟩
  have hcomma : ∃ c', advance (emit_byte OP_APPLY.toByte c) = .ok c' ∧ c.advanced c' := by
    obtain ⟨c1, hadv, hrel⟩ := advance_advanced (emit_byte OP_APPLY.toByte c)
    exact ⟨c1, hadv, Compiling.advanced_of_emitted (emit_byte_emitted _ _) hrel⟩
  have hstring : ∃ c', (do
      let (s, vm) ← copy_string (c.parser.current.start.drop 1) (c.parser.current.length - 2)
        true c.vm
      advance (emit_constant (OBJ_STRING s) { c with vm := vm }) : Except Fault Compiling) =
        .ok c' ∧ c.advanced c' := by
    obtain ⟨s, vm', hcopy, hframe⟩ := copy_string_same_frame (c.parser.current.start.drop 1)
      (c.parser.current.length - 2) true c.vm hcap
    have h1 : c.emitted { c with vm := vm' } := ⟨hframe, rfl, rfl⟩
    obtain ⟨c1, hadv, hrel⟩ := advance_advanced
      (emit_constant (OBJ_STRING s) { c with vm := vm' })
    exact ⟨c1, by simp only [hcopy, hadv, bind, Except.bind],
      Compiling.advanced_of_emitted
        (Compiling.emitted_trans h1 (emit_constant_emitted _ _)) hrel⟩
  have hother : ∃ c', advance (error_at c) = .ok c' ∧ c.advanced c' := by
    obtain ⟨c1, hadv, hrel⟩ := advance_advanced (error_at c)
    exact ⟨c1, hadv, Compiling.advanced_of_emitted (error_at_emitted c) hrel⟩
  have hoperator : c.parser.current.type ∈
      [TOKEN_PLUS, TOKEN_MINUS, TOKEN_STAR, TOKEN_SLASH, TOKEN_EQUAL_EQUAL, TOKEN_BANG,
        TOKEN_BANG_EQUAL, TOKEN_LESS, TOKEN_GREATER, TOKEN_LESS_EQUAL, TOKEN_GREATER_EQUAL,
        TOKEN_QUESTION, TOKEN_MOD] → ∃ c', operator c = .ok c' ∧ c.advanced c' :=
    fun h => operator_chain_advanced _ c h
  unfold instruction
  cases h : c.parser.current.type
  case TOKEN_LEFT_PAREN => exact parenthesis_advanced c hcap
  case TOKEN_RIGHT_PAREN => exact hother
  case TOKEN_COMMA => exact hcomma
  case TOKEN_DOT => exact io_advanced c (Or.inl h)
  case TOKEN_CARROT => exact io_advanced c (Or.inr h)
  case TOKEN_MINUS => exact hoperator (by rw [h]; decide)
  case TOKEN_PLUS => exact hoperator (by rw [h]; decide)
  case TOKEN_SLASH => exact hoperator (by rw [h]; decide)
  case TOKEN_STAR => exact hoperator (by rw [h]; decide)
  case TOKEN_MOD => exact hoperator (by rw [h]; decide)
  case TOKEN_BANG => exact hoperator (by rw [h]; decide)
  case TOKEN_BANG_EQUAL => exact hoperator (by rw [h]; decide)
  case TOKEN_EQUAL => exact hequal
  case TOKEN_EQUAL_EQUAL => exact hoperator (by rw [h]; decide)
  case TOKEN_GREATER => exact hoperator (by rw [h]; decide)
  case TOKEN_GREATER_EQUAL => exact hoperator (by rw [h]; decide)
  case TOKEN_LESS => exact hoperator (by rw [h]; decide)
  case TOKEN_LESS_EQUAL => exact hoperator (by rw [h]; decide)
  case TOKEN_QUESTION => exact hoperator (by rw [h]; decide)
  case TOKEN_IDENTIFIER => exact compile_variable_advanced c hcap
  case TOKEN_STRING => exact hstring
  case TOKEN_NUMBER => exact hnumber
  case TOKEN_AND => exact hother
  case TOKEN_FALSE => exact hother
  case TOKEN_IF => exact conditional_advanced c (Or.inl h) hcap
  case TOKEN_OR => exact hother
  case TOKEN_TRUE => exact hother
  case TOKEN_WHILE => exact conditional_advanced c (Or.inr h) hcap
  case TOKEN_ARROW => exact function_advanced c hcap
  case TOKEN_COLON => exact hcolon
  case TOKEN_ERROR => exact hother
  case TOKEN_EOF => exact hother

theorem compile_loop_total : ∀ (fuel : Nat) (c : Compiling), c.pending < fuel →
    c.vm.stack.length < c.vm.STACK_MAX →
    ∃ c', compile_loop fuel c = .ok c' ∧ c'.vm.same_frame c.vm := by
  intro fuel
  induction fuel with
  | zero => intro c h; omega
  | succ fuel ih =>
    intro c hfuel hcap
    rcases match_type_cases TOKEN_EOF c with ⟨hne, hm⟩ | ⟨-, c1, hm, hrel⟩
    · obtain ⟨c1, hins, hrel⟩ := instruction_advanced c hcap
      have hpend : c1.pending < fuel := by
        have h1 := hrel.2
        have h2 : c.pending = c.scanner.current.length + 1 := by
          simp [Compiling.pending, hne]
        omega
      obtain ⟨c2, hloop, hframe⟩ := ih c1 hpend (VM.room_of_same_frame hrel.1 hcap)
      refine ⟨c2, ?_, VM.same_frame_trans hframe hrel.1⟩
      simp [compile_loop, hm, hins, hloop, bind, Except.bind]
    · exact ⟨c1, by simp [compile_loop, hm, bind, Except.bind, pure, Except.pure], hrel.1⟩

theorem compile_total (fuel : Nat) (source : List Nat) (vm : VM)
    (hcap : vm.stack.length < vm.STACK_MAX) (hfuel : source.length + 1 < fuel) :
    ∃ function vm', compile fuel source vm = .ok (function, vm') ∧ vm'.same_frame vm := by
  have h0 : (new_function vm).2.same_frame vm := ⟨rfl, rfl, rfl, rfl, rfl⟩
  obtain ⟨c1, hadv, hrel⟩ := advance_advanced
    { scanner := init_scanner source,
      parser := { current := zero_token, previous := zero_token, had_error := false,
                  panic_mode := false },
      function := (new_function vm).1, vm := (new_function vm).2 }
  have hlen : c1.pending < fuel := by
    have h1 := hrel.2
    have h2 : (init_scanner source).current.length = source.length := rfl
    simp only [h2] at h1
    omega
  have hframe1 : c1.vm.same_frame vm := VM.same_frame_trans hrel.1 h0
  obtain ⟨c2, hloop, hframe⟩ := compile_loop_total fuel c1 hlen
    (VM.room_of_same_frame hframe1 hcap)
  have hret : (emit_return c2).vm.same_frame c2.vm := (emit_byte_emitted _ c2).1
  refine ⟨if (emit_return c2).parser.had_error = true then none
      else some (emit_return c2).function, (emit_return c2).vm, ?_,
    VM.same_frame_trans (VM.same_frame_trans hret hframe) hframe1⟩
  simp only [compile, hadv, hloop, bind, Except.bind, pure, Except.pure]

/-- C24. Whenever the operand stack has a free slot and the fuel exceeds the length of the
source by two, `compile` returns, and the machine it leaves has the operand stack, the call
frames, the frame count and the globals table of the machine before the call; when it
reported an error (its result is `NULL`), `interpret` returns `INTERPRET_COMPILE_ERROR` with
that machine, so that no opcode was run. -/
theorem compile_error_runs_nothing (fuel : Nat) (source : List Nat) (vm : VM)
    (hcap : vm.stack.length < vm.STACK_MAX) (hfuel : source.length + 1 < fuel) :
    ∃ function vm', compile fuel source vm = .ok (function, vm') ∧
      vm'.stack = vm.stack ∧ vm'.frames = vm.frames ∧ vm'.frame_count = vm.frame_count ∧
      vm'.globals = vm.globals ∧
      (function = none → interpret fuel source vm = .ok (INTERPRET_COMPILE_ERROR, vm')) := by
  obtain ⟨function, vm', hcompile, hstack, -, hframes, hcount, hglobals⟩ :=
    compile_total fuel source vm hcap hfuel
  refine ⟨function, vm', hcompile, hstack, hframes, hcount, hglobals, ?_⟩
  intro hnone
  subst hnone
  simp only [interpret, hcompile, bind, Except.bind, interpret_compiled, pure, Except.pure]

theorem compile_error_runs_nothing_witness :
    booted_VM.stack.length < booted_VM.STACK_MAX ∧ (source_text "1 @ 2").length + 1 < 10 ∧
    (interpret 10 (source_text "1 @ 2") booted_VM).result = some INTERPRET_COMPILE_ERROR ∧
    ∃ function vm', compile 10 (source_text "1 @ 2") booted_VM = .ok (function, vm') ∧
      vm'.stack = booted_VM.stack ∧ vm'.frames = booted_VM.frames ∧
      vm'.frame_count = booted_VM.frame_count ∧ vm'.globals = booted_VM.globals ∧
      (function = none →
        interpret 10 (source_text "1 @ 2") booted_VM = .ok (INTERPRET_COMPILE_ERROR, vm')) :=
  ⟨by decide, by decide, by decide!,
    compile_error_runs_nothing 10 (source_text "1 @ 2") booted_VM (by decide) (by decide)⟩

/-! ## The procedure of `define_function` during its construction -/

theorem define_function_writes_of_loop (vm : VM) (array : List Value) (i : Nat)
    (h : define_function_loop { vm with objects := vm.objects + 1 } vm.STACK_MAX 0 []
      = .ok (array, i)) :
    define_function_writes vm = .ok (array.map fun _ =>
      { building := vm.objects, machine := { vm with objects := vm.objects + 1 } }) := by
  simp only [define_function_writes, h, bind, Except.bind, pure, Except.pure]

theorem fresh_address_unrooted (vm : VM) (hfresh : ∀ r ∈ vm.reachable, r < vm.objects) :
    ¬ Allocation.rooted
      { building := vm.objects, machine := { vm with objects := vm.objects + 1 } } := by
  intro h
  exact Nat.lt_irrefl _ (hfresh vm.objects h)

/-- C25, refuted for `define_function`. On a stack `S ++ [Nil, v1, ..., vn]` of a machine in
which no root reaches the next address of the allocator, `define_function(name)` returns with
`name` bound to the new procedure of that address, and it made `n` calls of
`write_value_array` on the array of the procedure; at each of them the machine had the stack
and the globals of the start, and the procedure was reachable neither from the operand stack
nor from a call frame nor from a table. -/
theorem define_function_grows_an_unrooted_procedure (name : ObjString) (vm : VM)
    (S vs : List Value) (hstack : vm.slots = S ++ NIL :: vs) (hnil : ∀ v ∈ vs, v ≠ NIL)
    (hcap : vm.stack.length ≤ vm.STACK_MAX)
    (hfresh : ∀ r ∈ vm.reachable, r < vm.objects) :
    ∃ vm' writes, define_function name vm = .ok vm' ∧
      table_get vm'.globals name = some (OBJ_PROCEDURE vm.objects name vs.reverse) ∧
      define_function_writes vm = .ok writes ∧ writes.length = vs.length ∧
      ∀ a ∈ writes, a.building = vm.objects ∧ a.machine.stack = vm.stack ∧
        a.machine.globals = vm.globals ∧ ¬ a.rooted := by
  obtain ⟨vm', hdef, -, hget, -, -, -, -⟩ := define_function_drains name vm S vs hstack hnil hcap
  have hs : vm.stack = vs.reverse ++ NIL :: S.reverse := by
    have := stack_of_slots vm _ hstack
    simpa using this
  have hlen : vs.reverse.length < vm.STACK_MAX := by
    rw [hs] at hcap
    simp at hcap ⊢
    omega
  have hloop := define_function_loop_stops { vm with objects := vm.objects + 1 } vs.reverse []
    S.reverse vm.STACK_MAX [] (by simpa using hs) (by simpa using hnil) hlen
  simp only [List.length_nil, List.nil_append, Nat.zero_add] at hloop
  refine ⟨vm', _, hdef, hget, define_function_writes_of_loop vm _ _ hloop, by simp, ?_⟩
  intro a ha
  obtain ⟨-, -, rfl⟩ := List.mem_map.1 ha
  exact ⟨rfl, rfl, rfl, fresh_address_unrooted vm hfresh⟩

theorem define_function_grows_an_unrooted_procedure_witness :
    define_body_VM.slots = [OBJ_CLOSURE 22] ++
      NIL :: [NUMBER (Double.fin 1), NUMBER (Double.fin 2), NUMBER (Double.fin 3)] ∧
    define_body_VM.objects = 23 ∧
    (∀ r ∈ define_body_VM.reachable, r < define_body_VM.objects) ∧
    ∃ vm' writes,
      define_function ⟨21, 4, [98, 111, 100, 121, 0], 3685382517⟩ define_body_VM = .ok vm' ∧
      table_get vm'.globals ⟨21, 4, [98, 111, 100, 121, 0], 3685382517⟩ =
        some (OBJ_PROCEDURE define_body_VM.objects ⟨21, 4, [98, 111, 100, 121, 0], 3685382517⟩
          [NUMBER (Double.fin 1), NUMBER (Double.fin 2), NUMBER (Double.fin 3)].reverse) ∧
      define_function_writes define_body_VM = .ok writes ∧
      writes.length =
        [NUMBER (Double.fin 1), NUMBER (Double.fin 2), NUMBER (Double.fin 3)].length ∧
      ∀ a ∈ writes, a.building = define_body_VM.objects ∧
        a.machine.stack = define_body_VM.stack ∧
        a.machine.globals = define_body_VM.globals ∧ ¬ a.rooted :=
  ⟨by decide!, by decide!, by decide!,
    define_function_grows_an_unrooted_procedure ⟨21, 4, [98, 111, 100, 121, 0], 3685382517⟩
      define_body_VM [OBJ_CLOSURE 22]
      [NUMBER (Double.fin 1), NUMBER (Double.fin 2), NUMBER (Double.fin 3)] (by decide!)
      (by simp) (by decide!) (by decide!)⟩

/-! ## The constant of a number token -/

theorem error_at_previous (c : Compiling) : (error_at c).parser.previous = c.parser.previous := by
  unfold error_at
  split <;> rfl

theorem advance_loop_previous : ∀ (fuel : Nat) (c c' : Compiling),
    advance_loop fuel c = .ok c' → c'.parser.previous = c.parser.previous := by
  intro fuel
  induction fuel with
  | zero =>
    intro c c' h
    simp [advance_loop, throw, throwThe, MonadExceptOf.throw] at h
  | succ fuel ih =>
    intro c c' h
    unfold advance_loop at h
    cases hscan : scan_token c.scanner with
    | mk token scanner =>
      rw [hscan] at h
      simp only at h
      by_cases herr : token.type = TOKEN_ERROR
      · simp only [herr, ne_eq, not_true_eq_false, if_false] at h
        rw [ih _ _ h, error_at_previous]
      · simp only [ne_eq, herr, not_false_eq_true, if_true, pure, Except.pure,
          Except.ok.injEq] at h
        rw [← h]

theorem advance_previous (c c' : Compiling) (h : advance c = .ok c') :
    c'.parser.previous = c.parser.current := by
  unfold advance at h
  rw [advance_loop_previous _ _ _ h]

/-- The constant `instruction` emits for a number token is `strtod` of the source from the
first character of the token to its end: the length of the token is not used. -/
theorem instruction_number (c : Compiling) (h : c.parser.current.type = TOKEN_NUMBER) :
    ∃ c1, advance c = .ok c1 ∧
      instruction c = .ok (emit_constant (NUMBER (strtod c.parser.current.start)) c1) := by
  obtain ⟨c1, hadv, -⟩ := advance_advanced c
  refine ⟨c1, hadv, ?_⟩
  have hprev := advance_previous c c1 hadv
  unfold instruction
  rw [h]
  simp only [hadv, bind, Except.bind, pure, Except.pure, hprev]

/-- C31, the code at the failing inputs. In the source `1e2` the number token is the one
character `1` and the identifier `e2` follows, yet the constant emitted is 100, not 1: the
compiler passes `strtod` the source from the start of the token, and `strtod` reads the
exponent. In `0x10` the token is `0` and the constant is 16; in `1.e1` the token is `1` and
the constant is 10. With a blank after the digits (`12 e2`) the constant is 12. -/
theorem number_constant_reads_past_the_token :
    (scan_token (init_scanner (source_text "1e2"))).1
      = { type := TOKEN_NUMBER, start := source_text "1e2", length := 1, line := 1 } ∧
    (compiled_chunk (source_text "1e2") booted_VM).constants
      = [NUMBER (Double.fin 100), OBJ_STRING ⟨21, 2, [101, 50, 0], 2233127062⟩] ∧
    (compiled_chunk (source_text "1") booted_VM).constants = [NUMBER (Double.fin 1)] ∧
    (scan_token (init_scanner (source_text "0x10"))).1
      = { type := TOKEN_NUMBER, start := source_text "0x10", length := 1, line := 1 } ∧
    (compiled_chunk (source_text "0x10") booted_VM).constants
      = [NUMBER (Double.fin 16), OBJ_STRING ⟨21, 3, [120, 49, 48, 0], 2112889398⟩] ∧
    (scan_token (init_scanner (source_text "1.e1"))).1
      = { type := TOKEN_NUMBER, start := source_text "1.e1", length := 1, line := 1 } ∧
    (compiled_chunk (source_text "1.e1") booted_VM).constants.head?
      = some (NUMBER (Double.fin 10)) ∧
    (compiled_chunk (source_text "12 e2") booted_VM).constants
      = [NUMBER (Double.fin 12), OBJ_STRING ⟨21, 2, [101, 50, 0], 2233127062⟩] ∧
    (interpret 100 (source_text "1e2") booted_VM).machine.slots
      = [OBJ_CLOSURE 22, NUMBER (Double.fin 100),
          OBJ_VARIABLE 23 ⟨21, 2, [101, 50, 0], 2233127062⟩ NIL] := by
  decide!

/-! ## Operations in parentheses -/

/-- The operation `!=` has no branch in `run_operation` (vm.c 287-436): whatever the machine,
running it returns Ok and changes nothing. -/
theorem run_operation_not_equal (fuel : Nat) (type : ObjString) (vm : VM)
    (h : vm.is_operation type Operators.not_equal) :
    run_operation (fuel + 1) type vm = .ok (INTERPRET_OK, vm) := by
  obtain ⟨hnd, htype⟩ := h
  have e0 : ¬ vm.ops.not_equal.ref = vm.ops.plus.ref :=
    vm.ops.ref_ne_of_nodup hnd (i := 17) (j := 0) rfl rfl (by decide)
  have e1 : ¬ vm.ops.not_equal.ref = vm.ops.minus.ref :=
    vm.ops.ref_ne_of_nodup hnd (i := 17) (j := 1) rfl rfl (by decide)
  have e2 : ¬ vm.ops.not_equal.ref = vm.ops.star.ref :=
    vm.ops.ref_ne_of_nodup hnd (i := 17) (j := 2) rfl rfl (by decide)
  have e3 : ¬ vm.ops.not_equal.ref = vm.ops.divide.ref :=
    vm.ops.ref_ne_of_nodup hnd (i := 17) (j := 3) rfl rfl (by decide)
  have e4 : ¬ vm.ops.not_equal.ref = vm.ops.mod.ref :=
    vm.ops.ref_ne_of_nodup hnd (i := 17) (j := 4) rfl rfl (by decide)
  have e5 : ¬ vm.ops.not_equal.ref = vm.ops.equal.ref :=
    vm.ops.ref_ne_of_nodup hnd (i := 17) (j := 5) rfl rfl (by decide)
  have e6 : ¬ vm.ops.not_equal.ref = vm.ops.greater.ref :=
    vm.ops.ref_ne_of_nodup hnd (i := 17) (j := 6) rfl rfl (by decide)
  have e7 : ¬ vm.ops.not_equal.ref = vm.ops.less.ref :=
    vm.ops.ref_ne_of_nodup hnd (i := 17) (j := 7) rfl rfl (by decide)
  have e8 : ¬ vm.ops.not_equal.ref = vm.ops.greater_equal.ref :=
    vm.ops.ref_ne_of_nodup hnd (i := 17) (j := 8) rfl rfl (by decide)
  have e9 : ¬ vm.ops.not_equal.ref = vm.ops.less_equal.ref :=
    vm.ops.ref_ne_of_nodup hnd (i := 17) (j := 9) rfl rfl (by decide)
  have e10 : ¬ vm.ops.not_equal.ref = vm.ops.not.ref :=
    vm.ops.ref_ne_of_nodup hnd (i := 17) (j := 10) rfl rfl (by decide)
  have e11 : ¬ vm.ops.not_equal.ref = vm.ops.question.ref :=
    vm.ops.ref_ne_of_nodup hnd (i := 17) (j := 11) rfl rfl (by decide)
  have e12 : ¬ vm.ops.not_equal.ref = vm.ops._if.ref :=
    vm.ops.ref_ne_of_nodup hnd (i := 17) (j := 12) rfl rfl (by decide)
  have e13 : ¬ vm.ops.not_equal.ref = vm.ops.dot.ref :=
    vm.ops.ref_ne_of_nodup hnd (i := 17) (j := 13) rfl rfl (by decide)
  have e14 : ¬ vm.ops.not_equal.ref = vm.ops.scan.ref :=
    vm.ops.ref_ne_of_nodup hnd (i := 17) (j := 14) rfl rfl (by decide)
  have e15 : ¬ vm.ops.not_equal.ref = vm.ops.set.ref :=
    vm.ops.ref_ne_of_nodup hnd (i := 17) (j := 15) rfl rfl (by decide)
  have e16 : ¬ vm.ops.not_equal.ref = vm.ops.comma.ref :=
    vm.ops.ref_ne_of_nodup hnd (i := 17) (j := 16) rfl rfl (by decide)
  simp only [run_operation, values_equal, beq_iff_eq, htype, e0, e1, e2, e3, e4, e5, e6, e7, e8,
    e9, e10, e11, e12, e13, e14, e15, e16, if_false]
  rfl

/-- Each operator `parenthesis` (compiler.c 236-268) accepts compiles, on the booted machine,
to `OP_PUSH_OPERATION` with the interned string `operators` (vm.c 25-44) holds for that
spelling as its constant. -/
theorem parenthesized_operators_compile :
    (compiled_chunk (source_text "(+)") booted_VM).code = [15, 0, 21] ∧
    (compiled_chunk (source_text "(+)") booted_VM).constants
      = [OBJ_STRING booted_VM.ops.plus] ∧
    (compiled_chunk (source_text "(-)") booted_VM).code = [15, 0, 21] ∧
    (compiled_chunk (source_text "(-)") booted_VM).constants
      = [OBJ_STRING booted_VM.ops.minus] ∧
    (compiled_chunk (source_text "(*)") booted_VM).code = [15, 0, 21] ∧
    (compiled_chunk (source_text "(*)") booted_VM).constants
      = [OBJ_STRING booted_VM.ops.star] ∧
    (compiled_chunk (source_text "(/)") booted_VM).code = [15, 0, 21] ∧
    (compiled_chunk (source_text "(/)") booted_VM).constants
      = [OBJ_STRING booted_VM.ops.divide] ∧
    (compiled_chunk (source_text "(=)") booted_VM).code = [15, 0, 21] ∧
    (compiled_chunk (source_text "(=)") booted_VM).constants
      = [OBJ_STRING booted_VM.ops.set] ∧
    (compiled_chunk (source_text "(?=)") booted_VM).code = [15, 0, 21] ∧
    (compiled_chunk (source_text "(?=)") booted_VM).constants
      = [OBJ_STRING booted_VM.ops.equal] ∧
    (compiled_chunk (source_text "(<)") booted_VM).code = [15, 0, 21] ∧
    (compiled_chunk (source_text "(<)") booted_VM).constants
      = [OBJ_STRING booted_VM.ops.less] ∧
    (compiled_chunk (source_text "(>)") booted_VM).code = [15, 0, 21] ∧
    (compiled_chunk (source_text "(>)") booted_VM).constants
      = [OBJ_STRING booted_VM.ops.greater] ∧
    (compiled_chunk (source_text "(!=)") booted_VM).code = [15, 0, 21] ∧
    (compiled_chunk (source_text "(!=)") booted_VM).constants
      = [OBJ_STRING booted_VM.ops.not_equal] ∧
    (compiled_chunk (source_text "(<=)") booted_VM).code = [15, 0, 21] ∧
    (compiled_chunk (source_text "(<=)") booted_VM).constants
      = [OBJ_STRING booted_VM.ops.less_equal] ∧
    (compiled_chunk (source_text "(>=)") booted_VM).code = [15, 0, 21] ∧
    (compiled_chunk (source_text "(>=)") booted_VM).constants
      = [OBJ_STRING booted_VM.ops.greater_equal] ∧
    (compiled_chunk (source_text "(!)") booted_VM).code = [15, 0, 21] ∧
    (compiled_chunk (source_text "(!)") booted_VM).constants
      = [OBJ_STRING booted_VM.ops.not] ∧
    (compiled_chunk (source_text "(?)") booted_VM).code = [15, 0, 21] ∧
    (compiled_chunk (source_text "(?)") booted_VM).constants
      = [OBJ_STRING booted_VM.ops.question] ∧
    (compiled_chunk (source_text "(,)") booted_VM).code = [15, 0, 21] ∧
    (compiled_chunk (source_text "(,)") booted_VM).constants
      = [OBJ_STRING booted_VM.ops.comma] ∧
    (compiled_chunk (source_text "(.)") booted_VM).code = [15, 0, 21] ∧
    (compiled_chunk (source_text "(.)") booted_VM).constants
      = [OBJ_STRING booted_VM.ops.dot] ∧
    (compiled_chunk (source_text "(^)") booted_VM).code = [15, 0, 21] ∧
    (compiled_chunk (source_text "(^)") booted_VM).constants
      = [OBJ_STRING booted_VM.ops.scan] ∧
    (compiled_chunk (source_text "(if)") booted_VM).code = [15, 0, 21] ∧
    (compiled_chunk (source_text "(if)") booted_VM).constants
      = [OBJ_STRING booted_VM.ops._if] ∧
    (compiled_chunk (source_text "(%)") booted_VM).code = [15, 0, 21] ∧
    (compiled_chunk (source_text "(%)") booted_VM).constants
      = [OBJ_STRING booted_VM.ops.mod] := by
  decide!

/-- C32, the code at the failing input. `(!=)` compiles to `OP_PUSH_OPERATION` with the
interned string `!=`, but `run_operation` has no branch for it: replayed from a procedure on
the operands 1 and 2 (and on 1 and 1) the operation returns Ok and leaves both operands on
the stack, where the compiled `!=` leaves `true` (and `false`). -/
theorem not_equal_operation_does_nothing :
    (compiled_chunk (source_text "(!=)") booted_VM).code = [15, 0, 21] ∧
    (compiled_chunk (source_text "(!=)") booted_VM).constants
      = [OBJ_STRING booted_VM.ops.not_equal] ∧
    booted_VM.ops.not_equal.chars = [33, 61, 0] ∧
    (interpret 100 (source_text ": 1 2 (!=) => f f ,") booted_VM).result = some INTERPRET_OK ∧
    (interpret 100 (source_text ": 1 2 (!=) => f f ,") booted_VM).machine.slots
      = [OBJ_CLOSURE 22, NUMBER (Double.fin 1), NUMBER (Double.fin 2)] ∧
    (interpret 100 (source_text ": 1 1 (!=) => f f ,") booted_VM).machine.slots
      = [OBJ_CLOSURE 22, NUMBER (Double.fin 1), NUMBER (Double.fin 1)] ∧
    (interpret 100 (source_text "1 2 !=") booted_VM).machine.slots
      = [OBJ_CLOSURE 21, BOOL true] ∧
    (interpret 100 (source_text "1 1 !=") booted_VM).machine.slots
      = [OBJ_CLOSURE 21, BOOL false] := by
  decide!

/-! ## Reads below the operand stack -/

/-- A `peek` at a distance the stack does not have reads outside the array: `peek`
(vm.c 141) is `vm.stack_top[-1 - distance]` without a test. -/
theorem peek_below_stack (distance : Nat) (vm : VM) (h : vm.stack.length ≤ distance) :
    peek distance vm = .error Fault.stack_underflow := by
  unfold peek
  rw [List.getElem?_eq_none h]

/-- A `pop` on the empty stack moves `vm.stack_top` below the array (vm.c 136-139). -/
theorem pop_below_stack (vm : VM) (h : vm.stack = []) :
    pop vm = .error Fault.stack_underflow := by
  unfold pop
  rw [h]

/-- With one value on the stack `vars_to_vals` (vm.c 207-230), the first step of every binary
operator, reads `peek(1)` below the stack. -/
theorem vars_to_vals_below_stack (vm : VM) (v : Value) (h : vm.stack = [v]) :
    vars_to_vals vm = .error Fault.stack_underflow := by
  have h0 : peek 0 vm = .ok v := by simp [peek, h]
  have h1 : peek 1 vm = .error Fault.stack_underflow := peek_below_stack 1 vm (by simp [h])
  simp only [vars_to_vals, h0, h1, bind, Except.bind]

theorem define_function_loop_below_stack (vm : VM) (hnil : ∀ v ∈ vm.stack, v ≠ NIL) :
    ∀ (remaining i : Nat) (array : List Value), i ≤ vm.stack.length →
      vm.stack.length - i < remaining →
      define_function_loop vm remaining i array = .error Fault.stack_underflow := by
  intro remaining
  induction remaining with
  | zero => intro i array _ h; exact absurd h (Nat.not_lt_zero _)
  | succ remaining ih =>
    intro i array hi hrem
    unfold define_function_loop
    by_cases hlen : i < vm.stack.length
    · have hget : vm.stack[i]? = some (vm.stack.get ⟨i, hlen⟩) := List.getElem?_eq_getElem hlen
      have hne : vm.stack.get ⟨i, hlen⟩ ≠ NIL := hnil _ (List.get_mem _ _ _)
      have hpeek : peek i vm = .ok (vm.stack.get ⟨i, hlen⟩) := by
        simp only [peek, hget]
      have hrest := ih (i + 1) (array ++ [vm.stack.get ⟨i, hlen⟩]) hlen (by omega)
      simp only [hpeek, bind, Except.bind]
      generalize vm.stack.get ⟨i, hlen⟩ = v at hne hrest
      cases v <;> first | exact absurd rfl hne | exact hrest
    · have hpeek := peek_below_stack i vm (by omega)
      simp only [hpeek, bind, Except.bind]

/-- Without a `Nil` on the stack (and with fewer than `STACK_MAX` values on it) the first
loop of `define_function` (vm.c 253-256) goes on below the bottom of the stack. -/
theorem define_function_without_sentinel (name : ObjString) (vm : VM)
    (hnil : ∀ v ∈ vm.stack, v ≠ NIL) (hcap : vm.stack.length < vm.STACK_MAX) :
    define_function name vm = .error Fault.stack_underflow := by
  have h := define_function_loop_below_stack { vm with objects := vm.objects + 1 } hnil
    vm.STACK_MAX 0 [] (Nat.zero_le _) (by simpa using hcap)
  simp only [define_function, h, bind, Except.bind]

/-- C33, the code at the failing inputs. Each of the sources compiles; on the booted
machine, where the script closure is alone on the stack, `+` and `if` peek below the bottom
of the stack, the second `.` of `. .` finds the stack empty and peeks below it, and
`1 => f`, with no `Nil` on the stack, peeks below it: none of them returns the runtime-error
result, the read is outside the stack array. -/
theorem short_stack_is_read_below_its_bottom :
    (compiled_chunk (source_text "+") booted_VM).code = [2, 21] ∧
    (interpret 100 (source_text "+") booted_VM).result = none ∧
    (interpret 100 (source_text "+") booted_VM).fault = some Fault.stack_underflow ∧
    (compiled_chunk (source_text "if") booted_VM).code = [14, 21] ∧
    (interpret 100 (source_text "if") booted_VM).result = none ∧
    (interpret 100 (source_text "if") booted_VM).fault = some Fault.stack_underflow ∧
    (compiled_chunk (source_text ". .") booted_VM).code = [0, 0, 21] ∧
    (interpret 100 (source_text ". .") booted_VM).result = none ∧
    (interpret 100 (source_text ". .") booted_VM).fault = some Fault.stack_underflow ∧
    (compiled_chunk (source_text "1 => f") booted_VM).code = [20, 0, 18, 1, 21] ∧
    (interpret 100 (source_text "1 => f") booted_VM).result = none ∧
    (interpret 100 (source_text "1 => f") booted_VM).fault = some Fault.stack_underflow := by
  decide!

/-! ## Termination of `compile` -/

theorem scan_token_consumes (s : Scanner) (h : s.current ≠ []) :
    (scan_token s).2.current.length < s.current.length := by
  have hskip : (skip_whitespace s).current.length ≤ s.current.length := by
    simp only [skip_whitespace]
    exact skip_whitespace_loop_length s.current false s.line
  have hpos : 0 < s.current.length := List.length_pos.2 h
  unfold scan_token
  dsimp only
  split
  · rename_i hcur
    simp only [hcur, List.length_nil]
    exact hpos
  · rename_i c rest hcur
    have hrest : rest.length < s.current.length := by
      rw [hcur] at hskip
      simp only [List.length_cons] at hskip
      omega
    have key : ∀ out : Token × Scanner, out.2.current.length ≤ rest.length →
        out.2.current.length < s.current.length := fun out h => Nat.lt_of_le_of_lt h hrest
    have leaf : ∀ out : Token × Scanner, (out.2.current.length ≤ rest.length) →
        (fun out : Token × Scanner => out.2.current.length < s.current.length) out :=
      fun out h => key out h
    have hQ := fun c inst a b => @ite_motive (Token × Scanner)
      (fun out : Token × Scanner => out.2.current.length < s.current.length) c inst a b
    have h0 := Nat.le_refl rest.length
    iterate 19 refine hQ _ _ _ _ (leaf _ (by first | exact number_length _ | exact identifier_length _ | exact match_token_length _ _ _ _ | exact string_length _ | exact h0)) ?_
    exact key _ h0

theorem scan_token_at_end (s : Scanner) (h : s.current = []) :
    (scan_token s).1.type = TOKEN_EOF ∧ (scan_token s).2.current = [] := by
  simp [scan_token, skip_whitespace, skip_whitespace_loop, h, make_token]

theorem scan_times_at_end (s : Scanner) (h : s.current = []) :
    ∀ n : Nat, (scan_times n s).current = [] := by
  intro n
  induction n generalizing s with
  | zero => exact h
  | succ n ih => exact ih _ (scan_token_at_end s h).2

theorem instruction_consumes (c : Compiling) (hcap : c.vm.stack.length < c.vm.STACK_MAX) :
    ∃ c', instruction c = .ok c' ∧ c'.pending ≤ c.scanner.current.length ∧
      (c.parser.current.type ≠ TOKEN_EOF → c'.pending < c.pending) := by
  obtain ⟨c', hins, hrel⟩ := instruction_advanced c hcap
  refine ⟨c', hins, hrel.2, ?_⟩
  intro hne
  have h1 := hrel.2
  have h2 : c.pending = c.scanner.current.length + 1 := by
    simp [Compiling.pending, hne]
  omega

/-- C34. For every source, on a machine whose operand stack has a free slot, `compile`
returns (a budget of two more than the length of the source is enough). Every call of
`instruction` returns having taken a token: the count of the characters not yet scanned,
plus one for a current token that is not `TOKEN_EOF`, is afterwards at most the number of
characters that were left to scan, so it has decreased whenever the current token was not
`TOKEN_EOF`. `scan_token` on a source with a character left leaves fewer characters, and at
the end of the source it returns `TOKEN_EOF` however often it is called. -/
theorem compile_terminates (fuel : Nat) (source : List Nat) (vm : VM)
    (hcap : vm.stack.length < vm.STACK_MAX) (hfuel : source.length + 1 < fuel) :
    (∃ function vm', compile fuel source vm = .ok (function, vm')) ∧
    (∀ c : Compiling, c.vm.stack.length < c.vm.STACK_MAX →
      ∃ c', instruction c = .ok c' ∧ c'.pending ≤ c.scanner.current.length ∧
        (c.parser.current.type ≠ TOKEN_EOF → c'.pending < c.pending)) ∧
    (∀ s : Scanner, s.current ≠ [] →
      (scan_token s).2.current.length < s.current.length) ∧
    (∀ s : Scanner, s.current = [] → ∀ n : Nat,
      (scan_token (scan_times n s)).1.type = TOKEN_EOF ∧ (scan_times n s).current = []) := by
  obtain ⟨function, vm', hcompile, -⟩ := compile_total fuel source vm hcap hfuel
  refine ⟨⟨function, vm', hcompile⟩, instruction_consumes, scan_token_consumes, ?_⟩
  intro s hs n
  have hend := scan_times_at_end s hs n
  exact ⟨(scan_token_at_end _ hend).1, hend⟩

theorem compile_terminates_witness :
    booted_VM.stack.length < booted_VM.STACK_MAX ∧ (source_text "( 'a").length + 1 < 7 ∧
    (compile 7 (source_text "( 'a") booted_VM).toOption.map Prod.fst = some none ∧
    (∃ function vm', compile 7 (source_text "( 'a") booted_VM = .ok (function, vm')) ∧
    (∀ c : Compiling, c.vm.stack.length < c.vm.STACK_MAX →
      ∃ c', instruction c = .ok c' ∧ c'.pending ≤ c.scanner.current.length ∧
        (c.parser.current.type ≠ TOKEN_EOF → c'.pending < c.pending)) ∧
    (∀ s : Scanner, s.current ≠ [] →
      (scan_token s).2.current.length < s.current.length) ∧
    (∀ s : Scanner, s.current = [] → ∀ n : Nat,
      (scan_token (scan_times n s)).1.type = TOKEN_EOF ∧ (scan_times n s).current = []) :=
  ⟨by decide, by decide, by decide!,
    compile_terminates 7 (source_text "( 'a") booted_VM (by decide) (by decide)⟩
